import Mathlib

/-! dbflex: flat-file record store

A shallow embedding of the filter evaluator and the mutation protocol of the
JSON and text drivers (`drivers/json`, `drivers/text`) and theorems about them.

Conventions of the embedding.

* A Go call that returns `(value, error)` and may also abort with a run-time
  panic is a value of `Outcome`.
* `interface{}` values are the inductive `Value`; a `toolkit.M` is a `Record`,
  an association list whose order stands for the iteration order of the map.
* Functions of the Go standard library whose exact behaviour is not part of
  this repository (`fmt.Sprint`, `strconv.ParseFloat`, `strings.ToLower` and the
  float comparisons) are fields of `GoLib`; theorems quantify over every
  `GoLib`, closed examples use the instance `asciiLib`.
-/

namespace Dbflex

/-! ## Values, records and outcomes -/

/-- Outcome of a Go call: a normal return with a nil error, a return with a
non-nil error, or a run-time panic (failed type assertion, index out of range). -/
inductive Outcome (α : Type) where
  | ok (a : α)
  | err (msg : String)
  | panic (msg : String)
  deriving DecidableEq

/-- Dynamic values held in an `interface{}`: what `encoding/json` decodes
(nil, bool, float64, string, slice, map) and what callers pass in filters and
store in struct fields (ints, `[]string`). `int` is the Go type `int`, `int64`
stands for a value of a sized integer type. A finite float64 is carried as the
rational it denotes. -/
inductive Value where
  | nil
  | bool (b : Bool)
  | int (i : Int)
  | int64 (i : Int)
  | float (q : ℚ)
  | str (s : String)
  | strs (ss : List String)
  | list (vs : List Value)
  | map (kvs : List (String × Value))

/-- A `toolkit.M` (a `map[string]interface{}`): keys with their values, listed
in the order in which the map is iterated. -/
abbrev Record := List (String × Value)

/-- The stored content of a JSON table file: the decoded elements of its
top-level array, in file order. -/
abbrev Table := List Record

/-- Map index expression `m[k]`: the value stored under exactly the key `k`. -/
def lookup (k : String) : Record → Option Value
  | [] => none
  | (k', v) :: rest => if k' = k then some v else lookup k rest

/-- Map assignment `m[k] = v`: overwrite the entry of an existing key in place,
otherwise add a new entry. -/
def assign (k : String) (v : Value) : Record → Record
  | [] => [(k, v)]
  | (k', v') :: rest => if k' = k then (k', v) :: rest else (k', v') :: assign k v rest

/-- The part of the Go standard library the evaluator calls. `F` stands for
float64, `parseFloat` for `strconv.ParseFloat(_, 64)`, `flt` and `fle` for the
float comparisons `<` and `<=`, `sprint` for `fmt.Sprint`, `toLower` for
`strings.ToLower`, `formatF` for `fmt.Sprintf("%f", _)`, `fadd` and `fdiv` for
the float64 addition and division of two floats given by the rationals they
denote. -/
structure GoLib where
  F : Type
  sprint : Value → String
  parseFloat : String → Except String F
  flt : F → F → Bool
  fle : F → F → Bool
  toLower : String → String
  formatF : ℚ → String
  fadd : ℚ → ℚ → ℚ
  fdiv : ℚ → ℚ → ℚ

/-- Function `strings.Split(s, sep)` for a one-character separator, on the
characters of `s`: always at least one segment. -/
def splitOn (sep : Char) : List Char → List String
  | [] => [""]
  | c :: cs =>
    match splitOn sep cs with
    | [] => [""]
    | hd :: tl => if c = sep then "" :: hd :: tl else String.mk (c :: hd.data) :: tl

/-- Function `strings.Contains(s, sub)`. -/
def strContains (s sub : String) : Bool :=
  s.data.tails.any (fun t => sub.data.isPrefixOf t)

/-- Function `strings.HasPrefix(s, p)`. -/
def strStartsWith (s p : String) : Bool := p.data.isPrefixOf s.data

/-- Function `strings.HasSuffix(s, p)`. -/
def strEndsWith (s p : String) : Bool := p.data.isSuffixOf s.data

/-! ## Filters (`dbflex.Filter`) -/

/-- Modelled from the spec: the operator tag of a filter node (`dbflex.FilterOp`,
declared in a file that is not part of the sources at hand). The names are the
constants the drivers compare against; `other` is any operator string that is
none of them. -/
inductive FilterOp where
  | OpAnd | OpOr | OpNot
  | OpEq | OpNe | OpGte | OpGt | OpLt | OpLte
  | OpRange | OpIn | OpNin | OpContains | OpStartWith | OpEndWith
  | other (name : String)
  deriving DecidableEq

/-- Modelled from the spec: the filter node `dbflex.Filter` (its declaration is
not part of the sources at hand); the fields are the ones the drivers read:
`Field`, `Op`, `Value`, `Items`. The children in `Items` are non-nil filters; the
nil filter only occurs as the filter of a whole query (`Option Filter`). -/
inductive Filter where
  | mk (Field : String) (Op : FilterOp) (Value : Value) (Items : List Filter)

/-- Modelled from the spec: constructor `dbflex.Eq(field, value)`, a `Compare` node. -/
def Eq (field : String) (v : Value) : Filter := .mk field .OpEq v []
/-- Modelled from the spec: constructor `dbflex.Ne(field, value)`. -/
def Ne (field : String) (v : Value) : Filter := .mk field .OpNe v []
/-- Modelled from the spec: constructor `dbflex.Gte(field, value)`. -/
def Gte (field : String) (v : Value) : Filter := .mk field .OpGte v []
/-- Modelled from the spec: constructor `dbflex.Gt(field, value)`. -/
def Gt (field : String) (v : Value) : Filter := .mk field .OpGt v []
/-- Modelled from the spec: constructor `dbflex.Lt(field, value)`. -/
def Lt (field : String) (v : Value) : Filter := .mk field .OpLt v []
/-- Modelled from the spec: constructor `dbflex.Lte(field, value)`. -/
def Lte (field : String) (v : Value) : Filter := .mk field .OpLte v []
/-- Modelled from the spec: constructor `dbflex.Range(field, from, to)`; the two
bounds are stored as a two-element `[]interface{}` (the drivers read
`f.Value.([]interface{})[0]` and `[1]`). -/
def Range (field : String) (lo hi : Value) : Filter := .mk field .OpRange (.list [lo, hi]) []
/-- Modelled from the spec: constructor `dbflex.And(items...)`; a node without a field. -/
def And (items : List Filter) : Filter := .mk "" .OpAnd .nil items
/-- Modelled from the spec: constructor `dbflex.Or(items...)`; a node without a field. -/
def Or (items : List Filter) : Filter := .mk "" .OpOr .nil items
/-- Modelled from the spec: constructor `dbflex.Not(item)`; a node without a field
whose single child is `Items[0]`. -/
def Not (item : Filter) : Filter := .mk "" .OpNot .nil [item]

/-- Operators for which a missing field is not reported
(`f.Op != OpAnd && f.Op != OpOr && f.Op != OpRange && f.Op != OpNot`). -/
def FilterOp.toleratesMissing : FilterOp → Bool
  | .OpAnd | .OpOr | .OpRange | .OpNot => true
  | _ => false

/-- The error of the missing-field check. -/
def fieldNotExist (field : String) : String :=
  "Field with name " ++ field ++ " is not exist in the table"

/-- The error of the final `else` branch of the operator dispatch. -/
def opNotDefined (op : FilterOp) : String :=
  match op with
  | .other name => "Filter Op " ++ name ++ " is not defined"
  | _ => "Filter Op is not defined"

/-- Loop `for _, keyword := range keywords` of `OpContains`. -/
def anyContains (lib : GoLib) (dataValue : String) (keywords : List String) : Bool :=
  keywords.any (fun keyword => strContains (lib.toLower dataValue) (lib.toLower keyword))

/-- Loop `for _, keyword := range keywords` of `OpIn` (negated for `OpNin`). -/
def anyEqualFold (lib : GoLib) (dataValue : String) (keywords : List String) : Bool :=
  keywords.any (fun keyword => lib.toLower dataValue == lib.toLower keyword)

/-- Numeric comparison: both operands go through `strconv.ParseFloat`, the data
value first; a parse failure is returned as the error. -/
def compareFloat (lib : GoLib) (dataValue : String) (value : Value)
    (cmp : lib.F → lib.F → Bool) : Outcome Bool :=
  match lib.parseFloat dataValue with
  | .error e => .err e
  | .ok v =>
    match lib.parseFloat (lib.sprint value) with
    | .error e => .err e
    | .ok c => .ok (cmp v c)

/-- The operator dispatch of `isIncluded` for a node without children, once
`dataValue` is known. It is shared by the JSON and the text driver, whose
dispatch chains are the same text. -/
def compareNode (lib : GoLib) (op : FilterOp) (value : Value) (dataValue : String) :
    Outcome Bool :=
  match op with
  | .OpEq => if dataValue ≠ lib.sprint value then .ok false else .ok true
  | .OpNe => if dataValue = lib.sprint value then .ok false else .ok true
  | .OpContains =>
    match value with
    | .strs keywords => .ok (anyContains lib dataValue keywords)
    | _ => .panic "interface conversion: interface {} is not []string"
  | .OpStartWith => .ok (strStartsWith dataValue (lib.sprint value))
  | .OpEndWith => .ok (strEndsWith dataValue (lib.sprint value))
  | .OpIn =>
    match value with
    | .strs keywords => .ok (anyEqualFold lib dataValue keywords)
    | _ => .panic "interface conversion: interface {} is not []string"
  | .OpNin =>
    match value with
    | .strs keywords => .ok (!anyEqualFold lib dataValue keywords)
    | _ => .panic "interface conversion: interface {} is not []string"
  | .OpGt => compareFloat lib dataValue value (fun v c => lib.flt c v)
  | .OpGte => compareFloat lib dataValue value (fun v c => lib.fle c v)
  | .OpLt => compareFloat lib dataValue value (fun v c => lib.flt v c)
  | .OpLte => compareFloat lib dataValue value (fun v c => lib.fle v c)
  | op => .err (opNotDefined op)

/-! ## JSON driver: the filter evaluator (`drivers/json/helper.go`) -/

namespace Json

/-- The first key of the record, in iteration order, that equals the segment
ignoring case (`for _, v := range data.Keys()` with `break` on the first hit). -/
def findKey (lib : GoLib) (s : String) (data : Record) : Option String :=
  (data.find? (fun kv => lib.toLower kv.1 == lib.toLower s)).map Prod.fst

/-- The loop `for _, s := range subNames` of `isIncluded`: `n` is
`len(subNames)`, `keys` are the keys found so far. A segment that is not found
is skipped and the loop goes on with the next one. After a hit that is not the
last expected one, `data = data[s].(map[string]interface{})` descends with the
segment as written in the filter, and panics when that entry is not a map. -/
def resolveLoop (lib : GoLib) (n : Nat) :
    List String → Record → List String → Outcome (Record × List String)
  | [], data, keys => .ok (data, keys)
  | s :: rest, data, keys =>
    match findKey lib s data with
    | none => resolveLoop lib n rest data keys
    | some v =>
      if (keys ++ [v]).length ≠ n then
        match lookup s data with
        | some (.map sub) => resolveLoop lib n rest sub (keys ++ [v])
        | _ => .panic "interface conversion: interface {} is not map[string]interface {}"
      else resolveLoop lib n rest data (keys ++ [v])

/-- Segments of the filter field: `strings.Split(f.Field, ".")`. -/
def subNames (field : String) : List String := splitOn '.' field.data

/-- Field resolution of `isIncluded`: the record the evaluation continues with
and the keys that were found. -/
def resolve (lib : GoLib) (field : String) (data : Record) :
    Outcome (Record × List String) :=
  resolveLoop lib (subNames field).length (subNames field) data []

/-- The value compared by the operators: `""` when no key was found, otherwise
`fmt.Sprint(data[keys[len(keys)-1]])` on the record reached by the resolution. -/
def dataValueOf (lib : GoLib) (data : Record) (keys : List String) : String :=
  match keys.getLast? with
  | none => ""
  | some k => lib.sprint ((lookup k data).getD .nil)

/-- Function `isIncluded` on a filter without children whose operator is a
comparison: resolution, missing-field check, operator dispatch. The recursive
calls of `OpRange`, made on the freshly built `Gte` and `Lte` filters, are calls
of this function. -/
def isIncludedLeaf (lib : GoLib) (data : Record) (field : String) (op : FilterOp)
    (value : Value) : Outcome Bool :=
  match resolve lib field data with
  | .panic m => .panic m
  | .err m => .err m
  | .ok (data1, keys) =>
    if keys.length ≠ (subNames field).length ∧ op.toleratesMissing = false then
      .err (fieldNotExist field)
    else compareNode lib op value (dataValueOf lib data1 keys)

/-- Branch `OpRange` of `isIncluded`, run on the record `data` reached by the
resolution of the range node itself: the lower bound `f.Value.([]interface{})[0]`
is read and checked with `Gte`; only when that holds is the upper bound `[1]`
read and checked with `Lte`. -/
def rangeNode (lib : GoLib) (data : Record) (field : String) (value : Value) :
    Outcome Bool :=
  match value with
  | .list (lo :: tl) =>
    match isIncludedLeaf lib data field .OpGte lo with
    | .panic m => .panic m
    | .err m => .err m
    | .ok false => .ok false
    | .ok true =>
      match tl with
      | hi :: _ =>
        match isIncludedLeaf lib data field .OpLte hi with
        | .panic m => .panic m
        | .err m => .err m
        | .ok secondResult => .ok (true && secondResult)
      | [] => .panic "index out of range [1] with length 1"
  | .list [] => .panic "index out of range [0] with length 0"
  | _ => .panic "interface conversion: interface {} is not []interface {}"

mutual
/-- Function `isIncluded(data, f)` of the JSON driver for a non-nil filter. -/
def isIncluded (lib : GoLib) (data : Record) : Filter → Outcome Bool
  | .mk field op value items =>
    match resolve lib field data with
    | .panic m => .panic m
    | .err m => .err m
    | .ok (data1, keys) =>
      if keys.length ≠ (subNames field).length ∧ op.toleratesMissing = false then
        .err (fieldNotExist field)
      else
        match op with
        | .OpRange => rangeNode lib data1 field value
        | .OpOr => orLoop lib data1 items
        | .OpAnd => andLoop lib data1 items
        | .OpNot =>
          match items with
          | [] => .panic "index out of range [0] with length 0"
          | p :: _ =>
            match isIncluded lib data1 p with
            | .panic m => .panic m
            | .err m => .err m
            | .ok r => .ok (!r)
        | _ => compareNode lib op value (dataValueOf lib data1 keys)
/-- Loop of branch `OpOr`: the first error is returned, the first true child
ends the loop with true. -/
def orLoop (lib : GoLib) (data : Record) : List Filter → Outcome Bool
  | [] => .ok false
  | ff :: rest =>
    match isIncluded lib data ff with
    | .panic m => .panic m
    | .err m => .err m
    | .ok true => .ok true
    | .ok false => orLoop lib data rest
/-- Loop of branch `OpAnd`: the first error is returned, the first false child
ends the loop with false. -/
def andLoop (lib : GoLib) (data : Record) : List Filter → Outcome Bool
  | [] => .ok true
  | ff :: rest =>
    match isIncluded lib data ff with
    | .panic m => .panic m
    | .err m => .err m
    | .ok false => .ok false
    | .ok true => andLoop lib data rest
end

/-- Function `isIncluded(data, f)` with the Go pointer argument: a nil filter
includes every record. -/
def isIncludedOpt (lib : GoLib) (data : Record) : Option Filter → Outcome Bool
  | none => .ok true
  | some f => isIncluded lib data f

end Json

/-! ## JSON driver: commands (`drivers/json/query.go`) and cursor (`drivers/json/cursor.go`) -/

mutual
/-- The loop `for _, key := range rv.MapKeys()` of `objToM` on a map, with the
result map `res` built so far. `pfx` is `strings.Join(parents, ".") + "."`, or
empty without parents. -/
def objToMLoop (pfx : String) : List (String × Value) → Record → Outcome Record
  | [], res => .ok res
  | kv :: rest, res =>
    match objToMEntry pfx kv res with
    | .ok res1 => objToMLoop pfx rest res1
    | .err m => .err m
    | .panic m => .panic m
/-- One turn of the loop of `objToM`, on the entry of one key. -/
def objToMEntry (pfx : String) : String × Value → Record → Outcome Record
  | (k, v), res => objToMValue pfx k v res
/-- The body of the loop of `objToM` for the key `k`: a nested map is
flattened by the recursive call with `k` added to the parents and its entries
are copied into `res`; any other value is stored under `prefix + key`.
`rv.MapIndex(key).Elem().Type()` panics on a nil value. -/
def objToMValue (pfx : String) (k : String) : Value → Record → Outcome Record
  | .nil, _ => .panic "reflect: call of reflect.Value.Type on zero Value"
  | .map sub, res =>
    match objToMLoop (pfx ++ k ++ ".") sub [] with
    | .ok subRes => .ok (subRes.foldl (fun acc kv => assign kv.1 kv.2 acc) res)
    | .err m => .err m
    | .panic m => .panic m
  | v, res => .ok (assign (pfx ++ k) v res)
end

/-- The payload under the key `data` of the command parameter: one record, or a
slice of records (`reflect.TypeOf(data).Kind() == reflect.Slice`). -/
inductive Payload where
  | single (r : Record)
  | slice (rs : List Record)

/-- Function `objToM(data)` on a payload: the flat map of a record; a slice is
neither a struct nor a map. -/
def objToM : Payload → Outcome Record
  | .single r => objToMLoop "" r []
  | .slice _ => .err "Expecting struct or map object but got slice"

/-- The number of halvings that bring `a` below `2^53`: the binary exponent of
the unit in the last place of the float64 nearest to `a`. The first argument
bounds the number of turns. -/
def float64Shift : Nat → Nat → Nat
  | 0, _ => 0
  | fuel + 1, a => if a < 2 ^ 53 then 0 else float64Shift fuel (a / 2) + 1

/-- The float64 that `strconv.ParseFloat(_, 64)` reads from the decimal numeral
of an integer, as the integer it denotes: an integer below `2^53` in magnitude
is read exactly, a larger one is rounded to 53 significant bits, a tie to the
even neighbour (no integer of a Go integer type reaches the overflow to
infinity). -/
def float64OfInt (i : Int) : Int :=
  let a := i.natAbs
  let e := float64Shift a a
  let q := a / 2 ^ e
  let rest := a % 2 ^ e
  let up : Bool := decide (2 ^ e < 2 * rest) || (decide (2 * rest = 2 ^ e) && decide (q % 2 = 1))
  let m := (if up then q + 1 else q) * 2 ^ e
  if i < 0 then -(m : Int) else (m : Int)

mutual
/-- The value `encoding/json` decodes into an `interface{}` from the text its
encoder writes for a value (`writeToJSONFile`, then `Decode`): null, booleans
and strings come back as they were, every number comes back as a float64, a
`[]string` as a `[]interface{}` of strings, slices and maps element by
element (a `[]string` is taken to be non-nil, a map is listed in the order it
had). -/
def jsonDecoded : Value → Value
  | .nil => .nil
  | .bool b => .bool b
  | .int i => .float (float64OfInt i)
  | .int64 i => .float (float64OfInt i)
  | .float q => .float q
  | .str s => .str s
  | .strs ss => .list (ss.map .str)
  | .list vs => .list (jsonDecodedList vs)
  | .map kvs => .map (jsonDecodedFields kvs)
/-- The elements of a slice, each as `encoding/json` decodes it. -/
def jsonDecodedList : List Value → List Value
  | [] => []
  | v :: vs => jsonDecoded v :: jsonDecodedList vs
/-- The entries of a map (or the fields of a record), each value as
`encoding/json` decodes it. -/
def jsonDecodedFields : List (String × Value) → List (String × Value)
  | [] => []
  | kv :: rest => jsonDecodedField kv :: jsonDecodedFields rest
/-- One entry of a map: the key is kept, the value is decoded. -/
def jsonDecodedField : String × Value → String × Value
  | (k, v) => (k, jsonDecoded v)
end

namespace Json

/-- The overlay loops of the update and save branches: every key `h` of the
stored record `ed` whose name equals, ignoring case, the name of a field of `m`
takes the value of the first such field (`ed[h] = v; break`). The loop runs
over the keys `ed` already has, so no key is added. -/
def overlay (lib : GoLib) (m : Record) (ed : Record) : Record :=
  ed.map (fun hv =>
    match m.find? (fun kv => lib.toLower hv.1 == lib.toLower kv.1) with
    | some kv => (hv.1, kv.2)
    | none => hv)

/-- Function `writeToJSONFile(data, file)` when the write succeeds: the stored
list of the file afterwards, that is the records the decoders read from the
text the encoder wrote. The encoder refuses none of the values carried here
(a float is finite); a failure of the file operations is left out. -/
def writeToJSONFile (data : List Record) : Table := data.map jsonDecodedFields

/-- The closure `insert` of `Execute`: the whole array is decoded, the payload
(each element of a slice, or the single value) appended, and the array
written back by `writeToJSONFile`. -/
def insert (parm : Option Payload) (file : Table) : Outcome Unit × Table :=
  match parm with
  | none => (.err "insert fail, no data", file)
  | some (.slice nd) => (.ok (), writeToJSONFile (file ++ nd))
  | some (.single data) => (.ok (), writeToJSONFile (file ++ [data]))

/-- The decoding loop of the update branch: `updatedData` in file order, or the
first error met. -/
def updateLoop (lib : GoLib) (filter : Option Filter) (data : Payload) :
    Table → Outcome Table
  | [] => .ok []
  | ed :: rest =>
    match isIncludedOpt lib ed filter with
    | .panic m => .panic m
    | .err m => .err m
    | .ok included =>
      match (if included then (match objToM data with
                | .ok m => Outcome.ok (overlay lib m ed)
                | .err e => .err e
                | .panic e => .panic e) else Outcome.ok ed) with
      | .panic m => .panic m
      | .err m => .err m
      | .ok ed1 =>
        match updateLoop lib filter data rest with
        | .ok updatedData => .ok (ed1 :: updatedData)
        | .err m => .err m
        | .panic m => .panic m

/-- The decoding loop of the save branch: as `updateLoop`, and `updatedCount`
counts the records that matched. -/
def saveLoop (lib : GoLib) (filter : Filter) (data : Payload) :
    Table → Outcome (Table × Nat)
  | [] => .ok ([], 0)
  | ed :: rest =>
    match isIncluded lib ed filter with
    | .panic m => .panic m
    | .err m => .err m
    | .ok included =>
      match (if included then (match objToM data with
                | .ok m => Outcome.ok (overlay lib m ed)
                | .err e => .err e
                | .panic e => .panic e) else Outcome.ok ed) with
      | .panic m => .panic m
      | .err m => .err m
      | .ok ed1 =>
        match saveLoop lib filter data rest with
        | .ok (updatedData, updatedCount) =>
          .ok (ed1 :: updatedData, if included then updatedCount + 1 else updatedCount)
        | .err m => .err m
        | .panic m => .panic m

/-- The decoding loop of the delete branch: the records the filter does not
include, in file order, or the first error met. -/
def deleteLoop (lib : GoLib) (filter : Option Filter) : Table → Outcome Table
  | [] => .ok []
  | data :: rest =>
    match isIncludedOpt lib data filter with
    | .panic m => .panic m
    | .err m => .err m
    | .ok included =>
      match deleteLoop lib filter rest with
      | .ok updatedData => .ok (if included then updatedData else data :: updatedData)
      | .err m => .err m
      | .panic m => .panic m

/-- The command type of a query (`cmdType`). -/
inductive Command where
  | QuerySelect | QuerySave | QueryInsert | QueryUpdate | QueryDelete
  | unknown (name : String)

/-- The `switch cmdType` of `Execute`, run on the opened file: the outcome of
the command and the stored list when it returns. The file is only written by
`writeToJSONFile`, after the decoding loop has ended without error. In the save
branch `objToM(data)` has succeeded before the loop, so `data` is a single
record when `append(updatedData, data)` is reached. The insert and save
branches give the list that is read back from the file they wrote
(`writeToJSONFile`); for the update and delete branches the list is the one
handed to `writeToJSONFile`. -/
def runCommand (lib : GoLib) (cmd : Command) (filter : Option Filter)
    (parm : Option Payload) (file : Table) : Outcome Unit × Table :=
  match cmd with
  | .QuerySelect => (.err "select command should use cursor instead of execute", file)
  | .QuerySave =>
    match parm with
    | none => (.err "update fail, no data", file)
    | some data =>
      match objToM data with
      | .err e => (.err e, file)
      | .panic e => (.panic e, file)
      | .ok mData =>
        match lookup "_id" mData with
        | some v =>
          match saveLoop lib (Eq "_id" v) data file with
          | .err e => (.err e, file)
          | .panic e => (.panic e, file)
          | .ok (updatedData, updatedCount) =>
            if updatedCount = 0 then
              match data with
              | .single r => (.ok (), writeToJSONFile (updatedData ++ [r]))
              | .slice _ => (.ok (), writeToJSONFile updatedData)
            else (.ok (), writeToJSONFile updatedData)
        | none => insert parm file
  | .QueryInsert => insert parm file
  | .QueryUpdate =>
    match parm with
    | none => (.err "update fail, no data", file)
    | some data =>
      match updateLoop lib filter data file with
      | .err e => (.err e, file)
      | .panic e => (.panic e, file)
      | .ok updatedData => (.ok (), updatedData)
  | .QueryDelete =>
    match filter with
    | none => (.ok (), [])
    | some _ =>
      match deleteLoop lib filter file with
      | .err e => (.err e, file)
      | .panic e => (.panic e, file)
      | .ok updatedData => (.ok (), updatedData)
  | .unknown name => (.err ("unknown command: " ++ name), file)

end Json

/-- A lock operation performed by `Execute`, on the mutex of the connection or
on the advisory lock of the table file. -/
inductive LockEvent where
  | mutexLock | fileLock | fileUnlock | mutexUnlock
  deriving DecidableEq

/-- What the operating system answers to `Execute`: whether
`fileLock.TryLockContext` obtained the lock before its 30 second deadline, and
whether opening the table file succeeded. -/
structure Env where
  lockAcquired : Bool
  fileOpened : Bool

/-- The locks held by a call: the mutex of the connection and the advisory
lock of the table file. -/
structure Locks where
  mutexHeld : Bool
  fileLockHeld : Bool
  deriving DecidableEq

/-- Effect of one lock operation. -/
def Locks.step (s : Locks) : LockEvent → Locks
  | .mutexLock => { s with mutexHeld := true }
  | .fileLock => { s with fileLockHeld := true }
  | .fileUnlock => { s with fileLockHeld := false }
  | .mutexUnlock => { s with mutexHeld := false }

/-- The locks held after a sequence of lock operations that starts with both
locks free. -/
def locksAfter (events : List LockEvent) : Locks :=
  events.foldl Locks.step { mutexHeld := false, fileLockHeld := false }

namespace Json

/-- Method `Query.Execute` on an existing table file: the outcome, the stored
list when the call returns, and the lock operations performed, in order.
The mutex is locked first; a failed `TryLockContext` returns at once; the
deferred function (`fileLock.Unlock()` then the mutex `Unlock()`) is registered
only after the file lock is obtained and runs on every later exit. -/
def Execute (lib : GoLib) (env : Env) (cmd : Command) (filter : Option Filter)
    (parm : Option Payload) (file : Table) : Outcome Unit × Table × List LockEvent :=
  if env.lockAcquired = false then
    (.err "unable to lock file", file, [.mutexLock])
  else if env.fileOpened = false then
    (.err "open: file cannot be opened", file,
      [.mutexLock, .fileLock, .fileUnlock, .mutexUnlock])
  else
    ((runCommand lib cmd filter parm file).1, (runCommand lib cmd filter parm file).2,
      [.mutexLock, .fileLock, .fileUnlock, .mutexUnlock])

/-- Function `mapToObject(data, result)` for a buffer element that is a map
(`toolkit.M`): every entry of the record is set on a fresh map with
`rv.SetMapIndex(reflect.ValueOf(k), reflect.ValueOf(v))`. For a nil value
`reflect.ValueOf(v)` is the zero `Value`, with which `SetMapIndex` deletes the
key, so the entries with a nil value are not in the result. For a map the
function returns no error. -/
def mapToObject (data : Record) : Record :=
  data.filter (fun kv => match kv.2 with
    | .nil => false
    | _ => true)

/-- The scan loop of `Cursor.Fetchs` for a buffer of maps: `read` counts the
matching records, those counted above zero are converted by `mapToObject` and
appended to the buffer, and the loop stops when `read` reaches
`shouldFetched`. -/
def scanLoop (lib : GoLib) (filter : Option Filter) (shouldFetched : Int) :
    Table → Int → List Record → Outcome (List Record)
  | [], _, ivs => .ok ivs
  | data :: rest, read, ivs =>
    match isIncludedOpt lib data filter with
    | .panic m => .panic m
    | .err m => .err m
    | .ok false => scanLoop lib filter shouldFetched rest read ivs
    | .ok true =>
      if read + 1 = shouldFetched then
        .ok (if read + 1 > 0 then ivs ++ [mapToObject data] else ivs)
      else
        scanLoop lib filter shouldFetched rest (read + 1)
          (if read + 1 > 0 then ivs ++ [mapToObject data] else ivs)

/-- Method `Cursor.Fetchs(result, n)` of a query without sort, aggregate or
group items: `read` starts at `-skip` and `shouldFetched` is `take` (`n` when
the query has no take item). The result is the buffer content, or the error
set on the cursor. -/
def FetchsPlain (lib : GoLib) (filter : Option Filter) (skip take : Int) (file : Table) :
    Outcome (List Record) :=
  scanLoop lib filter take file (-skip) []

end Json

/-! ## Text driver: filter evaluator (`drivers/text/helper.go`) and commands (`drivers/text/query.go`) -/

/-- Decimal digits of a natural number, least significant first; `fuel` bounds
the number of digits. -/
def digitsRev : Nat → Nat → List Char
  | 0, _ => []
  | fuel + 1, n =>
    Char.ofNat (48 + n % 10) :: (if n / 10 = 0 then [] else digitsRev fuel (n / 10))

/-- Decimal rendering of an integer: `fmt.Sprintf("%d", i)`. -/
def intText (i : Int) : String :=
  match i with
  | .ofNat n => String.mk (digitsRev (n + 1) n).reverse
  | .negSucc n => String.mk ('-' :: (digitsRev (n + 2) (n + 1)).reverse)

/-- Function `strings.Join(elems, sep)` for a one-character separator. -/
def joinWith (sep : Char) : List String → String
  | [] => ""
  | [a] => a
  | a :: rest => a ++ String.mk [sep] ++ joinWith sep rest

namespace Text

/-- Type `WriteMode`: whether `objToText` insists on every header field
(`ModeStrict`) or writes an empty column for a missing one (`ModeLoose`). -/
inductive WriteMode where
  | ModeStrict
  | ModeLoose
  deriving DecidableEq

/-- The settings of a text table (`Config`, without the date formats): the
delimiter, whether quote signs are in use, the quote signs (an opening
character, optionally with a different closing one), and the write mode. The
fields not given take the values `NewConfig` sets. -/
structure Config where
  Delimeter : Char
  UseSign : Bool := true
  Signs : List (List Char) := [['"'], [Char.ofNat 39]]
  WriteMode : WriteMode := .ModeStrict

/-- Function `strings.Trim(s, "\"")`: leading and trailing double quotes removed. -/
def trimQuotes (s : String) : String :=
  String.mk ((s.data.dropWhile (· == '"')).reverse.dropWhile (· == '"')).reverse

/-- The loop over `header` of `isIncluded`: index of the first column whose
name equals the field ignoring case, `none` for the Go value `-1`. -/
def headerIndex (lib : GoLib) (field : String) : List String → Option Nat
  | [] => none
  | v :: rest =>
    if lib.toLower v == lib.toLower field then some 0
    else (headerIndex lib field rest).map (· + 1)

/-- The value compared by the operators: `""` when the column was not found,
otherwise `strings.Trim(data[i], "\"")`, which panics when the row has no
column `i`. -/
def dataValueOf (data : List String) : Option Nat → Outcome String
  | none => .ok ""
  | some i =>
    match data[i]? with
    | some cell => .ok (trimQuotes cell)
    | none => .panic "index out of range"

/-- Function `isIncluded` of the text driver on a filter without children whose
operator is a comparison; the recursive calls of `OpRange` are calls of it. -/
def isIncludedLeaf (lib : GoLib) (data header : List String) (field : String)
    (op : FilterOp) (value : Value) : Outcome Bool :=
  if headerIndex lib field header = none ∧ op.toleratesMissing = false then
    .err (fieldNotExist field)
  else
    match dataValueOf data (headerIndex lib field header) with
    | .panic m => .panic m
    | .err m => .err m
    | .ok dataValue => compareNode lib op value dataValue

/-- Branch `OpRange` of the text `isIncluded`. -/
def rangeNode (lib : GoLib) (data header : List String) (field : String) (value : Value) :
    Outcome Bool :=
  match value with
  | .list (lo :: tl) =>
    match isIncludedLeaf lib data header field .OpGte lo with
    | .panic m => .panic m
    | .err m => .err m
    | .ok false => .ok false
    | .ok true =>
      match tl with
      | hi :: _ =>
        match isIncludedLeaf lib data header field .OpLte hi with
        | .panic m => .panic m
        | .err m => .err m
        | .ok secondResult => .ok (true && secondResult)
      | [] => .panic "index out of range [1] with length 1"
  | .list [] => .panic "index out of range [0] with length 0"
  | _ => .panic "interface conversion: interface {} is not []interface {}"

mutual
/-- Function `isIncluded(data, header, f)` of the text driver for a non-nil filter. -/
def isIncluded (lib : GoLib) (data header : List String) : Filter → Outcome Bool
  | .mk field op value items =>
    if headerIndex lib field header = none ∧ op.toleratesMissing = false then
      .err (fieldNotExist field)
    else
      match dataValueOf data (headerIndex lib field header) with
      | .panic m => .panic m
      | .err m => .err m
      | .ok dataValue =>
        match op with
        | .OpRange => rangeNode lib data header field value
        | .OpOr => orLoop lib data header items
        | .OpAnd => andLoop lib data header items
        | .OpNot =>
          match items with
          | [] => .panic "index out of range [0] with length 0"
          | p :: _ =>
            match isIncluded lib data header p with
            | .panic m => .panic m
            | .err m => .err m
            | .ok r => .ok (!r)
        | _ => compareNode lib op value dataValue
/-- Loop of branch `OpOr` of the text driver. -/
def orLoop (lib : GoLib) (data header : List String) : List Filter → Outcome Bool
  | [] => .ok false
  | ff :: rest =>
    match isIncluded lib data header ff with
    | .panic m => .panic m
    | .err m => .err m
    | .ok true => .ok true
    | .ok false => orLoop lib data header rest
/-- Loop of branch `OpAnd` of the text driver. -/
def andLoop (lib : GoLib) (data header : List String) : List Filter → Outcome Bool
  | [] => .ok true
  | ff :: rest =>
    match isIncluded lib data header ff with
    | .panic m => .panic m
    | .err m => .err m
    | .ok false => .ok false
    | .ok true => andLoop lib data header rest
end

/-- Function `isIncluded(data, header, f)` with the Go pointer argument: a nil
filter includes every row. -/
def isIncludedOpt (lib : GoLib) (data header : List String) : Option Filter → Outcome Bool
  | none => .ok true
  | some f => isIncluded lib data header f

/-- Function `interfaceToText(data, fieldName, cfg)` on the value kinds of
`Value`: integers as `%d`, floats as `%f`, strings between double quotes, any
other kind as the empty text. -/
def interfaceToText (lib : GoLib) : Value → String
  | .int i => intText i
  | .int64 i => intText i
  | .float q => lib.formatF q
  | .str s => "\"" ++ s ++ "\""
  | _ => ""

/-- The loop `for i, h := range header` of the update block: the new text of a
matching row, column by column. A column named by a field of `m` (ignoring
case) takes the text of that field, any other keeps `oldData[i]`, which panics
when the old row has no column `i`. -/
def updatedColumns (lib : GoLib) (m : Record) (oldData : List String) :
    List String → Nat → Outcome (List String)
  | [], _ => .ok []
  | h :: rest, i =>
    match (match m.find? (fun kv => lib.toLower h == lib.toLower kv.1) with
            | some kv => Outcome.ok (interfaceToText lib kv.2)
            | none =>
              match oldData[i]? with
              | some old => Outcome.ok old
              | none => Outcome.panic "index out of range") with
    | .panic e => .panic e
    | .err e => .err e
    | .ok col =>
      match updatedColumns lib m oldData rest (i + 1) with
      | .ok cols => .ok (col :: cols)
      | .err e => .err e
      | .panic e => .panic e

/-- The scan loop of the update block after the header line: `temp` is what has
been written to the temporary file, `updatedCount` the number of rows
rewritten so far. The count is returned with the error when the loop fails. -/
def updateScan (lib : GoLib) (cfg : Config) (filter : Option Filter) (data : Payload)
    (header : List String) : List String → List String → Nat → Outcome (List String) × Nat
  | [], temp, updatedCount => (.ok temp, updatedCount)
  | txt :: rest, temp, updatedCount =>
    match isIncludedOpt lib (splitOn cfg.Delimeter txt.data) header filter with
    | .panic e => (.panic e, updatedCount)
    | .err e => (.err e, updatedCount)
    | .ok false => updateScan lib cfg filter data header rest (temp ++ [txt]) updatedCount
    | .ok true =>
      match objToM data with
      | .panic e => (.panic e, updatedCount)
      | .err e => (.err e, updatedCount)
      | .ok m =>
        match updatedColumns lib m (splitOn cfg.Delimeter txt.data) header 0 with
        | .panic e => (.panic e, updatedCount)
        | .err e => (.err e, updatedCount)
        | .ok updatedData =>
          updateScan lib cfg filter data header rest
            (temp ++ [joinWith cfg.Delimeter updatedData]) (updatedCount + 1)

/-- The result of the closure `update`: the count and the error it returns, and
the lines of the table file when it returns. -/
structure UpdateResult where
  count : Nat
  outcome : Outcome Unit
  file : List String

/-- The closure `update` of `Execute` on the lines of the table file (the header
line first). The rows are copied, rewritten where the filter matches, into a
temporary file; the table file is replaced by it (`os.Rename`) only when the
loop ended without error and `updatedCount` is not zero, otherwise the
temporary file is removed or left behind. `tempCreated` tells whether the
temporary file could be created. -/
def update (lib : GoLib) (cfg : Config) (tempCreated : Bool) (filter : Option Filter)
    (parm : Option Payload) (file : List String) : UpdateResult :=
  match parm with
  | none => { count := 0, outcome := .err "update fail, no data", file := file }
  | some data =>
    if tempCreated = false then
      { count := 0, outcome := .err "unable to create temp file", file := file }
    else
      match file with
      | [] => { count := 0, outcome := .ok (), file := file }
      | txt :: rows =>
        match updateScan lib cfg filter data (splitOn cfg.Delimeter txt.data) rows [txt] 0 with
        | (.ok temp, updatedCount) =>
          if updatedCount = 0 then { count := updatedCount, outcome := .ok (), file := file }
          else { count := updatedCount, outcome := .ok (), file := temp }
        | (.err e, updatedCount) => { count := updatedCount, outcome := .err e, file := file }
        | (.panic e, updatedCount) => { count := updatedCount, outcome := .panic e, file := file }

/-- The scan loop of the delete branch after the header line: the rows the
filter does not include are copied to the temporary file. -/
def deleteScan (lib : GoLib) (cfg : Config) (filter : Option Filter)
    (header : List String) : List String → List String → Outcome (List String)
  | [], temp => .ok temp
  | txt :: rest, temp =>
    match isIncludedOpt lib (splitOn cfg.Delimeter txt.data) header filter with
    | .panic e => .panic e
    | .err e => .err e
    | .ok true => deleteScan lib cfg filter header rest temp
    | .ok false => deleteScan lib cfg filter header rest (temp ++ [txt])

/-- The commands of the text driver embedded here; the insert block, which
`QueryInsert` and `QuerySave` run, is not embedded. -/
inductive Command where
  | QuerySelect | QueryUpdate | QueryDelete
  | unknown (name : String)

/-- The `switch cmdType` of the text `Execute` for the commands of `Command`. -/
def runCommand (lib : GoLib) (cfg : Config) (tempCreated : Bool) (cmd : Command)
    (filter : Option Filter) (parm : Option Payload) (file : List String) :
    Outcome Unit × List String :=
  match cmd with
  | .QuerySelect => (.err "select command should use cursor instead of execute", file)
  | .QueryUpdate =>
    ((update lib cfg tempCreated filter parm file).outcome,
      (update lib cfg tempCreated filter parm file).file)
  | .QueryDelete =>
    match filter with
    | none => (.ok (), [])
    | some _ =>
      if tempCreated = false then (.err "unable to create temp file", file)
      else
        match file with
        | [] => (.ok (), [])
        | txt :: rows =>
          match deleteScan lib cfg filter (splitOn cfg.Delimeter txt.data) rows [txt] with
          | .ok temp => (.ok (), temp)
          | .err e => (.err e, file)
          | .panic e => (.panic e, file)
  | .unknown name => (.err ("unknown command: " ++ name), file)

/-- Method `Query.Execute` of the text driver on an existing table file, with
the lock operations performed. The mutex is locked first; a failed
`TryLockContext` and a failed `os.OpenFile` both return before the deferred
function (`fileLock.Unlock()`, `file.Close()`, the mutex `Unlock()`) is
registered. -/
def Execute (lib : GoLib) (cfg : Config) (env : Env) (tempCreated : Bool) (cmd : Command)
    (filter : Option Filter) (parm : Option Payload) (file : List String) :
    Outcome Unit × List String × List LockEvent :=
  if env.lockAcquired = false then
    (.err "unable to lock file", file, [.mutexLock])
  else if env.fileOpened = false then
    (.err "unable to open file", file, [.mutexLock, .fileLock])
  else
    ((runCommand lib cfg tempCreated cmd filter parm file).1,
      (runCommand lib cfg tempCreated cmd filter parm file).2,
      [.mutexLock, .fileLock, .fileUnlock, .mutexUnlock])

end Text

/-! ## Cursors (`drivers/json/cursor.go`, `drivers/text/cursor.go`) -/

/-- How a cursor method ends: it returns, or it aborts with a run-time panic.
Errors are not returned by the cursor methods but recorded on the cursor. -/
inductive Returned (α : Type) where
  | returned (a : α)
  | panicked (msg : String)

/-- The final slicing of `Cursor.Fetchs` (the same text in both drivers):
`start := skip`, `end := take + skip`, replaced by the length when it exceeds
it, then `rv.Slice(start, end)`, which panics when `start` is negative or
`end` is below `start`. -/
def sliceStep {α : Type} (skip take : Int) (rv : List α) : Outcome (List α) :=
  let stop : Int := if take + skip > rv.length then rv.length else take + skip
  if skip < 0 ∨ stop < skip then .panic "reflect.Value.Slice: slice index out of bounds"
  else .ok ((rv.take stop.toNat).drop skip.toNat)

/-- A stage of the slow path of `Fetchs` that is embedded elsewhere (the
aggregation with the copy of its results into the buffer, or the sort by the
order fields): from the buffer to the error it ends with, if any, and the
buffer it leaves. -/
abbrev Stage := List Record → Outcome Unit × List Record

/-- The query items a cursor reads from `c.extra`: the aggregate, group and
order items (for the aggregate and the order item, the stage they request) and
the skip and take items. -/
structure Extra where
  aggr : Option Stage
  group : Bool
  order : Option Stage
  skip : Option Int
  take : Option Int

/-- A query without group, aggregate, order, skip or take item. -/
def Extra.plain : Extra :=
  { aggr := none, group := false, order := none, skip := none, take := none }

/-- Run a stage that the query may or may not request. -/
def runStage : Option Stage → List Record → Outcome Unit × List Record
  | none, buffer => (.ok (), buffer)
  | some stage, buffer => stage buffer

namespace Json

/-- Modelled from the spec: the part of the cursor state the methods embedded
here use. `filter` and `extra` are the fields of the JSON cursor; `error` is
the error kept by `dbflex.CursorBase` (whose declaration is not part of the
sources at hand): `SetError` stores it, `Error` reads it, and it stays until it
is cleared. -/
structure Cursor where
  filter : Option Filter
  extra : Extra
  error : Option String

/-- The scan loop as `Cursor.Fetchs(result, n)` runs it: with the early exit
(`read = -skip`, `shouldFetched = take`) when the query has no sort, aggregate
or group item, without it (`read = 0`, `shouldFetched = 0`) otherwise. -/
def Cursor.scan (lib : GoLib) (c : Cursor) (file : Table) (n : Int) : Outcome (List Record) :=
  let skip := c.extra.skip.getD 0
  let take := c.extra.take.getD n
  let slow := c.extra.order.isSome || c.extra.aggr.isSome || c.extra.group
  scanLoop lib c.filter (if slow then 0 else take) file (if slow then 0 else -skip) []

/-- Method `Cursor.Fetchs(result, n)` of the JSON driver on the stored list of
the table file: the cursor and the content of the buffer `result` when the
method returns. A cursor that holds an error returns at once. The scan runs
with the early exit unless a sort, aggregate or group item is present; an
error of the scan is set on the cursor and the method returns before the
buffer is assigned. -/
def Cursor.Fetchs (lib : GoLib) (c : Cursor) (file : Table) (result : List Record)
    (n : Int) : Returned (Cursor × List Record) :=
  match c.error with
  | some _ => .returned (c, result)
  | none =>
    let skip := c.extra.skip.getD 0
    let take := c.extra.take.getD n
    let slow := c.extra.order.isSome || c.extra.aggr.isSome || c.extra.group
    match c.scan lib file n with
    | .panic m => .panicked m
    | .err e => .returned ({ c with error := some e }, result)
    | .ok ivs =>
      match runStage c.extra.aggr ivs with
      | (.panic m, _) => .panicked m
      | (.err e, buffer) => .returned ({ c with error := some e }, buffer)
      | (.ok _, aggregated) =>
        match runStage c.extra.order aggregated with
        | (.panic m, _) => .panicked m
        | (.err e, buffer) => .returned ({ c with error := some e }, buffer)
        | (.ok _, sorted) =>
          if slow = true ∧ (skip ≠ 0 ∨ take ≠ 0) then
            match sliceStep skip take sorted with
            | .ok sliced => .returned (c, sliced)
            | .err e => .returned ({ c with error := some e }, sorted)
            | .panic m => .panicked m
          else .returned (c, sorted)

end Json

namespace Text

/-- The scan loop of the text `Cursor.Fetchs` over the lines the scanner
yields. The first line is taken as the header while `read` is negative and no
header is saved. On a row the filter includes, `read` is incremented, the row
is decoded by `textToObj` and appended when `read >= 0`, and the loop stops
when `read` equals `shouldFetched`. `textToObj` is the decoder of a row into
the element type of the buffer. -/
def scanLoop {α : Type} (lib : GoLib) (cfg : Config) (filter : Option Filter)
    (textToObj : String → List String → Outcome α) (shouldFetched : Int) :
    List String → List String → Int → List α → Outcome (List α)
  | [], _, _, ivs => .ok ivs
  | line :: rest, header, read, ivs =>
    if read < 0 ∧ header.length = 0 then
      scanLoop lib cfg filter textToObj shouldFetched rest
        (splitOn cfg.Delimeter line.data) (read + 1) ivs
    else
      match isIncludedOpt lib (splitOn cfg.Delimeter line.data) header filter with
      | .panic m => .panic m
      | .err m => .err m
      | .ok false => scanLoop lib cfg filter textToObj shouldFetched rest header read ivs
      | .ok true =>
        match (if read + 1 ≥ 0 then
                (match textToObj line header with
                  | .ok iv => Outcome.ok (ivs ++ [iv])
                  | .err e => .err ("unable to serialize data. " ++ line ++ " - " ++ e)
                  | .panic e => .panic e)
              else Outcome.ok ivs) with
        | .panic m => .panic m
        | .err m => .err m
        | .ok ivs1 =>
          if read + 1 = shouldFetched then .ok ivs1
          else scanLoop lib cfg filter textToObj shouldFetched rest header (read + 1) ivs1

/-- Method `Cursor.Fetchs(result, n)` of the text driver for a query without
sort, aggregate or group items, on a newly opened file: `read` starts at
`-1 - skip` and `shouldFetched` is `take`. The result is the buffer content, or
the error set on the cursor. -/
def FetchsPlain {α : Type} (lib : GoLib) (cfg : Config) (filter : Option Filter)
    (textToObj : String → List String → Outcome α) (skip take : Int)
    (lines : List String) : Outcome (List α) :=
  scanLoop lib cfg filter textToObj take lines [] (-1 - skip) []

/-- The loop of the text `Cursor.Count`: while `read` is negative the line is
the header, whose names are stored without their double quotes; afterwards
`read` counts the rows on which `isIncluded` returns true, its error being
dropped (`ok, _ := isIncluded(...)`). -/
def countLoop (lib : GoLib) (cfg : Config) (filter : Option Filter) :
    List String → List String → Int → Returned Int
  | [], _, read => .returned read
  | line :: rest, header, read =>
    if read < 0 then
      countLoop lib cfg filter rest
        (header ++ (splitOn cfg.Delimeter line.data).map trimQuotes) (read + 1)
    else
      match isIncludedOpt lib (splitOn cfg.Delimeter line.data) header filter with
      | .panic m => .panicked m
      | .ok true => countLoop lib cfg filter rest header (read + 1)
      | _ => countLoop lib cfg filter rest header read

/-- Method `Cursor.Count()` of the text driver on the lines of the table file:
`read` starts at `-1` "because of file header". -/
def Count (lib : GoLib) (cfg : Config) (filter : Option Filter) (lines : List String) :
    Returned Int :=
  countLoop lib cfg filter lines [] (-1)

end Text

/-! ## Single-record fetch (`Cursor.Fetch`) -/

/-- The sentinel `dbflex.EOF` (`errors.New("EOF")`). -/
def EOF : String := "EOF"

namespace Json

/-- The end of `Cursor.Fetch`, after the test of `err`: the first element of the
buffer is copied into `out`, or the error `dbflex.EOF` is set on the cursor
when the buffer is empty. -/
def Cursor.fetchTail (c : Cursor) (buffer : List Record) (out : Record) : Cursor × Record :=
  match buffer with
  | v1 :: _ => (c, v1)
  | [] => ({ c with error := some EOF }, out)

/-- Method `Cursor.Fetch(out)` of the JSON driver: the cursor and the content of
`out` when it returns. `err := c.Fetchs(buffer, 1)` binds the value `Fetchs`
returns, which is the cursor itself as a `dbflex.ICursor`, never nil; the test
`err != nil` therefore returns in every call. -/
def Cursor.Fetch (lib : GoLib) (c : Cursor) (file : Table) (out : Record) :
    Returned (Cursor × Record) :=
  match c.Fetchs lib file [] 1 with
  | .panicked m => .panicked m
  | .returned (c1, buffer) =>
    let err : Option Cursor := some c1
    match err with
    | some _ => .returned (c1, out)
    | none => .returned (c1.fetchTail buffer out)

end Json

namespace Text

/-- Method `Cursor.Fetch(out)` of the text driver for a query without extra
items on a newly opened file: the error on the cursor and the content of `out`
when it returns. `err := c.Fetchs(buffer, 1).Error()` is the error of the
cursor; without error the first element of the buffer is copied into `out`, or
`dbflex.EOF` is set when the buffer is empty. -/
def Fetch {α : Type} (lib : GoLib) (cfg : Config) (filter : Option Filter)
    (textToObj : String → List String → Outcome α) (lines : List String) (out : α) :
    Returned (Option String × α) :=
  match FetchsPlain lib cfg filter textToObj 0 1 lines with
  | .panic m => .panicked m
  | .err e => .returned (some e, out)
  | .ok buffer =>
    match buffer with
    | v1 :: _ => .returned (none, v1)
    | [] => .returned (some EOF, out)

end Text

/-! ## Connection pool (`pooling.go`) -/

/-- The fields of a `PoolItem` the pool reads: whether it is in use and whether
it has been closed. -/
structure PoolItem where
  used : Bool
  closed : Bool
  deriving DecidableEq

/-- The pool `DbPooling` with the pool items it has created. `items` is
`p.items`, a slice of pointers: an entry is nil or refers to the pool item
with that index in `heap`, where every pool item created so far lives on, also
after it has left the slice. `asked` counts the calls of the factory `fnNew`. -/
structure DbPooling where
  size : Int
  items : List (Option Nat)
  heap : List PoolItem
  asked : Nat
  deriving DecidableEq

/-- Function `NewDbPooling(size, fnNew)`. -/
def NewDbPooling (size : Int) : DbPooling :=
  { size := size, items := [], heap := [], asked := 0 }

namespace DbPooling

/-- Whether the entry of the slice refers to a pool item that is free
(`pi != nil && pi.IsFree()`). -/
def entryFree (p : DbPooling) : Option Nat → Bool
  | none => false
  | some h => match p.heap[h]? with
    | some pi => !pi.used
    | none => false

/-- Whether the entry of the slice refers to a pool item that is not closed
(`it != nil` and `!it.closed`). -/
def entryUnclosed (p : DbPooling) : Option Nat → Bool
  | none => false
  | some h => match p.heap[h]? with
    | some pi => !pi.closed
    | none => false

/-- Update of the pool item with index `h`. -/
def setItem (p : DbPooling) (h : Nat) (f : PoolItem → PoolItem) : DbPooling :=
  { p with heap := p.heap.modify f h }

/-- Method `PoolItem.Use` on the item with index `h`. -/
def use (p : DbPooling) (h : Nat) : DbPooling := p.setItem h (fun pi => { pi with used := true })

/-- Method `PoolItem.Release` on the item with index `h`. -/
def release (p : DbPooling) (h : Nat) : DbPooling :=
  p.setItem h (fun pi => { pi with used := false })

/-- First step of `Get`: the first entry of the slice that is not nil and free
is marked used. -/
def takeFree (p : DbPooling) : DbPooling :=
  match p.items.find? p.entryFree with
  | some (some h) => p.use h
  | _ => p

/-- Second step of `Get`, the closure `newPoolItem`, run under the lock of the
pool: when the slice holds fewer than `size` entries the factory is asked for a
connection; if it succeeds the new pool item is appended and marked used. -/
def newPoolItem (p : DbPooling) (factoryOk : Bool) : DbPooling :=
  if (p.items.length : Int) < p.size then
    if factoryOk then
      { p with asked := p.asked + 1,
               items := p.items ++ [some p.heap.length],
               heap := p.heap ++ [{ used := true, closed := false }] }
    else { p with asked := p.asked + 1 }
  else p

/-- One turn of the waiting loop of `Get`: the first entry that is not nil,
free and not closed is marked used. -/
def poll (p : DbPooling) : DbPooling :=
  match p.items.find? (fun it => p.entryFree it && p.entryUnclosed it) with
  | some (some h) => p.use h
  | _ => p

/-- Method `DbPooling.Close`: the slice is replaced by an empty one. -/
def close (p : DbPooling) : DbPooling := { p with items := [] }

/-- The rebuilding of the slice by the auto-close watcher:
`unclosedItems := make([]*PoolItem, len(items))` is a slice of `len(items)` nil
entries, the entries that are not nil and not closed are appended to it, and
`p.items = unclosedItems[:unclosedCount]` keeps its first `unclosedCount`
entries. -/
def rebuildItems (p : DbPooling) : List (Option Nat) :=
  ((List.replicate p.items.length none) ++ p.items.filter p.entryUnclosed).take
    (p.items.filter p.entryUnclosed).length

/-- The auto-close watcher of the pool item with index `h`, when its idle time
has passed: if the item is free it is marked closed and the slice of the pool
is rebuilt; otherwise the watcher goes on waiting. -/
def autoClose (p : DbPooling) (h : Nat) : DbPooling :=
  if p.entryFree (some h) then
    let p1 := p.setItem h (fun pi => { pi with closed := true })
    { p1 with items := p1.rebuildItems }
  else p

/-- The auto-release watcher of the pool item with index `h`, when its time
has passed: an item in use is released. -/
def autoRelease (p : DbPooling) (h : Nat) : DbPooling :=
  if p.entryFree (some h) then p else p.release h

end DbPooling

/-- The atomic steps of the pool: the three steps of `Get`, `Release` of a pool
item, `Close` of the pool, and the firing of the watchers of a pool item. -/
inductive PoolStep where
  | takeFree
  | newPoolItem (factoryOk : Bool)
  | poll
  | release (h : Nat)
  | close
  | autoClose (h : Nat)
  | autoRelease (h : Nat)

/-- Effect of one step on the pool. -/
def DbPooling.step (p : DbPooling) : PoolStep → DbPooling
  | .takeFree => p.takeFree
  | .newPoolItem ok => p.newPoolItem ok
  | .poll => p.poll
  | .release h => p.release h
  | .close => p.close
  | .autoClose h => p.autoClose h
  | .autoRelease h => p.autoRelease h

/-- The pool reached from `NewDbPooling(size, fnNew)` by a sequence of steps. -/
def poolAfter (size : Int) (steps : List PoolStep) : DbPooling :=
  steps.foldl DbPooling.step (NewDbPooling size)

/-! ## Text driver: the record codec (`textToObj`, `objToText` in `drivers/text/helper.go`) -/

namespace Text

/-- Function `NewConfig(delimeter)`: signs in use, the double and the single
quote as signs, strict write mode. -/
def NewConfig (delimeter : Char) : Config :=
  { Delimeter := delimeter, UseSign := true, Signs := [['"'], [Char.ofNat 39]],
    WriteMode := .ModeStrict }

/-- The loop over `cfg.Signs` for a character read outside quotes: for the
first non-empty sign that starts with the character, the closing quote it sets
(the character itself for a sign of one character, `sign[1]` otherwise). -/
def openSign : List (List Char) → Char → Option Char
  | [], _ => none
  | [] :: rest, char => openSign rest char
  | [first] :: rest, char => if char = first then some char else openSign rest char
  | (first :: second :: _) :: rest, char =>
    if char = first then some second else openSign rest char

/-- The variables of the loop of `textToObj`. The position `startQuotePos` is
kept as `afterQuote`, the characters behind it, and `bufferQuotePos` as
`quoteBuff`, the buffer up to it; `handed` lists the calls of
`processTxtToObjField` made so far, each with its field name and its text. -/
structure Scan where
  inQuote : Bool
  closeQuote : Char
  txtBuff : List Char
  idx : Nat
  processBufferToObj : Bool
  afterQuote : List Char
  quoteBuff : List Char
  handed : List (String × String)

/-- The variables before the loop. -/
def Scan.start : Scan where
  inQuote := false
  closeQuote := Char.ofNat 0
  txtBuff := []
  idx := 0
  processBufferToObj := false
  afterQuote := []
  quoteBuff := []
  handed := []

/-- The field name of column `idx`: `headers[idx]`, or the number itself
(`toolkit.ToString(idx)`) behind the last header. -/
def fieldNameAt (headers : List String) (idx : Nat) : String :=
  match headers.get? idx with
  | some h => h
  | none => intText idx

/-- The quote handling of one turn of the loop on the character `char`, with
`rest` behind it: the variables after it and `addRune`. -/
def Scan.quote (cfg : Config) (char : Char) (rest : List Char) (st : Scan) : Scan × Bool :=
  if cfg.UseSign = true then
    if st.inQuote = false then
      match openSign cfg.Signs char with
      | some close =>
        ({ st with inQuote := true, closeQuote := close, afterQuote := rest,
                   quoteBuff := st.txtBuff }, false)
      | none => (st, true)
    else if char = st.closeQuote then ({ st with inQuote := false }, false)
    else (st, true)
  else (st, true)

/-- One turn of the loop up to `txtBuff += string(char)`: the quote handling,
then the test for a delimiter outside quotes, then the character added to the
buffer unless it was a quote or that delimiter. -/
def Scan.read (cfg : Config) (char : Char) (rest : List Char) (st : Scan) : Scan :=
  let quoted := st.quote cfg char rest
  let delimiter : Bool := decide (char = cfg.Delimeter) && !quoted.1.inQuote
  let addRune : Bool := quoted.2 && !delimiter
  { quoted.1 with processBufferToObj := delimiter,
                  txtBuff := if addRune then quoted.1.txtBuff ++ [char] else quoted.1.txtBuff }

/-- The test `i == len(runesTxt)-1 && inQuote && char != closeQuote`: the
closing quote is missing. -/
def Scan.closeMissing (char : Char) (rest : List Char) (st : Scan) : Bool :=
  rest.isEmpty && st.inQuote && decide (char ≠ st.closeQuote)

/-- The rewind on a missing closing quote, apart from the position:
`inQuote = false` and `txtBuff = txtBuff[:bufferQuotePos] + string(closeQuote)`. -/
def Scan.rewind (st : Scan) : Scan :=
  { st with inQuote := false, txtBuff := st.quoteBuff ++ [st.closeQuote] }

/-- The block `if processBufferToObj`: the buffer is handed to
`processTxtToObjField` under the field name of the column and emptied, and the
column number goes up. -/
def Scan.process (headers : List String) (st : Scan) : Scan :=
  if st.processBufferToObj = true then
    { st with handed := st.handed ++ [(fieldNameAt headers st.idx, String.mk st.txtBuff)],
              txtBuff := [], idx := st.idx + 1 }
  else st

/-- The loop `for i < len(runesTxt)` of `textToObj` on the characters from
position `i` on, for at most `fuel` turns (`none` when they do not suffice).
After a rewind the loop goes on behind the opening quote. -/
def tokenLoop (cfg : Config) (headers : List String) : Nat → List Char → Scan → Option Scan
  | _, [], st => some st
  | 0, _ :: _, _ => none
  | fuel + 1, char :: rest, st =>
    if (st.read cfg char rest).closeMissing char rest = true then
      tokenLoop cfg headers fuel (st.read cfg char rest).afterQuote
        ((st.read cfg char rest).rewind.process headers)
    else tokenLoop cfg headers fuel rest ((st.read cfg char rest).process headers)

/-- The block behind the loop: the buffer is handed over unless the last turn
has done it. -/
def Scan.finish (headers : List String) (st : Scan) : List (String × String) :=
  if st.processBufferToObj = true then st.handed
  else st.handed ++ [(fieldNameAt headers st.idx, String.mk st.txtBuff)]

/-- Function `textToObj(txt, out, cfg, headers...)` as far as the tokenizer
goes: the calls of `processTxtToObjField` it makes, in order, each with the
field name and the text handed to the field converter (whose errors
`textToObj` drops). For a struct receiver without headers, `headers` are the
names of its fields. The loop is given `(n + 1) * (n + 1)` turns for a line of
`n` characters. -/
def textToObj (cfg : Config) (txt : String) (headers : List String) :
    Option (List (String × String)) :=
  (tokenLoop cfg headers ((txt.data.length + 1) * (txt.data.length + 1)) txt.data
    Scan.start).map (Scan.finish headers)

/-- The text of one column of `objToText`: the kind switch on the value the
flat map holds (integers as `%d`, floats as `%f`, strings between double
quotes, other kinds empty). The flat map of `objToM` holds no map, and a
`Value` is no pointer, so the nested call for structs and maps is not reached. -/
def columnText (lib : GoLib) (v : Value) : String := interfaceToText lib v

/-- The loop `for _, name := range header` of `objToText`: the texts of the
columns. A field the data lacks is an error in strict mode and an empty column
otherwise. -/
def textLoop (lib : GoLib) (cfg : Config) (m : Record) :
    List String → List String → Outcome (List String)
  | [], txts => .ok txts
  | name :: rest, txts =>
    match lookup name m with
    | none =>
      if cfg.WriteMode = .ModeStrict then
        .err ("Field " ++ name ++ " is not included in data")
      else textLoop lib cfg m rest (txts ++ [""])
    | some v => textLoop lib cfg m rest (txts ++ [columnText lib v])

/-- Function `objToText(data, header, cfg)`: the columns of the flat map of
the data in header order, joined by the delimiter. -/
def objToText (lib : GoLib) (cfg : Config) (data : Payload) (header : List String) :
    Outcome String :=
  match objToM data with
  | .ok m =>
    match textLoop lib cfg m header [] with
    | .ok txts => .ok (joinWith cfg.Delimeter txts)
    | .err e => .err e
    | .panic p => .panic p
  | .err e => .err e
  | .panic p => .panic p

end Text

/-! ## Text driver: header reconciliation (`combineHeader` in `drivers/text/helper.go`) -/

namespace Text

/-- The first loop of `combineHeader`: every name of the original header, in
order, replaced by the first name of the data header that equals it ignoring
case, if there is one. -/
def matchedHeader (lib : GoLib) (originalHeader dataHeader : List String) : List String :=
  originalHeader.map (fun h =>
    match dataHeader.find? (fun dh => lib.toLower h = lib.toLower dh) with
    | some dh => dh
    | none => h)

/-- The second loop of `combineHeader`: every name of the data header that the
final header does not hold yet (compared as written) is appended to it. -/
def appendMissing (finalHeader : List String) : List String → List String
  | [] => finalHeader
  | dh :: rest =>
    if dh ∈ finalHeader then appendMissing finalHeader rest
    else appendMissing (finalHeader ++ [dh]) rest

/-- Function `combineHeader(originalHeader, dataHeader)`: the data header when
the original header is empty, otherwise the two loops. -/
def combineHeader (lib : GoLib) (originalHeader dataHeader : List String) : List String :=
  if originalHeader.length = 0 then dataHeader
  else appendMissing (matchedHeader lib originalHeader dataHeader) dataHeader

end Text

/-! ## Aggregation (`aggregate` in `drivers/json/helper.go`, the same text in `drivers/text/helper.go`) -/

/-- Modelled from the spec: the operation of an aggregate item, one of Sum,
Avg, Count, Max and Min (the constants `dbflex.AggrSum` to `dbflex.AggrMin`
are declared outside the sources at hand); `other` is any other operation. -/
inductive AggrOp where
  | AggrSum
  | AggrAvg
  | AggrCount
  | AggrMax
  | AggrMin
  | other (name : String)
  deriving DecidableEq

/-- Modelled from the spec: an item `{field, op}` of the aggregate
specification (`dbflex.AggrItem`, of which the code reads `Field` and `Op`). -/
structure AggrItem where
  Field : String
  Op : AggrOp

/-- Modelled from the spec: the constructors of aggregate items. -/
def Sum (field : String) : AggrItem := { Field := field, Op := .AggrSum }

/-- Modelled from the spec: the average item. -/
def Avg (field : String) : AggrItem := { Field := field, Op := .AggrAvg }

/-- Modelled from the spec: the count item. -/
def Count (field : String) : AggrItem := { Field := field, Op := .AggrCount }

/-- Modelled from the spec: the maximum item. -/
def Max (field : String) : AggrItem := { Field := field, Op := .AggrMax }

/-- Modelled from the spec: the minimum item. -/
def Min (field : String) : AggrItem := { Field := field, Op := .AggrMin }

/-- The kind of the elements of the data slice, as `reflect` reports it: a
struct (its fields, in declaration order, are the entries of the record) or a
map (its keys in iteration order). -/
inductive Shape where
  | struct
  | map
  deriving DecidableEq

/-- The `reflect.Kind` of a struct field as far as `aggregate` and `byField`
tell kinds apart: `int`, a sized integer, `float64`, `string`, or another kind
given by its name. -/
inductive Kind where
  | Int
  | IntSized
  | Float64
  | String
  | Other (name : String)
  deriving DecidableEq

/-- The kind of a value; a missing field gives the zero `reflect.Value`, of
kind `invalid`. -/
def kindOf : Option Value → Kind
  | some (.int _) => .Int
  | some (.int64 _) => .IntSized
  | some (.float _) => .Float64
  | some (.str _) => .String
  | some (.bool _) => .Other "bool"
  | some .nil => .Other "interface"
  | some (.strs _) => .Other "slice"
  | some (.list _) => .Other "slice"
  | some (.map _) => .Other "map"
  | none => .Other "invalid"

/-- Go's `int` arithmetic: a result is reduced into the 64-bit two's
complement range. -/
def wrapInt (i : Int) : Int := (i + 2 ^ 63) % 2 ^ 64 - 2 ^ 63

/-- Function `getValueOf(from, name)`: the value of the map key or struct
field `name`; `Interface()` panics on the zero `reflect.Value` that a missing
key or field gives. -/
def getValueOf (vj : Record) (name : String) : Outcome Value :=
  match lookup name vj with
  | some v => .ok v
  | none => .panic "reflect: call of reflect.Value.Interface on zero Value"

/-- The type assertion `x.(int)` on an interface value or on the result of a
map index expression (`none`: the key is missing, the value is nil). -/
def asInt : Option Value → Outcome Int
  | some (.int i) => .ok i
  | _ => .panic "interface conversion: interface {} is not int"

/-- The type assertion `x.(float64)`. -/
def asFloat : Option Value → Outcome ℚ
  | some (.float q) => .ok q
  | _ => .panic "interface conversion: interface {} is not float64"

/-- The map `aggregatedFieldNames`: for every name of the first element, in
order, and every item whose field equals it ignoring case, the entry
`item.Field ↦ name` (a later match overwrites an earlier one). -/
def aggregatedFieldNames (lib : GoLib) (v1 : Record) (aggrItems : List AggrItem) :
    List (String × String) :=
  v1.foldl
    (fun acc nv =>
      aggrItems.foldl
        (fun acc item =>
          if lib.toLower nv.1 = lib.toLower item.Field then
            (acc.filter (fun e => e.1 ≠ item.Field)) ++ [(item.Field, nv.1)]
          else acc)
        acc)
    []

/-- The slice `groupedFieldNames`: for every name of the first element, in
order, the name once for every group entry that equals it ignoring case. -/
def groupedFieldNames (lib : GoLib) (v1 : Record) (groups : List String) : List String :=
  (v1.map (fun nv =>
    (groups.filter (fun group => lib.toLower nv.1 = lib.toLower group)).map (fun _ => nv.1))).flatten

/-- The index expression `aggregatedFieldNames[item.Field]`: the empty string
when the key is missing. -/
def aggregatedName (names : List (String × String)) (field : String) : String :=
  match names.find? (fun e => e.1 = field) with
  | some e => e.2
  | none => ""

/-- The loop that builds `keyID`: the printed group values of the record in
the order of `groupedFieldNames`, each preceded by `sep` (`"-"` in the integer
branch, nothing in the float branch). -/
def keyIDOf (lib : GoLib) (sep : String) (vj : Record) : List String → String → Outcome String
  | [], keyID => .ok keyID
  | rg :: rest, keyID =>
    match getValueOf vj rg with
    | .ok v => keyIDOf lib sep vj rest (keyID ++ sep ++ lib.sprint v)
    | .err e => .err e
    | .panic m => .panic m

/-- The loop `prevResult[rg] = getValueOf(vj, rg)` over the group names. -/
def groupValues (vj : Record) : List String → Record → Outcome Record
  | [], prevResult => .ok prevResult
  | rg :: rest, prevResult =>
    match getValueOf vj rg with
    | .ok v => groupValues vj rest (assign rg v prevResult)
    | .err e => .err e
    | .panic m => .panic m

/-- The index expression `opResults[keyID]`. -/
def findResult (keyID : String) (opResults : List (String × Record)) : Option Record :=
  (opResults.find? (fun e => e.1 = keyID)).map Prod.snd

/-- The state of `opResults` after the record stored under `keyID` (a map,
hence shared by reference) was changed to `r`, or was first stored. -/
def setResult (keyID : String) (r : Record) : List (String × Record) → List (String × Record)
  | [] => [(keyID, r)]
  | e :: rest => if e.1 = keyID then (keyID, r) :: rest else e :: setResult keyID r rest

/-- The first values of a new group in the integer branch: the group values,
then the record's value for Max and Min, zero (and a zero count under
`name_count`) for Avg, zero otherwise. -/
def seedInt (op : AggrOp) (name : String) (v : Int) (groupVals : Record) : Record :=
  match op with
  | .AggrMax => assign name (.int v) groupVals
  | .AggrMin => assign name (.int v) groupVals
  | .AggrAvg => assign (name ++ "_count") (.int 0) (assign name (.int 0) groupVals)
  | _ => assign name (.int 0) groupVals

/-- The `switch item.Op` of the integer branch on the group record
`prevResult` and the record's value `v`. -/
def foldInt (op : AggrOp) (name : String) (v : Int) (prevResult : Record) : Outcome Record :=
  match op with
  | .AggrSum =>
    match asInt (lookup name prevResult) with
    | .ok p => .ok (assign name (.int (wrapInt (p + v))) prevResult)
    | .err e => .err e
    | .panic m => .panic m
  | .AggrAvg =>
    match asInt (lookup name prevResult) with
    | .ok p =>
      let summed := assign name (.int (wrapInt (p + v))) prevResult
      match asInt (lookup (name ++ "_count") summed) with
      | .ok n => .ok (assign (name ++ "_count") (.int (wrapInt (n + 1))) summed)
      | .err e => .err e
      | .panic m => .panic m
    | .err e => .err e
    | .panic m => .panic m
  | .AggrCount =>
    match asInt (lookup name prevResult) with
    | .ok p => .ok (assign name (.int (wrapInt (p + 1))) prevResult)
    | .err e => .err e
    | .panic m => .panic m
  | .AggrMax =>
    match asInt (lookup name prevResult) with
    | .ok p => .ok (if v > p then assign name (.int v) prevResult else prevResult)
    | .err e => .err e
    | .panic m => .panic m
  | .AggrMin =>
    match asInt (lookup name prevResult) with
    | .ok p => .ok (if v < p then assign name (.int v) prevResult else prevResult)
    | .err e => .err e
    | .panic m => .panic m
  | .other _ => .err "Unknown aggregation operation"

/-- The body of the record loop of the integer branch for one record `vj`:
the key of its group, its value asserted to be an `int`, the group record
found in `opResults` or newly stored there, then the operation. -/
def intRecord (lib : GoLib) (op : AggrOp) (name : String) (grouped : List String)
    (opResults : List (String × Record)) (vj : Record) : Outcome (List (String × Record)) :=
  match keyIDOf lib "-" vj grouped "" with
  | .err e => .err e
  | .panic m => .panic m
  | .ok keyID =>
    match getValueOf vj name with
    | .err e => .err e
    | .panic m => .panic m
    | .ok x =>
      match asInt (some x) with
      | .err e => .err e
      | .panic m => .panic m
      | .ok v =>
        let prev : Outcome Record :=
          match findResult keyID opResults with
          | some r => .ok r
          | none =>
            match groupValues vj grouped [] with
            | .ok groupVals => .ok (seedInt op name v groupVals)
            | .err e => .err e
            | .panic m => .panic m
        match prev with
        | .err e => .err e
        | .panic m => .panic m
        | .ok prevResult =>
          match foldInt op name v prevResult with
          | .ok r => .ok (setResult keyID r opResults)
          | .err e => .err e
          | .panic m => .panic m

/-- A loop over the records that stops at the first error or panic. -/
def recordLoop (body : List (String × Record) → Record → Outcome (List (String × Record))) :
    List Record → List (String × Record) → Outcome (List (String × Record))
  | [], opResults => .ok opResults
  | vj :: rest, opResults =>
    match body opResults vj with
    | .ok next => recordLoop body rest next
    | .err e => .err e
    | .panic m => .panic m

/-- The final loop of an Avg item in the integer branch: in every record of
`opResults`, `v[name] = v[name].(int) / v[name+"_count"].(int)`, Go's
truncating division, which panics on a zero divisor. -/
def divideInt (name : String) : List (String × Record) → Outcome (List (String × Record))
  | [] => .ok []
  | (keyID, v) :: rest =>
    match asInt (lookup name v) with
    | .err e => .err e
    | .panic m => .panic m
    | .ok total =>
      match asInt (lookup (name ++ "_count") v) with
      | .err e => .err e
      | .panic m => .panic m
      | .ok n =>
        if n = 0 then .panic "runtime error: integer divide by zero"
        else
          match divideInt name rest with
          | .ok done => .ok ((keyID, assign name (.int (wrapInt (Int.tdiv total n))) v) :: done)
          | .err e => .err e
          | .panic m => .panic m

/-- The first values of a new group in the float branch. -/
def seedFloat (op : AggrOp) (name : String) (v : ℚ) (groupVals : Record) : Record :=
  match op with
  | .AggrMax => assign name (.float v) groupVals
  | .AggrMin => assign name (.float v) groupVals
  | .AggrAvg => assign (name ++ "_count") (.float 0) (assign name (.float 0) groupVals)
  | _ => assign name (.float 0) groupVals

/-- The `switch item.Op` of the float branch; Sum and Avg share one case, which
adds the value and leaves `name_count` as it is. -/
def foldFloat (lib : GoLib) (op : AggrOp) (name : String) (v : ℚ) (prevResult : Record) :
    Outcome Record :=
  match op with
  | .AggrSum =>
    match asFloat (lookup name prevResult) with
    | .ok p => .ok (assign name (.float (lib.fadd p v)) prevResult)
    | .err e => .err e
    | .panic m => .panic m
  | .AggrAvg =>
    match asFloat (lookup name prevResult) with
    | .ok p => .ok (assign name (.float (lib.fadd p v)) prevResult)
    | .err e => .err e
    | .panic m => .panic m
  | .AggrCount =>
    match asFloat (lookup name prevResult) with
    | .ok p => .ok (assign name (.float (lib.fadd p 1)) prevResult)
    | .err e => .err e
    | .panic m => .panic m
  | .AggrMax =>
    match asFloat (lookup name prevResult) with
    | .ok p => .ok (if v > p then assign name (.float v) prevResult else prevResult)
    | .err e => .err e
    | .panic m => .panic m
  | .AggrMin =>
    match asFloat (lookup name prevResult) with
    | .ok p => .ok (if v < p then assign name (.float v) prevResult else prevResult)
    | .err e => .err e
    | .panic m => .panic m
  | .other _ => .err "Unknown aggregation operation"

/-- The body of the record loop of the float branch for one record `vj`. -/
def floatRecord (lib : GoLib) (op : AggrOp) (name : String) (grouped : List String)
    (opResults : List (String × Record)) (vj : Record) : Outcome (List (String × Record)) :=
  match keyIDOf lib "" vj grouped "" with
  | .err e => .err e
  | .panic m => .panic m
  | .ok keyID =>
    match getValueOf vj name with
    | .err e => .err e
    | .panic m => .panic m
    | .ok x =>
      match asFloat (some x) with
      | .err e => .err e
      | .panic m => .panic m
      | .ok v =>
        let prev : Outcome Record :=
          match findResult keyID opResults with
          | some r => .ok r
          | none =>
            match groupValues vj grouped [] with
            | .ok groupVals => .ok (seedFloat op name v groupVals)
            | .err e => .err e
            | .panic m => .panic m
        match prev with
        | .err e => .err e
        | .panic m => .panic m
        | .ok prevResult =>
          match foldFloat lib op name v prevResult with
          | .ok r => .ok (setResult keyID r opResults)
          | .err e => .err e
          | .panic m => .panic m

/-- The final loop of an Avg item in the float branch: the float64 division
of `v[name]` by `v[name+"_count"]` in every record of `opResults`. -/
def divideFloat (lib : GoLib) (name : String) :
    List (String × Record) → Outcome (List (String × Record))
  | [] => .ok []
  | (keyID, v) :: rest =>
    match asFloat (lookup name v) with
    | .err e => .err e
    | .panic m => .panic m
    | .ok total =>
      match asFloat (lookup (name ++ "_count") v) with
      | .err e => .err e
      | .panic m => .panic m
      | .ok n =>
        match divideFloat lib name rest with
        | .ok done => .ok ((keyID, assign name (.float (lib.fdiv total n)) v) :: done)
        | .err e => .err e
        | .panic m => .panic m

/-- The body of the item loop of `aggregate` for one item: the field name the
item resolved to, the kind (that of the first element's field for structs,
`float64` for maps), then the record loop of that kind's branch on the
`opResults` all items share, and for Avg the final division. -/
def aggregateItem (lib : GoLib) (shape : Shape) (data : List Record) (v1 : Record)
    (names : List (String × String)) (grouped : List String)
    (opResults : List (String × Record)) (item : AggrItem) :
    Outcome (List (String × Record)) :=
  let name := aggregatedName names item.Field
  let kind := if shape = .struct then kindOf (lookup name v1) else Kind.Float64
  let intBranch : Outcome (List (String × Record)) :=
    match recordLoop (intRecord lib item.Op name grouped) data opResults with
    | .ok rs => if item.Op = .AggrAvg then divideInt name rs else .ok rs
    | .err e => .err e
    | .panic m => .panic m
  match kind with
  | .Int => intBranch
  | .IntSized => intBranch
  | .Float64 =>
    match recordLoop (floatRecord lib item.Op name grouped) data opResults with
    | .ok rs => if item.Op = .AggrAvg then divideFloat lib name rs else .ok rs
    | .err e => .err e
    | .panic m => .panic m
  | .String => .err "Cannot aggregate string values"
  | .Other k => .err ("Cannot aggregate " ++ k ++ " values")

/-- The item loop of `aggregate`. -/
def itemLoop (lib : GoLib) (shape : Shape) (data : List Record) (v1 : Record)
    (names : List (String × String)) (grouped : List String) :
    List AggrItem → List (String × Record) → Outcome (List (String × Record))
  | [], opResults => .ok opResults
  | item :: rest, opResults =>
    match aggregateItem lib shape data v1 names grouped opResults item with
    | .ok next => itemLoop lib shape data v1 names grouped rest next
    | .err e => .err e
    | .panic m => .panic m

/-- Function `aggregate(data, aggrItems, groups...)` on a slice of structs or
of maps: the group records `opResults.Values()`, listed here by first
appearance of their group (Go lists the values of a map in no fixed order). -/
def aggregate (lib : GoLib) (shape : Shape) (data : List Record) (aggrItems : List AggrItem)
    (groups : List String) : Outcome (List Record) :=
  match data with
  | [] => .ok []
  | v1 :: _ =>
    match itemLoop lib shape data v1 (aggregatedFieldNames lib v1 aggrItems)
        (groupedFieldNames lib v1 groups) aggrItems [] with
    | .ok opResults => .ok (opResults.map Prod.snd)
    | .err e => .err e
    | .panic m => .panic m

/-! ## Aggregation in the cursors (`Cursor.Fetchs`, the same text in both drivers) -/

/-- The loop over `aggrKeys` of `Cursor.Fetchs` for one aggregation result
`aggrResult` and the new buffer element `iv`. For a struct,
`iv.FieldByName(k).Set(reflect.ValueOf(aggrResult[k]))` panics when the struct
has no field `k`, when the result has no value under `k`, and when the value
is not of the kind of the field. For a map, `SetMapIndex` stores the value
(and stores nothing for a value that is missing). -/
def copyFields (shape : Shape) (aggrResult : Record) : List String → Record → Outcome Record
  | [], iv => .ok iv
  | k :: rest, iv =>
    match shape with
    | .struct =>
      match lookup k iv, lookup k aggrResult with
      | none, _ => .panic "reflect: call of reflect.Value.Set on zero Value"
      | some _, none => .panic "reflect: call of reflect.Value.Set with a zero Value"
      | some old, some v =>
        if kindOf (some old) = kindOf (some v) then copyFields shape aggrResult rest (assign k v iv)
        else .panic "reflect.Set: value is not assignable to the type of the field"
    | .map =>
      match lookup k aggrResult with
      | none => copyFields shape aggrResult rest iv
      | some v => copyFields shape aggrResult rest (assign k v iv)

/-- The loop over the aggregation results of `Cursor.Fetchs`: one new buffer
element per result, filled under the keys of the first result. `zero` is the
value `reflect.New(v).Elem()` of a new element: the fields of the struct with
their zero values, or the nil map (no entry). -/
def copyAggregated (shape : Shape) (zero : Record) (aggrKeys : List String) :
    List Record → Outcome (List Record)
  | [] => .ok []
  | ar :: rest =>
    match copyFields shape ar aggrKeys zero with
    | .ok iv =>
      match copyAggregated shape zero aggrKeys rest with
      | .ok ivs => .ok (iv :: ivs)
      | .err e => .err e
      | .panic m => .panic m
    | .err e => .err e
    | .panic m => .panic m

/-- The aggregation stage of `Cursor.Fetchs` on the buffer of fetched
elements: `aggregate` on the buffer, whose error is set on the cursor, then
the copy of its results into a new buffer. -/
def aggregateStage (lib : GoLib) (shape : Shape) (zero : Record) (items : List AggrItem)
    (groups : List String) : Stage :=
  fun buffer =>
    match aggregate lib shape buffer items groups with
    | .err e => (.err e, buffer)
    | .panic m => (.panic m, buffer)
    | .ok aggrResults =>
      let aggrKeys : List String :=
        match aggrResults with
        | [] => []
        | first :: _ => first.map Prod.fst
      match copyAggregated shape zero aggrKeys aggrResults with
      | .ok ivs => (.ok (), ivs)
      | .err e => (.err e, buffer)
      | .panic m => (.panic m, buffer)

/-! ## Sorting (`byField` in `drivers/json/helper.go`, the same text in `drivers/text/helper.go`) -/

/-- The standard library's `sort.Sort` on a `sort.Interface` whose `Swap`
exchanges two elements of a slice: from the `Less` of the interface, as a
relation on the elements, and the slice to the slice it leaves. -/
structure GoSort where
  run : {α : Type} → (α → α → Bool) → List α → List α

/-- Function `strings.TrimPrefix(s, "-")`. -/
def trimLeadingDash (s : String) : String :=
  match s.data with
  | '-' :: rest => String.mk rest
  | _ => s

/-- The loop of `byField` over the fields (or map keys) of the first element:
the first name that equals `fieldName` when lowered, with its value. -/
def findField (lib : GoLib) (fieldName : String) (v1 : Record) : Option (String × Value) :=
  v1.find? (fun nv => lib.toLower nv.1 = fieldName)

/-- Method `Int()` on the field `fieldName` of an element, as `makeIntKeys`
calls it: it panics when the element has no such key or the value is not of
an integer kind. -/
def intKey (fieldName : String) (vi : Record) : Outcome Int :=
  match lookup fieldName vi with
  | some (.int i) => .ok i
  | some (.int64 i) => .ok i
  | none => .panic "reflect: call of reflect.Value.Interface on zero Value"
  | _ => .panic "reflect: call of reflect.Value.Int on a Value of another kind"

/-- Method `Float()` on the field `fieldName` of an element, as
`makeFloatKeys` calls it. -/
def floatKey (fieldName : String) (vi : Record) : Outcome ℚ :=
  match lookup fieldName vi with
  | some (.float q) => .ok q
  | none => .panic "reflect: call of reflect.Value.Interface on zero Value"
  | _ => .panic "reflect: call of reflect.Value.Float on a Value of another kind"

/-- Method `String()` on the field `fieldName` of an element, as
`makeStringKeys` calls it: the string itself, and for a value of another kind
the text `<T Value>` naming its type. -/
def stringKey (fieldName : String) (vi : Record) : Outcome String :=
  match lookup fieldName vi with
  | some (.str s) => .ok s
  | some .nil => .ok "<invalid Value>"
  | some (.bool _) => .ok "<bool Value>"
  | some (.int _) => .ok "<int Value>"
  | some (.int64 _) => .ok "<int64 Value>"
  | some (.float _) => .ok "<float64 Value>"
  | some (.strs _) => .ok "<[]string Value>"
  | some (.list _) => .ok "<[]interface {} Value>"
  | some (.map _) => .ok "<map[string]interface {} Value>"
  | none => .panic "reflect: call of reflect.Value.Interface on zero Value"

/-- The loops of `makeIntKeys`, `makeFloatKeys` and `makeStringKeys`: the key
of every element in order, up to the first panic. -/
def makeKeys {κ : Type} (key : Record → Outcome κ) : List Record → Outcome (List κ)
  | [] => .ok []
  | vi :: rest =>
    match key vi with
    | .ok k =>
      match makeKeys key rest with
      | .ok ks => .ok (k :: ks)
      | .err e => .err e
      | .panic m => .panic m
    | .err e => .err e
    | .panic m => .panic m

/-- The call `sort.Sort(helper)`, or `sort.Sort(sort.Reverse(helper))` when
`reverseOrder` holds, on a helper that holds the slice and the keys of its
elements, swaps both together and has `lt` on the keys as `Less`;
`sort.Reverse` exchanges the arguments of `Less`. -/
def sortWithKeys {κ : Type} (S : GoSort) (reverseOrder : Bool) (lt : κ → κ → Bool)
    (keys : List κ) (data : List Record) : List Record :=
  let less : κ × Record → κ × Record → Bool := fun a b => lt a.1 b.1
  ((if reverseOrder then S.run (fun a b => less b a) (keys.zip data)
    else S.run less (keys.zip data))).map Prod.snd

/-- Function `byField(data, field)` on a slice of structs or maps: the error
it returns or the panic it ends in, and the slice it leaves. The field name is
found in the first element, ignoring case; its value there selects the integer,
float or string helper, which reads that very name from every element. -/
def byField (lib : GoLib) (S : GoSort) (data : List Record) (field : String) :
    Outcome Unit × List Record :=
  match data with
  | [] => (.ok (), data)
  | v1 :: _ =>
    let reverseOrder := strStartsWith field "-"
    let fieldName := trimLeadingDash (lib.toLower field)
    match findField lib fieldName v1 with
    | none => (.err ("byField cannot find field " ++ field), data)
    | some (name, f1) =>
      match f1 with
      | .nil => (.panic "reflect: call of reflect.Value.Type on zero Value", data)
      | .int _ =>
        match makeKeys (intKey name) data with
        | .ok keys => (.ok (), sortWithKeys S reverseOrder (fun a b => decide (a < b)) keys data)
        | .err e => (.err e, data)
        | .panic m => (.panic m, data)
      | .int64 _ =>
        match makeKeys (intKey name) data with
        | .ok keys => (.ok (), sortWithKeys S reverseOrder (fun a b => decide (a < b)) keys data)
        | .err e => (.err e, data)
        | .panic m => (.panic m, data)
      | .float _ =>
        match makeKeys (floatKey name) data with
        | .ok keys => (.ok (), sortWithKeys S reverseOrder (fun a b => decide (a < b)) keys data)
        | .err e => (.err e, data)
        | .panic m => (.panic m, data)
      | .str _ =>
        match makeKeys (stringKey name) data with
        | .ok keys => (.ok (), sortWithKeys S reverseOrder (fun a b => decide (a < b)) keys data)
        | .err e => (.err e, data)
        | .panic m => (.panic m, data)
      | .bool _ => (.err "Cannot compare bool values", data)
      | .strs _ => (.err "Cannot compare []string values", data)
      | .list _ => (.err "Cannot compare []interface {} values", data)
      | .map _ => (.err "Cannot compare map[string]interface {} values", data)

/-- The loop of `Cursor.Fetchs` over the sort fields it still has to apply,
here in the order in which it applies them: `byField` on the buffer for each,
stopping at the first error. -/
def sortLoop (lib : GoLib) (S : GoSort) : List String → List Record → Outcome Unit × List Record
  | [], buffer => (.ok (), buffer)
  | field :: rest, buffer =>
    match byField lib S buffer field with
    | (.ok _, sorted) => sortLoop lib S rest sorted
    | (.err e, left) => (.err e, left)
    | (.panic m, left) => (.panic m, left)

/-- The sort stage of `Cursor.Fetchs` for the sort fields `shouldSortedFields`:
the loop runs from the last field to the first. -/
def sortStage (lib : GoLib) (S : GoSort) (shouldSortedFields : List String) : Stage :=
  fun buffer => sortLoop lib S shouldSortedFields.reverse buffer

/-! ## Table files (`connection.go` and `query.go` of both drivers) -/

/-- Function `filepath.Join(dir, name)` on a directory path and a name that
are clean already (no empty, `.` or `..` segment, no separator at the end): an
empty element is ignored, otherwise the two are joined by the separator. -/
def joinPath (dir name : String) : String :=
  if dir = "" then name else if name = "" then dir else dir ++ "/" ++ name

/-- The fields of a `Connection` that name files: the directory and the
extension of the table files. -/
structure Connection where
  dirPath : String
  extension : String

/-- Method `Query.filePath` for the table name of the query: the file of the
table, `<dirPath>/<tablename>.<extension>`. -/
def filePath (conn : Connection) (tablename : String) : Outcome String :=
  if tablename = "" then .err "no tablename is specified"
  else .ok (joinPath conn.dirPath (tablename ++ "." ++ conn.extension))

/-- Method `Connection.DropTable(name)`: the path it hands to `os.Remove`. -/
def dropTablePath (conn : Connection) (name : String) : String :=
  joinPath conn.dirPath name

/-! ## Commands (`command.go`): copies of filters and variables -/

/-- Modelled from the spec: a `dbflex.Filter` value in memory, with the fields
`Field`, `Op`, `Value` and `Items`, the latter a slice of pointers (addresses
in the memory of filters). -/
structure FilterNode where
  Field : String
  Op : FilterOp
  Value : Value
  Items : List Nat

/-- The filters in memory, by address. -/
abbrev FilterHeap := List FilterNode

/-- The value `new(Filter)` points to: every field has its zero value, the
operator is the empty string. -/
def FilterNode.zero : FilterNode := { Field := "", Op := .other "", Value := .nil, Items := [] }

/-- A loop that calls `CopyFilter` on every item and collects the pointers it
returns. -/
def copyItems (copyOne : FilterHeap → Nat → Option (FilterHeap × Nat)) :
    List Nat → FilterHeap → List Nat → Option (FilterHeap × List Nat)
  | [], heap, copied => some (heap, copied)
  | item :: rest, heap, copied =>
    match copyOne heap item with
    | some (heap1, c) => copyItems copyOne rest heap1 (copied ++ [c])
    | none => none

/-- Function `CopyFilter(f)` on the memory of filters: the memory afterwards
and the pointer returned (`none` when a nil pointer is dereferenced or when
the calls nest deeper than `depth`). The test of the operator reads the new
filter `copy`, as the source does, not `f`. -/
def CopyFilter : Nat → FilterHeap → Nat → Option (FilterHeap × Nat)
  | 0, _, _ => none
  | depth + 1, heap, f =>
    let copy := heap.length
    let heap1 := heap ++ [FilterNode.zero]
    match heap1.get? copy with
    | none => none
    | some node =>
      if node.Op = .OpAnd ∨ node.Op = .OpOr then
        match copyItems (fun h item => CopyFilter depth h item) node.Items heap1 [] with
        | some (heap2, copied) =>
          some (heap2.modify (fun n => { n with Items := copied }) copy, copy)
        | none => none
      else
        match heap1.get? f with
        | some source => some (heap1.set copy source, copy)
        | none => none

/-- The loop of `strings.Replace(s, old, new, -1)` for a pattern that is not
empty, from the left: a match is replaced and skipped. -/
def replaceLoop (old new : List Char) : Nat → List Char → List Char
  | 0, s => s
  | _ + 1, [] => []
  | fuel + 1, c :: cs =>
    if old.isPrefixOf (c :: cs) then new ++ replaceLoop old new fuel ((c :: cs).drop old.length)
    else c :: replaceLoop old new fuel cs

/-- Function `strings.Replace(s, old, new, -1)` for a pattern that is not
empty. -/
def replaceAll (s old new : String) : String :=
  String.mk (replaceLoop old.data new.data s.data.length s.data)

/-- One turn of the loop over `vars` in `PushVarToFilter`: a string value
equal to `%k` becomes the value of the variable; a string value that holds
`%k` has it replaced by the variable when that is a string. -/
def pushVar (value : Value) (k : String) (v : Value) : Value :=
  match value with
  | .str vs =>
    if vs = "%" ++ k then v
    else if strContains vs ("%" ++ k) then
      match v with
      | .str varTxt => .str (replaceAll vs ("%" ++ k) varTxt)
      | _ => value
    else value
  | _ => value

/-- A loop that calls `PushVarToFilter` on every item. -/
def pushItems (pushOne : FilterHeap → Nat → Option FilterHeap) :
    List Nat → FilterHeap → Option FilterHeap
  | [], heap => some heap
  | item :: rest, heap =>
    match pushOne heap item with
    | some heap1 => pushItems pushOne rest heap1
    | none => none

/-- Function `PushVarToFilter(f, vars)` on the memory of filters, with the
variables in the order in which the map is iterated: an `And` or `Or` node
pushes the variables into every item and takes the same items again; any other
node has its own value replaced. -/
def PushVarToFilter : Nat → FilterHeap → Nat → List (String × Value) → Option FilterHeap
  | 0, _, _, _ => none
  | depth + 1, heap, f, vars =>
    match heap.get? f with
    | none => none
    | some node =>
      if node.Op = .OpAnd ∨ node.Op = .OpOr then
        match pushItems (fun h item => PushVarToFilter depth h item vars) node.Items heap with
        | some heap1 => some (heap1.modify (fun n => { n with Items := node.Items }) f)
        | none => none
      else
        some (heap.modify
          (fun n => { n with Value := vars.foldl (fun acc kv => pushVar acc kv.1 kv.2) n.Value })
          f)

/-! ## Concurrent inserts (`Query.Execute` of the text driver) -/

/-- Where a goroutine that runs `Execute` with an insert command stands:
before `os.Stat`, behind it with the value of `fileExist`, behind the
`os.Create` it runs when the file did not exist, behind the `Lock()` of the
connection, and returned. -/
inductive InsertPc where
  | start
  | statted (fileExist : Bool)
  | created
  | locked
  | done
  deriving DecidableEq

/-- The table file (its lines, `none` when it does not exist), the mutex of
the connection, and where every goroutine stands. -/
structure Store where
  file : Option (List String)
  mutex : Bool
  pcs : List InsertPc
  deriving DecidableEq

/-- The insert block on the lines of the file, for a record whose header is
already the header of the file: an empty file gets the header and the row, any
other file gets the row behind its last line. -/
def insertRow (header row : String) (lines : List String) : List String :=
  if lines = [] then [header, row] else lines ++ [row]

/-- The next step of goroutine `g`, which inserts the row `rows[g]`. In order:
`os.Stat`; `os.Create` if the file was not there, which empties a file that is
there by now; `Lock()`, which waits while the mutex is held; then, as one step
under the mutex, the file lock, the insert block and the deferred unlock. -/
def Store.step (header : String) (rows : List String) (s : Store) (g : Nat) : Store :=
  match s.pcs.get? g, rows.get? g with
  | some .start, some _ => { s with pcs := s.pcs.set g (.statted s.file.isSome) }
  | some (.statted false), some _ => { s with file := some [], pcs := s.pcs.set g .created }
  | some (.statted true), some _ =>
    if s.mutex = true then s else { s with mutex := true, pcs := s.pcs.set g .locked }
  | some .created, some _ =>
    if s.mutex = true then s else { s with mutex := true, pcs := s.pcs.set g .locked }
  | some .locked, some row =>
    { file := some (insertRow header row (s.file.getD [])), mutex := false,
      pcs := s.pcs.set g .done }
  | _, _ => s

/-- The store before any goroutine has taken a step: the mutex is free and
every goroutine stands before its `os.Stat`. -/
def Store.initial (file : Option (List String)) (rows : List String) : Store :=
  { file := file, mutex := false, pcs := rows.map (fun _ => InsertPc.start) }

/-- The store after the goroutines have taken their steps in the order of
`schedule`, from the table file `file` and one goroutine per row. -/
def insertRun (header : String) (file : Option (List String)) (rows : List String)
    (schedule : List Nat) : Store :=
  schedule.foldl (Store.step header rows) (Store.initial file rows)

/-! ## Notions used to state the properties -/

/-- The environment in which the file lock is obtained and the file opens. -/
def Env.granted : Env := { lockAcquired := true, fileOpened := true }

/-- The lock operations of a call that obtains both locks and releases them in
the reverse order. -/
def lockedAndReleased : List LockEvent :=
  [.mutexLock, .fileLock, .fileUnlock, .mutexUnlock]

/-- The records a payload holds, in order. -/
def Payload.records : Payload → List Record
  | .single r => [r]
  | .slice rs => rs

/-- The field names of a record are pairwise distinct ignoring case (the
invariant of record lookup: at most one field answers to a name). -/
def namesDistinct (lib : GoLib) (r : Record) : Prop :=
  r.Pairwise (fun a b => lib.toLower a.1 ≠ lib.toLower b.1)

/-- The filter includes the record: its evaluation returns true without error. -/
def Json.includes (lib : GoLib) (filter : Option Filter) (r : Record) : Bool :=
  decide (Json.isIncludedOpt lib r filter = .ok true)

/-- The new value of a stored field under an update with the flat record `m`:
`e2` keeps the name of `e1`; it takes the value of any field of `m` with that
name ignoring case, and keeps the old value when `m` has no such field. -/
def fieldOverlaid (lib : GoLib) (m : Record) (e1 e2 : String × Value) : Prop :=
  e2.1 = e1.1 ∧
  (∀ kv ∈ m, lib.toLower e1.1 = lib.toLower kv.1 → e2.2 = kv.2) ∧
  ((∀ kv ∈ m, lib.toLower e1.1 ≠ lib.toLower kv.1) → e2.2 = e1.2)

/-- A JSON cursor without error for a query with a skip and a take item and,
when `group` is set, a group item; no aggregate and no order item. -/
def Json.Cursor.paged (F : Option Filter) (group : Bool) (skip take : Int) : Json.Cursor :=
  { filter := F, error := none,
    extra := { aggr := none, group := group, order := none,
               skip := some skip, take := some take } }

/-- The contract of `sort.Sort` for a `Less` that compares integer keys: the
slice it leaves is a permutation of the slice it was given, in which no element
has a key above the key of a later one. -/
def GoSort.Sorts (S : GoSort) : Prop :=
  ∀ (α : Type) (key : α → Int) (l : List α),
    (S.run (fun a b => decide (key a < key b)) l).Perm l ∧
    (S.run (fun a b => decide (key a < key b)) l).Pairwise (fun a b => key a ≤ key b)

/-- The integer a record holds under `name` (zero when it holds none). -/
def intField (name : String) (r : Record) : Int :=
  match lookup name r with
  | some (.int i) => i
  | some (.int64 i) => i
  | _ => 0

/-- The record holds an integer under exactly the name `name`. -/
def holdsInt (name : String) (r : Record) : Bool :=
  match lookup name r with
  | some (.int _) => true
  | some (.int64 _) => true
  | _ => false

/-- The text `objToText` writes for the header column `name` of the flat map
`m`: the column text of the value, empty for a field the map lacks. -/
def Text.columnOf (lib : GoLib) (m : Record) (name : String) : String :=
  match lookup name m with
  | some v => Text.columnText lib v
  | none => ""

/-- The text of the header column `name` before it is written: the string
itself for a string value, the column text for any other value. -/
def Text.handedText (lib : GoLib) (m : Record) (name : String) : String :=
  match lookup name m with
  | some (.str s) => s
  | some v => Text.columnText lib v
  | none => ""

/-- The header column `name` of the flat map `m` can be read back: a string
value holds no double quote; the column text of any other value holds neither
the delimiter nor a character that opens a sign; a missing field is written
(as an empty column) in loose mode only. -/
def Text.columnClean (lib : GoLib) (cfg : Text.Config) (m : Record) (name : String) : Bool :=
  match lookup name m with
  | some (.str s) => s.data.all (fun c => decide (c ≠ '"'))
  | some v =>
    (Text.columnText lib v).data.all
      (fun c => decide (c ≠ cfg.Delimeter) && (Text.openSign cfg.Signs c).isNone)
  | none => decide (cfg.WriteMode = .ModeLoose)

/-- The last header column is written as a text that is not empty. -/
def Text.lastColumnWritten (lib : GoLib) (m : Record) (header : List String) : Bool :=
  match header.getLast? with
  | some name => decide (Text.columnOf lib m name ≠ "")
  | none => false

/-- The characters of columns joined by the delimiter. -/
def Text.rowChars (d : Char) : List (List Char) → List Char
  | [] => []
  | [r] => r
  | r :: rest => r ++ d :: Text.rowChars d rest

/-- A column as written (`written`) and as it should be read (`read`): between
double quotes without a double quote inside, or as it is without a delimiter
and without a character that opens a sign. -/
def Text.ColumnOk (cfg : Text.Config) (written read : List Char) : Prop :=
  (written = '"' :: read ++ ['"'] ∧ ∀ c ∈ read, c ≠ '"') ∨
  (written = read ∧ ∀ c ∈ read, c ≠ cfg.Delimeter ∧ Text.openSign cfg.Signs c = none)

/-- The calls of the field converter expected for columns, the first of them
being column `k`. -/
def Text.expected (headers : List String) : Nat → List (List Char × List Char) →
    List (String × String)
  | _, [] => []
  | k, c :: rest =>
    (Text.fieldNameAt headers k, String.mk c.2) :: Text.expected headers (k + 1) rest

/-- The triangular number `0 + 1 + ... + n`. -/
def triangle : Nat → Nat
  | 0 => 0
  | n + 1 => triangle n + n + 1

/-- A bound on the turns the loop of `textToObj` still takes on the characters
`rest` in the state `st`: outside quotes every character can open a quote that
is rewound at the end of the line; inside quotes the rewind leads back behind
the opening quote. -/
def Text.turnsLeft (rest : List Char) (st : Text.Scan) : Nat :=
  if st.inQuote = true then rest.length + triangle st.afterQuote.length
  else triangle rest.length

/-- The rows of the goroutines that have returned. -/
def doneRows : List String → List InsertPc → List String
  | row :: rows, pc :: pcs => if pc = .done then row :: doneRows rows pcs else doneRows rows pcs
  | _, _ => []

/-- The state of a run of inserts into a table file that was there from the
start with the lines `init`: the file is there, its lines behind the first are
the lines it had and the rows of the goroutines that have returned, in some
order; no goroutine has found the file missing; there is a goroutine for every
row. -/
def Store.Good (init rows : List String) (s : Store) : Prop :=
  (∃ lines, s.file = some lines ∧ (lines.drop 1).Perm (init.drop 1 ++ doneRows rows s.pcs)) ∧
  (∀ pc ∈ s.pcs, pc ≠ .statted false ∧ pc ≠ .created) ∧
  s.pcs.length = rows.length

/-- The variables of the tokenizer that decide what it hands over: the buffer,
the column number, whether the last turn handed the buffer over, and the calls
made so far. -/
def Text.Scan.core (st : Text.Scan) : List Char × Nat × Bool × List (String × String) :=
  (st.txtBuff, st.idx, st.processBufferToObj, st.handed)

/-- One character read as literal text: the delimiter hands the buffer over
under the name of the column, any other character joins the buffer. -/
def Text.literalStep (d : Char) (headers : List String)
    (core : List Char × Nat × Bool × List (String × String)) (c : Char) :
    List Char × Nat × Bool × List (String × String) :=
  if c = d then
    ([], core.2.1 + 1, true,
      core.2.2.2 ++ [(Text.fieldNameAt headers core.2.1, String.mk core.1)])
  else (core.1 ++ [c], core.2.1, false, core.2.2.2)

/-- A run of characters read as literal text. -/
def Text.literalScan (d : Char) (headers : List String) (l : List Char)
    (core : List Char × Nat × Bool × List (String × String)) :
    List Char × Nat × Bool × List (String × String) :=
  l.foldl (Text.literalStep d headers) core

/-! ## A concrete library instance for closed examples -/

/-- ASCII lower-casing of a string, as `strings.ToLower` acts on ASCII text. -/
def asciiLower (s : String) : String := String.mk (s.data.map Char.toLower)

/-- Value of a string of decimal digits, `none` when a character is not a digit
or the string is empty. -/
def parseDigits : List Char → Option Nat
  | [] => none
  | cs => cs.foldl (fun acc c =>
      match acc with
      | none => none
      | some n => if c.isDigit then some (n * 10 + (c.toNat - 48)) else none) (some 0)

/-- Integer reading of a decimal text with an optional sign, standing for
`strconv.ParseFloat(_, 64)` in the closed examples. It reads integer numerals
only (a text with a fraction or an exponent is refused), and its error text
is the one of `strconv.ParseFloat` without the quotes Go puts around the
input. -/
def parseInt (s : String) : Except String Int :=
  let bad : Except String Int :=
    .error ("strconv.ParseFloat: parsing " ++ s ++ ": invalid syntax")
  match s.data with
  | '-' :: cs => match parseDigits cs with
    | some n => .ok (-(n : Int))
    | none => bad
  | cs => match parseDigits cs with
    | some n => .ok (n : Int)
    | none => bad

/-- Text of `fmt.Sprintf("%f", x)` for the float the rational denotes: six
decimals, the last one rounded half to even. -/
def fixed6 (q : ℚ) : String :=
  let a : ℚ := abs q * 1000000
  let fl : Int := a.floor
  let r : Int :=
    if a - fl < 1 / 2 then fl
    else if 1 / 2 < a - fl then fl + 1
    else if fl % 2 = 0 then fl else fl + 1
  let frac := intText (r % 1000000)
  (if q < 0 then "-" else "") ++ intText (r / 1000000) ++ "."
    ++ String.mk (List.replicate (6 - frac.length) '0') ++ frac

/-- Text of `fmt.Sprint(x)` (the verb `%v`, that is `%g` with the shortest
digits) for a float64 `x` that is an integer below `2^53` in magnitude: up to
six digits are printed as they are, a longer number in the exponent form
`d.ddde+XX` without trailing zeros in the mantissa. -/
def floatText (i : Int) : String :=
  let digits := (intText (Int.ofNat i.natAbs)).data
  let sign := if i < 0 then "-" else ""
  if digits.length ≤ 6 then sign ++ String.mk digits
  else
    let exponent := intText (Int.ofNat (digits.length - 1))
    match (digits.reverse.dropWhile (fun c => c == '0')).reverse with
    | [] => sign ++ "0"
    | [d] => sign ++ String.mk [d] ++ "e+" ++ (if exponent.length < 2 then "0" else "") ++ exponent
    | d :: ds =>
      sign ++ String.mk (d :: '.' :: ds) ++ "e+" ++ (if exponent.length < 2 then "0" else "")
        ++ exponent

/-- Rendering used by the closed examples: strings render as themselves,
integers in decimal, booleans and nil as Go prints them, a float that is an
integer below `2^53` in magnitude as `floatText` gives it; the examples hold
no other kind of value, for which a fixed text stands. -/
def asciiSprint : Value → String
  | .nil => "<nil>"
  | .bool true => "true"
  | .bool false => "false"
  | .int i => intText i
  | .int64 i => intText i
  | .float q => if q.den = 1 ∧ q.num.natAbs < 2 ^ 53 then floatText q.num else "<composite>"
  | .str s => s
  | _ => "<composite>"

/-- Library instance for the closed examples: ASCII lower-casing, integers as
the numeric domain. The examples use ASCII names and integer numerals, on which
it agrees with the Go library. It is not the Go library elsewhere: its numbers
are compared as exact integers where Go compares the float64 values, and its
division is the one of the rationals, which gives no infinity for a zero
divisor. -/
def asciiLib : GoLib where
  F := Int
  sprint := asciiSprint
  parseFloat := parseInt
  flt := fun a b => decide (a < b)
  fle := fun a b => decide (a ≤ b)
  toLower := asciiLower
  formatF := fixed6
  fadd := fun a b => a + b
  fdiv := fun a b => a / b

/-! ## The small-slice algorithms of `sort.Sort` for closed examples -/

/-- The exchange `data.Swap(i, j)` on a slice. -/
def swapAt {α : Type} (l : List α) (i j : Nat) : List α :=
  match l.get? i, l.get? j with
  | some x, some y => (l.set i y).set j x
  | _, _ => l

/-- The inner loop of `insertionSort` for the element `x` at index `i`,
`for j := i; j > a && data.Less(j, j-1); j-- { data.Swap(j, j-1) }`, on the
elements before it listed from index `i-1` down: `x` moves left past every
neighbour it is less than. -/
def sinkLeft {α : Type} (less : α → α → Bool) (x : α) : List α → List α
  | [] => [x]
  | y :: ys => if less x y then y :: sinkLeft less x ys else x :: y :: ys

/-- Function `insertionSort(data, 0, n)` of package `sort`: the inner loop
for every index in turn; the part already visited is kept in reverse. -/
def insertionSort {α : Type} (less : α → α → Bool) (l : List α) : List α :=
  (l.foldl (fun visited x => sinkLeft less x visited) []).reverse

/-- The pass `for i := a + 6; i < b; i++ { if data.Less(i, i-6) {
data.Swap(i, i-6) } }` that `quickSort` of Go 1.6 to 1.18 runs before the
insertion sort, from index `i` on for `count` indices. -/
def shellPass {α : Type} (less : α → α → Bool) : Nat → Nat → List α → List α
  | _, 0, l => l
  | i, count + 1, l =>
    match l.get? i, l.get? (i - 6) with
    | some x, some y => shellPass less (i + 1) count (if less x y then swapAt l i (i - 6) else l)
    | _, _ => shellPass less (i + 1) count l

/-- The `sort.Sort` of Go 1.6 to 1.18 on a slice of at most 12 elements (the
length at which `quickSort` stops partitioning): the pass with gap 6, then the
insertion sort. -/
def sortGo118 : GoSort :=
  { run := fun less l => insertionSort less (shellPass less 6 (l.length - 6) l) }

/-- The `sort.Sort` of Go 1.19 and later on a slice of at most 12 elements:
the insertion sort alone. -/
def sortGo119 : GoSort :=
  { run := fun less l => insertionSort less l }

/-! ## Example data -/

/-- A record of the sort examples: an integer key `k` and a label `id`. -/
def keyed (k : Int) (id : String) : Record := [("k", .int k), ("id", .str id)]

/-- A record of the sort examples with two integer keys and a number. -/
def keyed2 (k1 k2 id : Int) : Record := [("k1", .int k1), ("k2", .int k2), ("id", .int id)]

/-- The five records of the aggregation fixture: a two-valued `Grade` and a
`Salary` of Go type `int`. -/
def salaries : List Record :=
  [[("Grade", .str "A"), ("Salary", .int 1)], [("Grade", .str "B"), ("Salary", .int 4)],
   [("Grade", .str "A"), ("Salary", .int 5)], [("Grade", .str "B"), ("Salary", .int 6)],
   [("Grade", .str "A"), ("Salary", .int 9)]]

end Dbflex

/-! # Theorems -/

namespace Dbflex

/-! ## Field resolution -/

theorem splitOn_of_not_mem (sep : Char) (cs : List Char) (h : sep ∉ cs) :
    splitOn sep cs = [String.mk cs] := by
  induction cs with
  | nil => rfl
  | cons c cs ih =>
    have hc : c ≠ sep := fun e => h (by simp [e])
    have hcs : sep ∉ cs := fun e => h (by simp [e])
    rw [splitOn, ih hcs]
    simp [hc]

theorem subNames_plain (field : String) (h : '.' ∉ field.data) :
    Json.subNames field = [field] := by
  unfold Json.subNames
  rw [splitOn_of_not_mem _ _ h]

/-- Resolution of a one-segment field never descends and never panics. -/
theorem resolve_single (lib : GoLib) (field : String) (data : Record)
    (h : Json.subNames field = [field]) :
    Json.resolve lib field data =
      .ok (data, match Json.findKey lib field data with | none => [] | some v => [v]) := by
  unfold Json.resolve
  rw [h]
  simp only [Json.resolveLoop, List.length_singleton]
  cases Json.findKey lib field data <;> simp [Json.resolveLoop]

/-- A node built without a field (`And`, `Or`, `Not`) is evaluated on the
record it was given. -/
theorem resolve_empty (lib : GoLib) (data : Record) :
    ∃ keys, Json.resolve lib "" data = .ok (data, keys) :=
  ⟨_, resolve_single lib "" data rfl⟩

/-- On a filter without children and with a comparison operator, `isIncluded`
is `isIncludedLeaf`. -/
theorem isIncluded_gte (lib : GoLib) (data : Record) (field : String) (v : Value) :
    Json.isIncluded lib data (Gte field v) = Json.isIncludedLeaf lib data field .OpGte v := by
  unfold Gte
  rw [Json.isIncluded, Json.isIncludedLeaf]

theorem isIncluded_lte (lib : GoLib) (data : Record) (field : String) (v : Value) :
    Json.isIncluded lib data (Lte field v) = Json.isIncludedLeaf lib data field .OpLte v := by
  unfold Lte
  rw [Json.isIncluded, Json.isIncludedLeaf]

/-- Evaluation of a `Not` node of the JSON driver in terms of its child. -/
theorem isIncluded_not (lib : GoLib) (data : Record) (P : Filter) :
    Json.isIncluded lib data (Not P) =
      match Json.isIncluded lib data P with
      | .ok r => .ok (!r)
      | .err m => .err m
      | .panic m => .panic m := by
  obtain ⟨keys, hk⟩ := resolve_empty lib data
  unfold Not
  rw [Json.isIncluded, hk]
  simp only [FilterOp.toleratesMissing]
  cases Json.isIncluded lib data P <;> simp

/-- Evaluation of an `And` node of the JSON driver in terms of its loop. -/
theorem isIncluded_and (lib : GoLib) (data : Record) (items : List Filter) :
    Json.isIncluded lib data (And items) = Json.andLoop lib data items := by
  obtain ⟨keys, hk⟩ := resolve_empty lib data
  unfold And
  rw [Json.isIncluded, hk]
  simp [FilterOp.toleratesMissing]

/-- Evaluation of a `Range` node on a field without a dot: the node's own
resolution leaves the record in place. -/
theorem isIncluded_range_plain (lib : GoLib) (data : Record) (field : String)
    (lo hi : Value) (h : '.' ∉ field.data) :
    Json.isIncluded lib data (Range field lo hi) =
      Json.rangeNode lib data field (.list [lo, hi]) := by
  unfold Range
  rw [Json.isIncluded, resolve_single lib field data (subNames_plain field h)]
  simp [FilterOp.toleratesMissing]

/-- For a field name without a dot, `Range(f, lo, hi)` and
`And(Gte(f, lo), Lte(f, hi))` have the same outcome on every record. -/
theorem range_eq_and_plain (lib : GoLib) (data : Record) (field : String)
    (lo hi : Value) (h : '.' ∉ field.data) :
    Json.isIncluded lib data (Range field lo hi) =
      Json.isIncluded lib data (And [Gte field lo, Lte field hi]) := by
  rw [isIncluded_range_plain lib data field lo hi h, isIncluded_and]
  simp only [Json.rangeNode, Json.andLoop, isIncluded_gte, isIncluded_lte]
  cases Json.isIncludedLeaf lib data field .OpGte lo with
  | ok b =>
    cases b
    · rfl
    · cases Json.isIncludedLeaf lib data field .OpLte hi with
      | ok c => cases c <;> rfl
      | err m => rfl
      | panic m => rfl
  | err m => rfl
  | panic m => rfl

/-- A comparison on a field name without a dot that matches no key of the
record returns the field-not-found error. -/
theorem compare_missing_plain (lib : GoLib) (data : Record) (field : String)
    (op : FilterOp) (v : Value) (items : List Filter) (h : '.' ∉ field.data)
    (hop : op.toleratesMissing = false) (hmiss : Json.findKey lib field data = none) :
    Json.isIncluded lib data (.mk field op v items) = .err (fieldNotExist field) := by
  rw [Json.isIncluded, resolve_single lib field data (subNames_plain field h), hmiss]
  simp [subNames_plain field h, hop]

/-! ## Text driver: evaluation of `Not` -/

theorem headerIndex_lt (lib : GoLib) (field : String) (header : List String) (i : Nat)
    (h : Text.headerIndex lib field header = some i) : i < header.length := by
  induction header generalizing i with
  | nil => simp [Text.headerIndex] at h
  | cons v rest ih =>
    unfold Text.headerIndex at h
    split at h
    · cases h; simp
    · cases hr : Text.headerIndex lib field rest with
      | none => simp [hr] at h
      | some j =>
        simp [hr] at h
        subst h
        simpa using ih j hr

/-- On a row with a cell for every header column, the column value is read
without a panic. -/
theorem dataValueOf_ok (lib : GoLib) (field : String) (data header : List String)
    (hw : header.length ≤ data.length) :
    ∃ dv, Text.dataValueOf data (Text.headerIndex lib field header) = .ok dv := by
  cases hi : Text.headerIndex lib field header with
  | none => exact ⟨"", rfl⟩
  | some i =>
    have hlt : i < data.length := Nat.lt_of_lt_of_le (headerIndex_lt lib field header i hi) hw
    refine ⟨Text.trimQuotes data[i], ?_⟩
    simp [Text.dataValueOf, List.getElem?_eq_getElem hlt]

/-- Evaluation of a `Not` node of the text driver in terms of its child, on a
row with a cell for every header column. -/
theorem text_isIncluded_not (lib : GoLib) (data header : List String) (P : Filter)
    (hw : header.length ≤ data.length) :
    Text.isIncluded lib data header (Not P) =
      match Text.isIncluded lib data header P with
      | .ok r => .ok (!r)
      | .err m => .err m
      | .panic m => .panic m := by
  obtain ⟨dv, hdv⟩ := dataValueOf_ok lib "" data header hw
  unfold Not
  rw [Text.isIncluded, hdv]
  simp only [FilterOp.toleratesMissing]
  cases Text.isIncluded lib data header P <;> simp

/-! ## Claims on the filter evaluator -/

/-- C8 (the code departs from the claim): the record holds the plain text field
`a`, so the path `a.b` does not resolve in it, yet evaluating `Eq("a.b", "x")`
returns no error naming the field: the resolution loop finds `a`, expects a
nested record under it and aborts on the failed type assertion
`data[s].(map[string]interface{})`. -/
theorem compare_unresolved_path_panics :
    Json.isIncluded asciiLib [("a", .str "x")] (Eq "a.b" (.str "x")) =
      .panic "interface conversion: interface {} is not map[string]interface {}" := by
  decide

/-- C9: for every record `R` and predicate `P`, if evaluating `P` on `R` returns
the boolean `b` without error then evaluating `Not(P)` on `R` returns `!b`
without error, and if `P` returns an error then `Not(P)` returns that error.
This holds for the evaluator of the JSON driver on every record, and for the
evaluator of the text driver on every row that has a cell for each header
column. -/
theorem not_negates (lib : GoLib) (P : Filter) :
    (∀ (R : Record) (b : Bool), Json.isIncluded lib R P = .ok b →
        Json.isIncluded lib R (Not P) = .ok (!b)) ∧
    (∀ (R : Record) (e : String), Json.isIncluded lib R P = .err e →
        Json.isIncluded lib R (Not P) = .err e) ∧
    (∀ (header data : List String), header.length ≤ data.length →
      (∀ b : Bool, Text.isIncluded lib data header P = .ok b →
          Text.isIncluded lib data header (Not P) = .ok (!b)) ∧
      (∀ e : String, Text.isIncluded lib data header P = .err e →
          Text.isIncluded lib data header (Not P) = .err e)) := by
  refine ⟨?_, ?_, ?_⟩
  · intro R b h
    rw [isIncluded_not, h]
  · intro R e h
    rw [isIncluded_not, h]
  · intro header data hw
    constructor
    · intro b h
      rw [text_isIncluded_not lib data header P hw, h]
    · intro e h
      rw [text_isIncluded_not lib data header P hw, h]

/-- Witness of C9: a record and a row on which `Eq("a", "1")` is true and its
negation false. -/
theorem not_negates_witness :
    Json.isIncluded asciiLib [("a", .str "1")] (Eq "a" (.str "1")) = .ok true ∧
    Json.isIncluded asciiLib [("a", .str "1")] (Not (Eq "a" (.str "1"))) = .ok (!true) ∧
    ["a", "b"].length ≤ ["1", "2"].length ∧
    Text.isIncluded asciiLib ["1", "2"] ["a", "b"] (Eq "a" (.str "1")) = .ok true ∧
    Text.isIncluded asciiLib ["1", "2"] ["a", "b"] (Not (Eq "a" (.str "1"))) = .ok (!true) :=
  ⟨by decide,
   (not_negates asciiLib (Eq "a" (.str "1"))).1 [("a", .str "1")] true (by decide),
   by decide, by decide,
   ((not_negates asciiLib (Eq "a" (.str "1"))).2.2 ["a", "b"] ["1", "2"] (by decide)).1
      true (by decide)⟩

/-- C10 (the code departs from the claim): on the record whose field `a` is the
nested record holding `b = 5`, `And(Gte("a.b", 1), Lte("a.b", 10))` evaluates to
true, while `Range("a.b", 1, 10)` aborts: the range node has already replaced
`data` by the nested record when it evaluates its two legs, which then resolve
`a.b` inside the nested record. -/
theorem range_differs_from_and_on_dotted_path :
    Json.isIncluded asciiLib [("a", .map [("b", .int 5)])]
        (And [Gte "a.b" (.int 1), Lte "a.b" (.int 10)]) = .ok true ∧
    Json.isIncluded asciiLib [("a", .map [("b", .int 5)])]
        (Range "a.b" (.int 1) (.int 10)) =
      .panic "interface conversion: interface {} is not map[string]interface {}" := by
  decide

/-! ## JSON driver: the decoding loops -/

theorem includes_eq_true (lib : GoLib) (F : Option Filter) (r : Record) :
    Json.includes lib F r = true ↔ Json.isIncludedOpt lib r F = .ok true := by
  simp [Json.includes]

theorem includes_of_ok (lib : GoLib) (F : Option Filter) (r : Record) (b : Bool)
    (h : Json.isIncludedOpt lib r F = .ok b) : Json.includes lib F r = b := by
  cases b <;> simp [Json.includes, h]

/-- When the filter evaluates without error on every record, the delete loop
keeps exactly the records it does not include. -/
theorem deleteLoop_eq_filter (lib : GoLib) (F : Option Filter) (L : Table)
    (hF : ∀ r ∈ L, ∃ b, Json.isIncludedOpt lib r F = .ok b) :
    Json.deleteLoop lib F L = .ok (L.filter (fun r => !Json.includes lib F r)) := by
  induction L with
  | nil => rfl
  | cons r rest ih =>
    obtain ⟨b, hb⟩ := hF r (by simp)
    have ih1 := ih (fun x hx => hF x (by simp [hx]))
    rw [Json.deleteLoop, hb]
    simp only [ih1, includes_of_ok lib F r b hb, List.filter_cons]
    cases b <;> simp

/-- The command switch writes the file only when it returns without error. -/
theorem runCommand_not_ok (lib : GoLib) (cmd : Json.Command) (filter : Option Filter)
    (parm : Option Payload) (L : Table)
    (h : (Json.runCommand lib cmd filter parm L).1 ≠ .ok ()) :
    (Json.runCommand lib cmd filter parm L).2 = L := by
  unfold Json.runCommand at h ⊢
  cases cmd with
  | QuerySelect => rfl
  | unknown name => rfl
  | QueryInsert =>
    cases parm with
    | none => rfl
    | some data => cases data <;> simp [Json.insert] at h
  | QueryUpdate =>
    cases parm with
    | none => rfl
    | some data =>
      simp only at h ⊢
      cases hu : Json.updateLoop lib filter data L with
      | ok u => simp [hu] at h
      | err e => rfl
      | panic e => rfl
  | QueryDelete =>
    cases filter with
    | none => simp at h
    | some f =>
      simp only at h ⊢
      cases hu : Json.deleteLoop lib (some f) L with
      | ok u => simp [hu] at h
      | err e => rfl
      | panic e => rfl
  | QuerySave =>
    cases parm with
    | none => rfl
    | some data =>
      simp only at h ⊢
      cases hm : objToM data with
      | err e => rfl
      | panic e => rfl
      | ok mData =>
        simp only [hm] at h ⊢
        cases hl : lookup "_id" mData with
        | none =>
          simp only [hl] at h ⊢
          cases data <;> simp [Json.insert] at h
        | some v =>
          simp only [hl] at h ⊢
          cases hu : Json.saveLoop lib (Eq "_id" v) data L with
          | err e => rfl
          | panic e => rfl
          | ok u =>
            obtain ⟨ud, uc⟩ := u
            simp only [hu] at h
            exfalso
            apply h
            split
            · cases data <;> rfl
            · rfl

/-! ## Claims on the JSON store -/

/-- C3: JSON store Delete. With no filter the stored list becomes empty. With a
filter `F` that evaluates without error on every record, the stored list after
Delete is the sub-sequence of the original records that `F` does not include,
in their original order; no remaining record matches `F`, and deleting again
with `F` changes nothing. -/
theorem delete_keeps_unmatched (lib : GoLib) (parm : Option Payload) (L : Table) :
    Json.Execute lib Env.granted .QueryDelete none parm L = (.ok (), [], lockedAndReleased) ∧
    ∀ F : Filter, (∀ r ∈ L, ∃ b, Json.isIncluded lib r F = .ok b) →
      Json.Execute lib Env.granted .QueryDelete (some F) parm L =
        (.ok (), L.filter (fun r => !Json.includes lib (some F) r), lockedAndReleased) ∧
      (∀ r ∈ L.filter (fun r => !Json.includes lib (some F) r),
        Json.isIncluded lib r F = .ok false) ∧
      Json.Execute lib Env.granted .QueryDelete (some F) parm
          (L.filter (fun r => !Json.includes lib (some F) r)) =
        (.ok (), L.filter (fun r => !Json.includes lib (some F) r), lockedAndReleased) := by
  refine ⟨rfl, ?_⟩
  intro F hF
  have hkeep : ∀ r ∈ L.filter (fun r => !Json.includes lib (some F) r),
      Json.isIncluded lib r F = .ok false := by
    intro r hr
    rw [List.mem_filter] at hr
    obtain ⟨b, hb⟩ := hF r hr.1
    have := includes_of_ok lib (some F) r b hb
    rw [this] at hr
    cases b
    · exact hb
    · simp at hr
  have h1 := deleteLoop_eq_filter lib (some F) L hF
  have h2 := deleteLoop_eq_filter lib (some F)
    (L.filter (fun r => !Json.includes lib (some F) r)) (fun r hr => ⟨false, hkeep r hr⟩)
  refine ⟨?_, hkeep, ?_⟩
  · simp [Json.Execute, Env.granted, Json.runCommand, h1, lockedAndReleased]
  · simp only [Json.Execute, Env.granted, Json.runCommand, h2, lockedAndReleased]
    simp

/-- Witness of C3: deleting the records with `_id = x` from a two-record table. -/
theorem delete_keeps_unmatched_witness :
    Json.Execute asciiLib Env.granted .QueryDelete (some (Eq "_id" (.str "x"))) none
        [[("_id", .str "x")], [("_id", .str "y")]] =
      (.ok (), [[("_id", .str "y")]], lockedAndReleased) := by
  have h := ((delete_keeps_unmatched asciiLib none
    [[("_id", .str "x")], [("_id", .str "y")]]).2 (Eq "_id" (.str "x"))
      (by
        intro r hr
        simp only [List.mem_cons, List.mem_singleton, List.not_mem_nil, or_false] at hr
        rcases hr with rfl | rfl
        · exact ⟨true, by decide⟩
        · exact ⟨false, by decide⟩)).1
  rw [h]
  rfl

/-- C5: error atomicity of the mutations of the JSON store. Whenever `Execute`
does not return normally, in particular when Update, Delete or Save return the
error of a filter evaluation that failed on some stored record, the stored
record list is what it was before the command. -/
theorem failed_command_leaves_file (lib : GoLib) (env : Env) (cmd : Json.Command)
    (filter : Option Filter) (parm : Option Payload) (L : Table)
    (h : (Json.Execute lib env cmd filter parm L).1 ≠ .ok ()) :
    (Json.Execute lib env cmd filter parm L).2.1 = L := by
  unfold Json.Execute at h ⊢
  split
  · rfl
  · split
    · rfl
    · rename_i h1 h2
      simp only [h1, h2, if_false] at h
      exact runCommand_not_ok lib cmd filter parm L h

/-- Witness of C5: an Update whose filter names a field the stored record
lacks returns the field-not-found error and leaves the stored list as it was. -/
theorem failed_command_leaves_file_witness :
    (Json.Execute asciiLib Env.granted .QueryUpdate (some (Eq "_id" (.str "x")))
        (some (.single [("a", .int 1)])) [[("name", .str "a")]]).1
      = .err (fieldNotExist "_id") ∧
    (Json.Execute asciiLib Env.granted .QueryUpdate (some (Eq "_id" (.str "x")))
        (some (.single [("a", .int 1)])) [[("name", .str "a")]]).2.1
      = [[("name", .str "a")]] :=
  ⟨by decide, failed_command_leaves_file _ _ _ _ _ _ (by decide)⟩

/-! ## Equality filters on the identity field -/

theorem mem_of_lookup (k : String) (v : Value) (r : Record) (h : lookup k r = some v) :
    (k, v) ∈ r := by
  induction r with
  | nil => simp [lookup] at h
  | cons e rest ih =>
    obtain ⟨k1, v1⟩ := e
    unfold lookup at h
    split at h
    · rename_i hk
      cases h
      simp [hk]
    · exact List.mem_cons_of_mem _ (ih h)

/-- In a record whose names are distinct ignoring case, the key found for a
name the record holds is that name. -/
theorem findKey_of_lookup (lib : GoLib) (k : String) (v : Value) (r : Record)
    (h : lookup k r = some v) (hd : namesDistinct lib r) : Json.findKey lib k r = some k := by
  induction r with
  | nil => simp [lookup] at h
  | cons e rest ih =>
    obtain ⟨k1, v1⟩ := e
    unfold namesDistinct at hd
    rw [List.pairwise_cons] at hd
    unfold lookup at h
    unfold Json.findKey
    split at h
    · rename_i hk
      subst hk
      simp [List.find?]
    · have hmem := mem_of_lookup k v rest h
      have hne : lib.toLower k1 ≠ lib.toLower k := hd.1 (k, v) hmem
      have hb : (lib.toLower k1 == lib.toLower k) = false := by simpa using hne
      have ih1 := ih h hd.2
      unfold Json.findKey at ih1
      simp only [List.find?, hb]
      exact ih1

/-- An equality filter on a top-level field holds on a record that stores the
compared value under that name. -/
theorem eq_filter_on_own_value (lib : GoLib) (k : String) (v : Value) (r : Record)
    (hk : '.' ∉ k.data) (h : lookup k r = some v) (hd : namesDistinct lib r) :
    Json.isIncluded lib r (Eq k v) = .ok true := by
  unfold Eq
  rw [Json.isIncluded, resolve_single lib k r (subNames_plain k hk),
    findKey_of_lookup lib k v r h hd]
  simp [subNames_plain k hk, compareNode, Json.dataValueOf, h]

/-- An equality filter on a top-level field holds on a record that stores
under that name a value that prints as the compared value does. -/
theorem eq_filter_on_printed_value (lib : GoLib) (k : String) (v w : Value) (r : Record)
    (hk : '.' ∉ k.data) (h : lookup k r = some w) (hw : lib.sprint w = lib.sprint v)
    (hd : namesDistinct lib r) :
    Json.isIncluded lib r (Eq k v) = .ok true := by
  unfold Eq
  rw [Json.isIncluded, resolve_single lib k r (subNames_plain k hk),
    findKey_of_lookup lib k w r h hd]
  simp [subNames_plain k hk, compareNode, Json.dataValueOf, h, hw]

/-! ## The JSON round trip of a written record -/

theorem jsonDecodedFields_eq_map (r : Record) :
    jsonDecodedFields r = r.map (fun kv => (kv.1, jsonDecoded kv.2)) := by
  induction r with
  | nil => rfl
  | cons kv rest ih =>
    obtain ⟨k, v⟩ := kv
    rw [jsonDecodedFields, ih]
    rfl

/-- The round trip keeps the field names, in order. -/
theorem jsonDecodedFields_names (r : Record) :
    (jsonDecodedFields r).map Prod.fst = r.map Prod.fst := by
  rw [jsonDecodedFields_eq_map, List.map_map]
  rfl

theorem jsonDecodedFields_lookup (k : String) (v : Value) (r : Record)
    (h : lookup k r = some v) : lookup k (jsonDecodedFields r) = some (jsonDecoded v) := by
  induction r with
  | nil => simp [lookup] at h
  | cons e rest ih =>
    obtain ⟨k1, v1⟩ := e
    rw [jsonDecodedFields]
    unfold lookup at h
    show lookup k ((k1, jsonDecoded v1) :: jsonDecodedFields rest) = _
    unfold lookup
    split at h
    · rename_i hk
      cases h
      simp [hk]
    · rename_i hk
      simp only [hk, if_false]
      exact ih h

theorem jsonDecodedFields_distinct (lib : GoLib) (r : Record) (hd : namesDistinct lib r) :
    namesDistinct lib (jsonDecodedFields r) := by
  unfold namesDistinct at hd ⊢
  rw [jsonDecodedFields_eq_map, List.pairwise_map]
  exact hd

theorem jsonDecodedFields_mem (r : Record) (kv : String × Value) :
    kv ∈ jsonDecodedFields r ↔ ∃ e ∈ r, (e.1, jsonDecoded e.2) = kv := by
  rw [jsonDecodedFields_eq_map, List.mem_map]

theorem writeToJSONFile_append (a b : List Record) :
    Json.writeToJSONFile (a ++ b) = Json.writeToJSONFile a ++ Json.writeToJSONFile b := by
  unfold Json.writeToJSONFile
  rw [List.map_append]

/-- The record handed to a map buffer holds the fields of the stored record
whose value is not nil. -/
theorem mapToObject_mem (r : Record) (kv : String × Value) :
    kv ∈ Json.mapToObject r ↔ kv ∈ r ∧ kv.2 ≠ .nil := by
  unfold Json.mapToObject
  rw [List.mem_filter]
  obtain ⟨k, v⟩ := kv
  cases v <;> simp

/-- A record whose values are what the decoder gives back for them, none of
them nil, is handed to the buffer of a fetch as it was written. -/
theorem mapToObject_of_plain (r : Record)
    (h : ∀ kv ∈ r, jsonDecoded kv.2 = kv.2 ∧ kv.2 ≠ .nil) :
    Json.mapToObject (jsonDecodedFields r) = r := by
  induction r with
  | nil => rfl
  | cons kv rest ih =>
    obtain ⟨k, v⟩ := kv
    have h1 := h (k, v) (by simp)
    have ih1 := ih (fun x hx => h x (by simp [hx]))
    rw [jsonDecodedFields]
    show Json.mapToObject ((k, jsonDecoded v) :: jsonDecodedFields rest) = _
    unfold Json.mapToObject at ih1 ⊢
    rw [List.filter_cons, ih1, h1.1]
    cases v with
    | nil => exact absurd rfl h1.2
    | _ => rfl

/-- With `shouldFetched = 0` and a count that is not negative, the scan loop
appends every included record, when the filter evaluates without error. -/
theorem scanLoop_all (lib : GoLib) (F : Option Filter) (T : Table)
    (hF : ∀ r ∈ T, ∃ b, Json.isIncludedOpt lib r F = .ok b) (read : Int) (hr : 0 ≤ read)
    (ivs : List Record) :
    Json.scanLoop lib F 0 T read ivs =
      .ok (ivs ++ (T.filter (Json.includes lib F)).map Json.mapToObject) := by
  induction T generalizing read ivs with
  | nil => simp [Json.scanLoop]
  | cons r rest ih =>
    obtain ⟨b, hb⟩ := hF r (by simp)
    have ih1 := ih (fun x hx => hF x (by simp [hx]))
    rw [Json.scanLoop, hb]
    cases b
    · simp [ih1 read hr ivs, List.filter_cons, includes_of_ok lib F r false hb]
    · have h1 : read + 1 ≠ 0 := by omega
      have h2 : read + 1 > 0 := by omega
      simp [h1, h2, ih1 (read + 1) (by omega), List.filter_cons,
        includes_of_ok lib F r true hb]

/-- C1 (as amended): JSON store Insert. For every stored record list `L` that
is the decoded content of a file (writing it gives it back) and every payload
(one record, or a slice of records) the stored list after Insert is `L`
followed by the payload records in order, each as `encoding/json` writes and
reads it back (every number a float64), the records of `L` unchanged. If
moreover the `_id` of an inserted record prints the same before and after that
round trip, and the equality filter on it evaluates without error on every
stored record, a fetch with that filter returns, in file order, exactly the
stored records the filter includes, each without its nil-valued fields, and the
inserted record as stored is one of the included records. The record fetched
for it holds its stored fields whose value is not nil, and is the inserted
record itself when each of its values is one the round trip gives back (a
string, a boolean, a float64 number) and none is nil. -/
theorem insert_appends_then_fetch (lib : GoLib) (filter : Option Filter) (L : Table)
    (data : Payload) (hL : Json.writeToJSONFile L = L) :
    Json.Execute lib Env.granted .QueryInsert filter (some data) L =
      (.ok (), L ++ data.records.map jsonDecodedFields, lockedAndReleased) ∧
    ∀ (r : Record) (v : Value), r ∈ data.records → lookup "_id" r = some v →
      namesDistinct lib r →
      lib.sprint (jsonDecoded v) = lib.sprint v →
      (∀ x ∈ L ++ data.records.map jsonDecodedFields,
        ∃ b, Json.isIncluded lib x (Eq "_id" v) = .ok b) →
      Json.FetchsPlain lib (some (Eq "_id" v)) 0 0 (L ++ data.records.map jsonDecodedFields) =
        .ok (((L ++ data.records.map jsonDecodedFields).filter
          (Json.includes lib (some (Eq "_id" v)))).map Json.mapToObject) ∧
      jsonDecodedFields r ∈ (L ++ data.records.map jsonDecodedFields).filter
        (Json.includes lib (some (Eq "_id" v))) ∧
      (∀ kv, kv ∈ Json.mapToObject (jsonDecodedFields r) ↔
        kv ∈ jsonDecodedFields r ∧ kv.2 ≠ .nil) ∧
      ((∀ kv ∈ r, jsonDecoded kv.2 = kv.2 ∧ kv.2 ≠ .nil) →
        Json.mapToObject (jsonDecodedFields r) = r) := by
  constructor
  · have e : ∀ nd : List Record,
        Json.writeToJSONFile (L ++ nd) = L ++ nd.map jsonDecodedFields := by
      intro nd
      rw [writeToJSONFile_append, hL]
      rfl
    cases data with
    | single r =>
      simp [Json.Execute, Env.granted, Json.runCommand, Json.insert, e, Payload.records,
        lockedAndReleased]
    | slice rs =>
      simp [Json.Execute, Env.granted, Json.runCommand, Json.insert, e, Payload.records,
        lockedAndReleased]
  · intro r v hr hv hd hsp hF
    refine ⟨?_, ?_, mapToObject_mem (jsonDecodedFields r), mapToObject_of_plain r⟩
    · have := scanLoop_all lib (some (Eq "_id" v)) (L ++ data.records.map jsonDecodedFields)
        hF 0 (le_refl 0) []
      simpa [Json.FetchsPlain] using this
    · rw [List.mem_filter]
      refine ⟨List.mem_append_right _ (List.mem_map_of_mem _ hr), ?_⟩
      rw [includes_eq_true]
      exact eq_filter_on_printed_value lib "_id" v (jsonDecoded v) (jsonDecodedFields r)
        (by decide) (jsonDecodedFields_lookup "_id" v r hv) hsp
        (jsonDecodedFields_distinct lib r hd)

/-- Witness of C1: inserting a record with `_id = x` and the integer field
`Age = 30` after a record with `_id = y`, then fetching by `_id = x`: the
record is stored and fetched with the float64 `30`. -/
theorem insert_appends_then_fetch_witness :
    Json.Execute asciiLib Env.granted .QueryInsert none
        (some (.single [("_id", .str "x"), ("Age", .int 30)])) [[("_id", .str "y")]] =
      (.ok (), [[("_id", .str "y")], [("_id", .str "x"), ("Age", .float 30)]],
        lockedAndReleased) ∧
    Json.FetchsPlain asciiLib (some (Eq "_id" (.str "x"))) 0 0
        [[("_id", .str "y")], [("_id", .str "x"), ("Age", .float 30)]] =
      .ok [[("_id", .str "x"), ("Age", .float 30)]] := by
  have e : [[("_id", Value.str "y")]] ++
      (Payload.single [("_id", .str "x"), ("Age", .int 30)]).records.map jsonDecodedFields =
      [[("_id", .str "y")], [("_id", .str "x"), ("Age", .float 30)]] := by
    simp [Payload.records, jsonDecodedFields, jsonDecodedField, jsonDecoded]
    decide
  have h := insert_appends_then_fetch asciiLib none [[("_id", .str "y")]]
    (.single [("_id", .str "x"), ("Age", .int 30)]) rfl
  rw [e] at h
  refine ⟨h.1, ?_⟩
  have h2 := (h.2 [("_id", .str "x"), ("Age", .int 30)] (.str "x")
      (by simp [Payload.records]) rfl
      (by unfold namesDistinct; decide) rfl
      (by
        intro r hr
        simp only [List.mem_cons, List.mem_singleton, List.not_mem_nil, or_false] at hr
        rcases hr with rfl | rfl
        · exact ⟨false, by decide⟩
        · exact ⟨true, by decide⟩)).1
  exact h2.trans rfl

/-- Counterexample to C1 as stated: after inserting the record with `_id = x`
into a table whose stored record has no `_id` field, the stored list is the
old record followed by the new one, but the equality-filter fetch on `_id = x`
returns the field-not-found error instead of the inserted record. -/
theorem insert_then_fetch_fails_on_record_without_id :
    Json.Execute asciiLib Env.granted .QueryInsert none
        (some (.single [("_id", .str "x")])) [[("name", .str "a")]] =
      (.ok (), [[("name", .str "a")], [("_id", .str "x")]], lockedAndReleased) ∧
    Json.FetchsPlain asciiLib (some (Eq "_id" (.str "x"))) 0 0
        [[("name", .str "a")], [("_id", .str "x")]] = .err (fieldNotExist "_id") :=
  ⟨rfl, rfl⟩

/-- A field with a nil value is stored (as `null`) and is not in the fetched
record. -/
theorem fetch_drops_nil_fields :
    Json.Execute asciiLib Env.granted .QueryInsert none
        (some (.single [("_id", .str "x"), ("note", .nil)])) [] =
      (.ok (), [[("_id", .str "x"), ("note", .nil)]], lockedAndReleased) ∧
    Json.FetchsPlain asciiLib (some (Eq "_id" (.str "x"))) 0 0
        [[("_id", .str "x"), ("note", .nil)]] = .ok [[("_id", .str "x")]] :=
  ⟨rfl, rfl⟩

/-- An `_id` that does not print the same after the round trip: the record
with the integer `_id = 1000000` is stored with the float64 `1000000`, which
prints as `1e+06`, and the equality-filter fetch on the integer `1000000`,
which prints as `1000000`, returns no record. -/
theorem insert_then_fetch_misses_large_int_id :
    Json.Execute asciiLib Env.granted .QueryInsert none
        (some (.single [("_id", .int 1000000)])) [] =
      (.ok (), [[("_id", .float 1000000)]], lockedAndReleased) ∧
    Json.FetchsPlain asciiLib (some (Eq "_id" (.int 1000000))) 0 0
        [[("_id", .float 1000000)]] = .ok [] := by
  constructor
  · simp [Json.Execute, Env.granted, Json.runCommand, Json.insert, Json.writeToJSONFile,
      jsonDecodedFields, jsonDecodedField, jsonDecoded, lockedAndReleased]
    decide
  · have hinc : Json.isIncluded asciiLib [("_id", .float 1000000)]
        (Eq "_id" (.int 1000000)) = .ok false := by decide
    simp [Json.FetchsPlain, Json.scanLoop, Json.isIncludedOpt, hinc]

/-! ## The overlay of an update -/

/-- Two fields of a record with names distinct ignoring case that answer to
the same name are the same field. -/
theorem field_unique (lib : GoLib) (m : Record) (hd : namesDistinct lib m)
    (a b : String × Value) (ha : a ∈ m) (hb : b ∈ m)
    (h : lib.toLower a.1 = lib.toLower b.1) : a = b := by
  induction m with
  | nil => simp at ha
  | cons e rest ih =>
    unfold namesDistinct at hd
    rw [List.pairwise_cons] at hd
    rw [List.mem_cons] at ha hb
    rcases ha with rfl | ha
    · rcases hb with rfl | hb
      · rfl
      · exact absurd h (hd.1 b hb)
    · rcases hb with rfl | hb
      · exact absurd h.symm (hd.1 a ha)
      · exact ih hd.2 ha hb

/-- The overlay keeps the names of the stored record, gives every field named
by `m` the value `m` holds for it, and keeps every other field. -/
theorem overlay_fields (lib : GoLib) (m : Record) (hd : namesDistinct lib m) (ed : Record) :
    List.Forall₂ (fieldOverlaid lib m) ed (Json.overlay lib m ed) := by
  unfold Json.overlay
  induction ed with
  | nil => exact List.Forall₂.nil
  | cons hv rest ih =>
    rw [List.map_cons]
    refine List.Forall₂.cons ?_ ih
    cases hf : m.find? (fun kv => lib.toLower hv.1 == lib.toLower kv.1) with
    | none =>
      have hnone := List.find?_eq_none.mp hf
      refine ⟨rfl, ?_, fun _ => rfl⟩
      intro kv hkv heq
      exact absurd (by simpa using heq) (hnone kv hkv)
    | some found =>
      have hp := List.find?_some hf
      have hmem := List.mem_of_find?_eq_some hf
      refine ⟨rfl, ?_, ?_⟩
      · intro kv hkv heq
        have hfound : lib.toLower found.1 = lib.toLower kv.1 := by
          rw [← heq]
          exact (by simpa using hp : lib.toLower hv.1 = lib.toLower found.1).symm
        have := field_unique lib m hd found kv hmem hkv hfound
        simp [this]
      · intro hall
        exact absurd (by simpa using hp) (hall found hmem)

/-- When the filter evaluates without error on every record and the payload
flattens to `m`, the update loop overlays `m` on the included records and
copies the others. -/
theorem updateLoop_eq_map (lib : GoLib) (F : Option Filter) (data : Payload) (m : Record)
    (hm : objToM data = .ok m) (L : Table)
    (hF : ∀ r ∈ L, ∃ b, Json.isIncludedOpt lib r F = .ok b) :
    Json.updateLoop lib F data L =
      .ok (L.map (fun r => if Json.includes lib F r then Json.overlay lib m r else r)) := by
  induction L with
  | nil => rfl
  | cons r rest ih =>
    obtain ⟨b, hb⟩ := hF r (by simp)
    have ih1 := ih (fun x hx => hF x (by simp [hx]))
    rw [Json.updateLoop, hb]
    simp only [ih1, hm, includes_of_ok lib F r b hb, List.map_cons]
    cases b <;> simp

/-- C2 (as amended): JSON store Update. For every stored list `L`, filter `F`
that evaluates without error on every record of `L`, and incoming record whose
flat form `m` has field names distinct ignoring case, the stored list after
Update has the length and order of `L`; every record `F` does not include is
unchanged; every record `F` includes keeps its field names, takes the value of
`m` for each of its fields named by a field of `m` (ignoring case), and keeps
every field not named by `m` unchanged. Fields of `m` that a stored record
lacks are not added to it. -/
theorem update_overlays_existing_fields (lib : GoLib) (F : Option Filter) (data : Payload)
    (m : Record) (L : Table) (hm : objToM data = .ok m) (hd : namesDistinct lib m)
    (hF : ∀ r ∈ L, ∃ b, Json.isIncludedOpt lib r F = .ok b) :
    ∃ L2, Json.Execute lib Env.granted .QueryUpdate F (some data) L =
        (.ok (), L2, lockedAndReleased) ∧
      List.Forall₂ (fun r r2 =>
        (Json.isIncludedOpt lib r F = .ok false → r2 = r) ∧
        (Json.isIncludedOpt lib r F = .ok true →
          List.Forall₂ (fieldOverlaid lib m) r r2)) L L2 := by
  refine ⟨L.map (fun r => if Json.includes lib F r then Json.overlay lib m r else r), ?_, ?_⟩
  · simp [Json.Execute, Env.granted, Json.runCommand, updateLoop_eq_map lib F data m hm L hF,
      lockedAndReleased]
  · clear hF
    induction L with
    | nil => exact List.Forall₂.nil
    | cons r rest ih =>
      rw [List.map_cons]
      refine List.Forall₂.cons ⟨?_, ?_⟩ ih
      · intro h
        simp [includes_of_ok lib F r false h]
      · intro h
        simp only [includes_of_ok lib F r true h, if_true]
        exact overlay_fields lib m hd r

/-- Witness of C2: an update of the field `role` on the record with `_id = x`
of a two-record table. -/
theorem update_overlays_existing_fields_witness :
    ∃ L2, Json.Execute asciiLib Env.granted .QueryUpdate (some (Eq "_id" (.str "x")))
        (some (.single [("role", .str "Owner")]))
        [[("_id", .str "x"), ("Role", .str "Staff")], [("_id", .str "y"), ("Role", .str "Staff")]]
        = (.ok (), L2, lockedAndReleased) ∧
      List.Forall₂ (fun r r2 =>
        (Json.isIncludedOpt asciiLib r (some (Eq "_id" (.str "x"))) = .ok false → r2 = r) ∧
        (Json.isIncludedOpt asciiLib r (some (Eq "_id" (.str "x"))) = .ok true →
          List.Forall₂ (fieldOverlaid asciiLib [("role", .str "Owner")]) r r2))
        [[("_id", .str "x"), ("Role", .str "Staff")], [("_id", .str "y"), ("Role", .str "Staff")]]
        L2 :=
  update_overlays_existing_fields asciiLib (some (Eq "_id" (.str "x")))
    (.single [("role", .str "Owner")]) [("role", .str "Owner")] _ rfl
    (by unfold namesDistinct; decide)
    (by
      intro r hr
      simp only [List.mem_cons, List.mem_singleton, List.not_mem_nil, or_false] at hr
      rcases hr with rfl | rfl
      · exact ⟨true, by decide⟩
      · exact ⟨false, by decide⟩)

/-- Counterexample to C2 as stated: an update without filter with the incoming
record holding `b = 2` includes the stored record holding `a = 1`, and leaves it
as it was: after the update the record has no field `b`, so it does not agree
with the incoming record on that field. -/
theorem update_does_not_add_fields :
    Json.Execute asciiLib Env.granted .QueryUpdate none (some (.single [("b", .int 2)]))
        [[("a", .int 1)]] = (.ok (), [[("a", .int 1)]], lockedAndReleased) ∧
    Json.isIncludedOpt asciiLib [("a", .int 1)] none = .ok true ∧
    lookup "b" [("a", .int 1)] = none :=
  ⟨rfl, rfl, rfl⟩

/-! ## Save -/

/-- When the filter evaluates without error on every record and the payload
flattens to `m`, the save loop overlays `m` on the included records, copies the
others and counts the included ones. -/
theorem saveLoop_eq_map (lib : GoLib) (f : Filter) (data : Payload) (m : Record)
    (hm : objToM data = .ok m) (T : Table)
    (hF : ∀ r ∈ T, ∃ b, Json.isIncluded lib r f = .ok b) :
    Json.saveLoop lib f data T =
      .ok (T.map (fun r => if Json.includes lib (some f) r then Json.overlay lib m r else r),
        (T.filter (Json.includes lib (some f))).length) := by
  induction T with
  | nil => rfl
  | cons r rest ih =>
    obtain ⟨b, hb⟩ := hF r (by simp)
    have ih1 := ih (fun x hx => hF x (by simp [hx]))
    have hinc : Json.includes lib (some f) r = b := includes_of_ok lib (some f) r b hb
    rw [Json.saveLoop, hb]
    simp only [ih1, hm, hinc, List.map_cons, List.filter_cons]
    cases b <;> simp

theorem overlay_names (lib : GoLib) (m ed : Record) :
    (Json.overlay lib m ed).map Prod.fst = ed.map Prod.fst := by
  unfold Json.overlay
  rw [List.map_map]
  apply List.map_congr_left
  intro hv _
  simp only [Function.comp]
  split <;> rfl

theorem namesDistinct_of_names (lib : GoLib) (r1 r2 : Record)
    (h : r2.map Prod.fst = r1.map Prod.fst) (hd : namesDistinct lib r1) :
    namesDistinct lib r2 := by
  unfold namesDistinct at hd ⊢
  have e1 : List.Pairwise (fun a b : String => lib.toLower a ≠ lib.toLower b)
      (r1.map Prod.fst) := List.pairwise_map.mpr hd
  rw [← h] at e1
  exact (List.pairwise_map (f := Prod.fst)
    (R := fun a b : String => lib.toLower a ≠ lib.toLower b)).mp e1

/-- In a record whose names are distinct ignoring case, the value stored under
the name of one of its fields is the value of that field. -/
theorem lookup_of_mem (lib : GoLib) (r : Record) (hd : namesDistinct lib r) (k : String)
    (v : Value) (h : (k, v) ∈ r) : lookup k r = some v := by
  induction r with
  | nil => simp at h
  | cons e rest ih =>
    obtain ⟨k1, v1⟩ := e
    unfold namesDistinct at hd
    rw [List.pairwise_cons] at hd
    rw [List.mem_cons] at h
    unfold lookup
    rcases h with h | h
    · cases h
      simp
    · have hne : k1 ≠ k := by
        intro e
        exact hd.1 (k, v) h (by simp [e])
      simp only [hne, if_false]
      exact ih hd.2 h

/-- The overlay of a record `r2` on a record `r1` with the same field names
holds exactly the fields of `r2`. -/
theorem overlay_same_names (lib : GoLib) (r1 r2 : Record) (hd2 : namesDistinct lib r2)
    (hnames : ∀ k, k ∈ r1.map Prod.fst ↔ k ∈ r2.map Prod.fst) (kv : String × Value) :
    kv ∈ Json.overlay lib r2 r1 ↔ kv ∈ r2 := by
  have key : ∀ hv ∈ r1, ∀ e ∈ r2, e.1 = hv.1 →
      (match r2.find? (fun kv => lib.toLower hv.1 == lib.toLower kv.1) with
        | some kv => (hv.1, kv.2)
        | none => hv) = e := by
    intro hv _ e he heq
    cases hf : r2.find? (fun kv => lib.toLower hv.1 == lib.toLower kv.1) with
    | none =>
      have := List.find?_eq_none.mp hf e he
      simp [heq] at this
    | some found =>
      have hp := List.find?_some hf
      have hmem := List.mem_of_find?_eq_some hf
      have hlow : lib.toLower found.1 = lib.toLower e.1 := by
        rw [heq]
        exact (by simpa using hp : lib.toLower hv.1 = lib.toLower found.1).symm
      have := field_unique lib r2 hd2 found e hmem he hlow
      subst this
      simp only
      rw [← heq]
  unfold Json.overlay
  rw [List.mem_map]
  constructor
  · rintro ⟨hv, hhv, rfl⟩
    have hk : hv.1 ∈ r2.map Prod.fst := (hnames hv.1).mp (List.mem_map_of_mem _ hhv)
    obtain ⟨e, he, heq⟩ := List.mem_map.mp hk
    rw [key hv hhv e he heq]
    exact he
  · intro hkv
    have hk : kv.1 ∈ r1.map Prod.fst := (hnames kv.1).mpr (List.mem_map_of_mem _ hkv)
    obtain ⟨hv, hhv, heq⟩ := List.mem_map.mp hk
    exact ⟨hv, hhv, key hv hhv kv hkv heq.symm⟩

/-- C4 (as amended): JSON store Save. Start from a stored list `L` that is the
decoded content of a file (writing it gives it back) and on whose every record
the filter `Eq("_id", v)` evaluates without error to false (every record has
an `_id` field, none printing as `v`), and let `v` print the same before and
after the round trip through `encoding/json`. Save of a flat record `r1` with
`_id = v` appends it as the round trip stores it (every number a float64); a
following Save of a flat record `r2` with `_id = v` and the same field names
(names distinct ignoring case) leaves `L` followed by one record that has the
field names of `r1` and exactly the fields of `r2` as the round trip stores
them, and that record is the only one the filter `Eq("_id", v)` includes. A
Save of a record whose flat form carries no `_id` field returns what Insert
returns and stores what Insert stores. -/
theorem save_twice_keeps_latest (lib : GoLib) (filter : Option Filter) :
    (∀ (L : Table) (r1 r2 : Record) (v : Value),
      Json.writeToJSONFile L = L →
      (∀ x ∈ L, Json.isIncluded lib x (Eq "_id" v) = .ok false) →
      objToM (.single r1) = .ok r1 → objToM (.single r2) = .ok r2 →
      lookup "_id" r1 = some v → lookup "_id" r2 = some v →
      lib.sprint (jsonDecoded v) = lib.sprint v →
      namesDistinct lib r1 → namesDistinct lib r2 →
      (∀ k, k ∈ r1.map Prod.fst ↔ k ∈ r2.map Prod.fst) →
      ∃ r3,
        Json.Execute lib Env.granted .QuerySave filter (some (.single r1)) L =
          (.ok (), L ++ [jsonDecodedFields r1], lockedAndReleased) ∧
        Json.Execute lib Env.granted .QuerySave filter (some (.single r2))
            (L ++ [jsonDecodedFields r1]) =
          (.ok (), L ++ [r3], lockedAndReleased) ∧
        r3.map Prod.fst = r1.map Prod.fst ∧
        (∀ kv, kv ∈ r3 ↔ kv ∈ jsonDecodedFields r2) ∧
        (L ++ [r3]).filter (Json.includes lib (some (Eq "_id" v))) = [r3]) ∧
    (∀ (L : Table) (data : Payload) (mData : Record),
      objToM data = .ok mData → lookup "_id" mData = none →
      Json.Execute lib Env.granted .QuerySave filter (some data) L =
        Json.Execute lib Env.granted .QueryInsert filter (some data) L) := by
  constructor
  · intro L r1 r2 v hW hL h1 h2 hid1 hid2 hsp hd1 hd2 hnames
    have hLinc : ∀ x ∈ L, Json.includes lib (some (Eq "_id" v)) x = false :=
      fun x hx => includes_of_ok lib (some (Eq "_id" v)) x false (hL x hx)
    have hfilterL : L.filter (Json.includes lib (some (Eq "_id" v))) = [] := by
      rw [List.filter_eq_nil_iff]
      intro x hx
      simp [hLinc x hx]
    have hmapL : ∀ m, L.map (fun r => if Json.includes lib (some (Eq "_id" v)) r
        then Json.overlay lib m r else r) = L := by
      intro m
      conv_rhs => rw [← List.map_id L]
      apply List.map_congr_left
      intro x hx
      simp [hLinc x hx]
    have hwrite : ∀ r : Record, Json.writeToJSONFile (L ++ [r]) = L ++ [jsonDecodedFields r] := by
      intro r
      rw [writeToJSONFile_append, hW]
      rfl
    have hd1s : namesDistinct lib (jsonDecodedFields r1) := jsonDecodedFields_distinct lib r1 hd1
    have hr1 : Json.isIncluded lib (jsonDecodedFields r1) (Eq "_id" v) = .ok true :=
      eq_filter_on_printed_value lib "_id" v (jsonDecoded v) _ (by decide)
        (jsonDecodedFields_lookup "_id" v r1 hid1) hsp hd1s
    have hr1inc : Json.includes lib (some (Eq "_id" v)) (jsonDecodedFields r1) = true :=
      includes_of_ok lib (some (Eq "_id" v)) _ true hr1
    have hnames1 : ∀ k, k ∈ (jsonDecodedFields r1).map Prod.fst ↔ k ∈ r2.map Prod.fst := by
      intro k
      rw [jsonDecodedFields_names]
      exact hnames k
    have hnames3 : (jsonDecodedFields (Json.overlay lib r2 (jsonDecodedFields r1))).map Prod.fst
        = r1.map Prod.fst := by
      rw [jsonDecodedFields_names, overlay_names, jsonDecodedFields_names]
    have hmem3 := overlay_same_names lib (jsonDecodedFields r1) r2 hd2 hnames1
    have hmem3s : ∀ kv, kv ∈ jsonDecodedFields (Json.overlay lib r2 (jsonDecodedFields r1)) ↔
        kv ∈ jsonDecodedFields r2 := by
      intro kv
      rw [jsonDecodedFields_mem, jsonDecodedFields_mem]
      constructor
      · rintro ⟨e, he, rfl⟩
        exact ⟨e, (hmem3 e).mp he, rfl⟩
      · rintro ⟨e, he, rfl⟩
        exact ⟨e, (hmem3 e).mpr he, rfl⟩
    have hd3 : namesDistinct lib (jsonDecodedFields (Json.overlay lib r2 (jsonDecodedFields r1))) :=
      namesDistinct_of_names lib r1 _ hnames3 hd1
    have hid3 : lookup "_id" (jsonDecodedFields (Json.overlay lib r2 (jsonDecodedFields r1))) =
        some (jsonDecoded v) :=
      lookup_of_mem lib _ hd3 "_id" (jsonDecoded v)
        ((hmem3s ("_id", jsonDecoded v)).mpr
          ((jsonDecodedFields_mem r2 _).mpr ⟨("_id", v), mem_of_lookup "_id" v r2 hid2, rfl⟩))
    have hr3 : Json.isIncluded lib
        (jsonDecodedFields (Json.overlay lib r2 (jsonDecodedFields r1))) (Eq "_id" v) = .ok true :=
      eq_filter_on_printed_value lib "_id" v (jsonDecoded v) _ (by decide) hid3 hsp hd3
    have hr3inc : Json.includes lib (some (Eq "_id" v))
        (jsonDecodedFields (Json.overlay lib r2 (jsonDecodedFields r1))) = true :=
      includes_of_ok lib (some (Eq "_id" v)) _ true hr3
    have hs1 := saveLoop_eq_map lib (Eq "_id" v) (.single r1) r1 h1 L
      (fun x hx => ⟨false, hL x hx⟩)
    have hs2 := saveLoop_eq_map lib (Eq "_id" v) (.single r2) r2 h2 (L ++ [jsonDecodedFields r1])
      (by
        intro x hx
        rw [List.mem_append, List.mem_singleton] at hx
        rcases hx with hx | rfl
        · exact ⟨false, hL x hx⟩
        · exact ⟨true, hr1⟩)
    rw [hmapL, hfilterL] at hs1
    rw [List.map_append, hmapL, List.filter_append, hfilterL] at hs2
    simp only [List.map_cons, List.map_nil, hr1inc, if_true, List.filter_cons,
      List.filter_nil, List.nil_append, List.length_singleton] at hs2
    refine ⟨jsonDecodedFields (Json.overlay lib r2 (jsonDecodedFields r1)), ?_, ?_, hnames3,
      hmem3s, ?_⟩
    · simp [Json.Execute, Env.granted, Json.runCommand, h1, hid1, hs1, hwrite, lockedAndReleased]
    · simp [Json.Execute, Env.granted, Json.runCommand, h2, hid2, hs2, hwrite, lockedAndReleased]
    · rw [List.filter_append, hfilterL]
      simp [List.filter_cons, hr3inc]
  · intro L data mData hm hid
    simp [Json.Execute, Env.granted, Json.runCommand, hm, hid]

/-- Witness of C4: two saves with the integer `_id = 7` on an empty table. The
first stores the record with the float64 `7`, which prints as the integer
does; the second finds it and replaces the value of `Value`. -/
theorem save_twice_keeps_latest_witness :
    ∃ r3,
      Json.Execute asciiLib Env.granted .QuerySave none
          (some (.single [("_id", .int 7), ("Value", .str "Believe Me")])) [] =
        (.ok (), [] ++ [jsonDecodedFields [("_id", .int 7), ("Value", .str "Believe Me")]],
          lockedAndReleased) ∧
      Json.Execute asciiLib Env.granted .QuerySave none
          (some (.single [("_id", .int 7), ("Value", .str "Believe You")]))
          ([] ++ [jsonDecodedFields [("_id", .int 7), ("Value", .str "Believe Me")]]) =
        (.ok (), [] ++ [r3], lockedAndReleased) ∧
      r3.map Prod.fst = [("_id", Value.int 7), ("Value", .str "Believe Me")].map Prod.fst ∧
      (∀ kv, kv ∈ r3 ↔
        kv ∈ jsonDecodedFields [("_id", Value.int 7), ("Value", .str "Believe You")]) ∧
      ([] ++ [r3]).filter (Json.includes asciiLib (some (Eq "_id" (.int 7)))) = [r3] :=
  (save_twice_keeps_latest asciiLib none).1 []
    [("_id", .int 7), ("Value", .str "Believe Me")]
    [("_id", .int 7), ("Value", .str "Believe You")] (.int 7)
    rfl (by simp) rfl rfl rfl rfl (by decide)
    (by unfold namesDistinct; decide) (by unfold namesDistinct; decide)
    (by intro k; simp)

/-- Counterexample to C4 as stated: the stored list holds one record without
an `_id` field, so no stored record has `_id = v`; Save of a record with
`_id = v` returns the field-not-found error of the equality filter and stores
nothing, so no record with `_id = v` exists afterwards. -/
theorem save_fails_on_record_without_id :
    Json.Execute asciiLib Env.granted .QuerySave none
        (some (.single [("_id", .str "v"), ("Value", .str "1")])) [[("name", .str "a")]] =
      (.err (fieldNotExist "_id"), [[("name", .str "a")]], lockedAndReleased) :=
  rfl

/-- The two saves of the test `TestSaveCommand` on an empty table leave the one
record with the latest value. -/
theorem save_twice_of_test :
    Json.Execute asciiLib Env.granted .QuerySave none
        (some (.single [("_id", .str "BAGUS"), ("Value", .str "Believe Me")])) [] =
      (.ok (), [[("_id", .str "BAGUS"), ("Value", .str "Believe Me")]], lockedAndReleased) ∧
    Json.Execute asciiLib Env.granted .QuerySave none
        (some (.single [("_id", .str "BAGUS"), ("Value", .str "Believe You")]))
        [[("_id", .str "BAGUS"), ("Value", .str "Believe Me")]] =
      (.ok (), [[("_id", .str "BAGUS"), ("Value", .str "Believe You")]], lockedAndReleased) :=
  ⟨rfl, rfl⟩

/-- An `_id` that does not print the same after the round trip: two saves with
the integer `_id = 1000000` on an empty table leave two records. The first
stores the float64 `1000000`, which prints as `1e+06`; the filter of the
second save compares that text with `1000000`, finds no record and appends. -/
theorem save_twice_of_large_int_id_keeps_both :
    asciiLib.sprint (jsonDecoded (.int 1000000)) = "1e+06" ∧
    asciiLib.sprint (.int 1000000) = "1000000" ∧
    Json.Execute asciiLib Env.granted .QuerySave none
        (some (.single [("_id", .int 1000000), ("Value", .str "a")])) [] =
      (.ok (), [[("_id", .float 1000000), ("Value", .str "a")]], lockedAndReleased) ∧
    Json.Execute asciiLib Env.granted .QuerySave none
        (some (.single [("_id", .int 1000000), ("Value", .str "b")]))
        [[("_id", .float 1000000), ("Value", .str "a")]] =
      (.ok (), [[("_id", .float 1000000), ("Value", .str "a")],
        [("_id", .float 1000000), ("Value", .str "b")]], lockedAndReleased) := by
  refine ⟨by decide, by decide, ?_, ?_⟩
  · simp [Json.Execute, Env.granted, Json.runCommand, objToM, objToMLoop, objToMEntry,
      objToMValue, assign, lookup, Json.saveLoop, Json.writeToJSONFile, jsonDecodedFields,
      jsonDecodedField, jsonDecoded, lockedAndReleased]
    decide
  · have hinc : Json.isIncluded asciiLib [("_id", .float 1000000), ("Value", .str "a")]
        (Eq "_id" (.int 1000000)) = .ok false := by decide
    simp [Json.Execute, Env.granted, Json.runCommand, objToM, objToMLoop, objToMEntry,
      objToMValue, assign, lookup, Json.saveLoop, hinc, Json.writeToJSONFile, jsonDecodedFields,
      jsonDecodedField, jsonDecoded, lockedAndReleased]
    decide

/-! ## Text driver: update -/

/-- While no row is included, the scan loop of the update block leaves the
count as it was. -/
theorem updateScan_count (lib : GoLib) (cfg : Text.Config) (F : Option Filter)
    (data : Payload) (header rows : List String)
    (h : ∀ txt ∈ rows,
      Text.isIncludedOpt lib (splitOn cfg.Delimeter txt.data) header F ≠ .ok true)
    (temp : List String) (c : Nat) :
    (Text.updateScan lib cfg F data header rows temp c).2 = c := by
  induction rows generalizing temp with
  | nil => rfl
  | cons txt rest ih =>
    have h1 := h txt (by simp)
    have ih1 := ih (fun x hx => h x (by simp [hx]))
    rw [Text.updateScan]
    cases hi : Text.isIncludedOpt lib (splitOn cfg.Delimeter txt.data) header F with
    | panic e => rfl
    | err e => rfl
    | ok b =>
      cases b
      · exact ih1 (temp ++ [txt])
      · exact absurd hi h1

/-- The update block replaces the table file only when it has counted an
updated row. -/
theorem update_file_of_count_zero (lib : GoLib) (cfg : Text.Config) (tempCreated : Bool)
    (F : Option Filter) (parm : Option Payload) (file : List String)
    (h : (Text.update lib cfg tempCreated F parm file).count = 0) :
    (Text.update lib cfg tempCreated F parm file).file = file := by
  unfold Text.update at h ⊢
  cases parm with
  | none => rfl
  | some data =>
    simp only at h ⊢
    split
    · rfl
    · cases file with
      | nil => rfl
      | cons txt rows =>
        simp only at h ⊢
        rename_i ht
        simp only [ht, if_false] at h
        generalize Text.updateScan lib cfg F data (splitOn cfg.Delimeter txt.data) rows [txt] 0
          = res at h ⊢
        obtain ⟨o, c⟩ := res
        cases o with
        | ok temp =>
          simp only at h ⊢
          split
          · rfl
          · rename_i hc
            simp only [hc, if_false] at h
            exact absurd h hc
        | err e => rfl
        | panic e => rfl

/-- C6: Text store Update with a filter that matches zero rows. For every
table file (a header line followed by data rows, or no line at all), if the
filter evaluates to true on no data row, then the update block reports the
updated count 0 and the table file is not replaced: when `Execute` returns, the
header line and every data row are exactly as they were. -/
theorem text_update_without_match (lib : GoLib) (cfg : Text.Config) (env : Env)
    (tempCreated : Bool) (F : Option Filter) (parm : Option Payload) :
    (∀ (headerLine : String) (rows : List String),
      (∀ txt ∈ rows, Text.isIncludedOpt lib (splitOn cfg.Delimeter txt.data)
          (splitOn cfg.Delimeter headerLine.data) F ≠ .ok true) →
      (Text.update lib cfg tempCreated F parm (headerLine :: rows)).count = 0 ∧
      (Text.update lib cfg tempCreated F parm (headerLine :: rows)).file = headerLine :: rows ∧
      (Text.Execute lib cfg env tempCreated .QueryUpdate F parm (headerLine :: rows)).2.1
        = headerLine :: rows) ∧
    ((Text.update lib cfg tempCreated F parm []).count = 0 ∧
      (Text.Execute lib cfg env tempCreated .QueryUpdate F parm []).2.1 = []) := by
  have hexec : ∀ file, (Text.update lib cfg tempCreated F parm file).file = file →
      (Text.Execute lib cfg env tempCreated .QueryUpdate F parm file).2.1 = file := by
    intro file hfile
    unfold Text.Execute
    split
    · rfl
    · split
      · rfl
      · simpa [Text.runCommand] using hfile
  constructor
  · intro headerLine rows h
    have hc : (Text.update lib cfg tempCreated F parm (headerLine :: rows)).count = 0 := by
      unfold Text.update
      cases parm with
      | none => rfl
      | some data =>
        simp only
        split
        · rfl
        · have := updateScan_count lib cfg F data (splitOn cfg.Delimeter headerLine.data)
            rows h [headerLine] 0
          generalize Text.updateScan lib cfg F data (splitOn cfg.Delimeter headerLine.data)
            rows [headerLine] 0 = res at this ⊢
          obtain ⟨o, c⟩ := res
          simp only at this
          subst this
          cases o <;> simp
    have hf := update_file_of_count_zero lib cfg tempCreated F parm (headerLine :: rows) hc
    exact ⟨hc, hf, hexec _ hf⟩
  · have hc : (Text.update lib cfg tempCreated F parm []).count = 0 := by
      unfold Text.update
      cases parm with
      | none => rfl
      | some data =>
        simp only
        split <;> rfl
    exact ⟨hc, hexec _ (update_file_of_count_zero lib cfg tempCreated F parm [] hc)⟩

/-- Witness of C6: an update by `_id = z` on a table whose two rows have the
ids `x` and `y`. -/
theorem text_update_without_match_witness :
    (Text.update asciiLib { Delimeter := ',' } true (some (Eq "_id" (.str "z")))
        (some (.single [("Name", .str "n")])) ["_id,Name", "x,a", "y,b"]).count = 0 ∧
    (Text.update asciiLib { Delimeter := ',' } true (some (Eq "_id" (.str "z")))
        (some (.single [("Name", .str "n")])) ["_id,Name", "x,a", "y,b"]).file
      = ["_id,Name", "x,a", "y,b"] ∧
    (Text.Execute asciiLib { Delimeter := ',' } Env.granted true .QueryUpdate
        (some (Eq "_id" (.str "z"))) (some (.single [("Name", .str "n")]))
        ["_id,Name", "x,a", "y,b"]).2.1 = ["_id,Name", "x,a", "y,b"] :=
  (text_update_without_match asciiLib { Delimeter := ',' } Env.granted true
    (some (Eq "_id" (.str "z"))) (some (.single [("Name", .str "n")]))).1 "_id,Name"
    ["x,a", "y,b"]
    (by
      intro txt htxt
      simp only [List.mem_cons, List.mem_singleton, List.not_mem_nil, or_false] at htxt
      rcases htxt with rfl | rfl <;> decide)

/-! ## Lock discipline -/

/-- Once the file lock is obtained, `Execute` of the JSON driver performs the
same lock operations on every outcome: both locks are taken and released, the
file lock before the mutex. -/
theorem json_locks_released_after_acquire (lib : GoLib) (fileOpened : Bool)
    (cmd : Json.Command) (filter : Option Filter) (parm : Option Payload) (L : Table) :
    (Json.Execute lib { lockAcquired := true, fileOpened := fileOpened } cmd filter parm L).2.2
      = [.mutexLock, .fileLock, .fileUnlock, .mutexUnlock] := by
  unfold Json.Execute
  cases fileOpened <;> simp

/-- In the text driver a failure to open the table file returns with both
locks held. -/
theorem text_open_failure_keeps_locks (lib : GoLib) (cfg : Text.Config) (tempCreated : Bool)
    (cmd : Text.Command) (filter : Option Filter) (parm : Option Payload)
    (file : List String) :
    locksAfter (Text.Execute lib cfg { lockAcquired := true, fileOpened := false }
        tempCreated cmd filter parm file).2.2
      = { mutexHeld := true, fileLockHeld := true } := by
  rfl

/-- C7 (the code departs from the claim): when the acquisition of the file lock
times out, `Execute` returns the error with the connection mutex still locked,
in the JSON driver and in the text driver alike, for every command: the mutex
is locked before `TryLockContext`, and the deferred function that unlocks it
is registered only after the early return. -/
theorem lock_timeout_keeps_mutex (lib : GoLib) (cfg : Text.Config) (fileOpened : Bool)
    (tempCreated : Bool) (filter : Option Filter) (parm : Option Payload) :
    (∀ (cmd : Json.Command) (L : Table),
      locksAfter (Json.Execute lib { lockAcquired := false, fileOpened := fileOpened }
          cmd filter parm L).2.2 = { mutexHeld := true, fileLockHeld := false }) ∧
    (∀ (cmd : Text.Command) (file : List String),
      locksAfter (Text.Execute lib cfg { lockAcquired := false, fileOpened := fileOpened }
          tempCreated cmd filter parm file).2.2
        = { mutexHeld := true, fileLockHeld := false }) :=
  ⟨fun _ _ => rfl, fun _ _ => rfl⟩

/-! ## Claims on `Range`, `And` and `Or` -/

/-- Evaluation of an `Or` node of the JSON driver in terms of its loop. -/
theorem isIncluded_or (lib : GoLib) (data : Record) (items : List Filter) :
    Json.isIncluded lib data (Or items) = Json.orLoop lib data items := by
  obtain ⟨keys, hk⟩ := resolve_empty lib data
  unfold Or
  rw [Json.isIncluded, hk]
  simp [FilterOp.toleratesMissing]

/-- C11 (as amended): error surfacing of `Range` on a field name without a dot.
If evaluating `Lte(f, hi)` on the record returns an error and `Gte(f, lo)`
evaluates to true, evaluating the `Range` returns that error; when `Gte(f, lo)`
evaluates to false the `Range` returns false and the upper bound is not
evaluated. -/
theorem range_surfaces_upper_error (lib : GoLib) (data : Record) (field : String)
    (lo hi : Value) (h : '.' ∉ field.data) :
    (∀ e : String, Json.isIncluded lib data (Gte field lo) = .ok true →
      Json.isIncluded lib data (Lte field hi) = .err e →
      Json.isIncluded lib data (Range field lo hi) = .err e) ∧
    (Json.isIncluded lib data (Gte field lo) = .ok false →
      Json.isIncluded lib data (Range field lo hi) = .ok false) := by
  rw [isIncluded_range_plain lib data field lo hi h, isIncluded_gte, isIncluded_lte]
  constructor
  · intro e h1 h2
    simp [Json.rangeNode, h1, h2]
  · intro h1
    simp [Json.rangeNode, h1]

/-- Witness of C11: on the record with `a = 5`, the lower bound 1 holds and the
upper bound `zz` is no number, so the range returns the parse error. -/
theorem range_surfaces_upper_error_witness :
    Json.isIncluded asciiLib [("a", .int 5)] (Range "a" (.int 1) (.str "zz")) =
      .err "strconv.ParseFloat: parsing zz: invalid syntax" :=
  (range_surfaces_upper_error asciiLib [("a", .int 5)] "a" (.int 1) (.str "zz")
    (by decide)).1 _ (by decide) (by decide)

/-- Counterexample to C11 as stated: on the record with `a = 5`, `Lte("a", "zz")`
returns a parse error and `Gte("a", 7)` evaluates to false; `Range("a", 7, "zz")`
returns false without error. -/
theorem range_skips_upper_bound_after_false_lower :
    Json.isIncluded asciiLib [("a", .int 5)] (Lte "a" (.str "zz")) =
      .err "strconv.ParseFloat: parsing zz: invalid syntax" ∧
    Json.isIncluded asciiLib [("a", .int 5)] (Gte "a" (.int 7)) = .ok false ∧
    Json.isIncluded asciiLib [("a", .int 5)] (Range "a" (.int 7) (.str "zz")) = .ok false := by
  decide

/-- A `Range` on a field name without a dot that matches no key of the record
returns the field-not-found error of its lower-bound comparison. -/
theorem range_missing_plain (lib : GoLib) (data : Record) (field : String) (lo hi : Value)
    (h : '.' ∉ field.data) (hmiss : Json.findKey lib field data = none) :
    Json.isIncluded lib data (Range field lo hi) = .err (fieldNotExist field) := by
  rw [isIncluded_range_plain lib data field lo hi h]
  have hg := compare_missing_plain lib data field .OpGte lo [] h rfl hmiss
  have hg2 : Json.isIncludedLeaf lib data field .OpGte lo = .err (fieldNotExist field) := by
    rw [← isIncluded_gte]
    exact hg
  simp [Json.rangeNode, hg2]

/-- C12 (the code departs from the claim): the record has no field `a`, and
evaluating `Range("a", 1, 10)` on it returns the field-not-found error. The
missing-field check lets the range node pass, but the node evaluates its lower
bound as the comparison `Gte("a", 1)`, which reports the missing field. -/
theorem range_on_missing_field_errors :
    Json.isIncluded asciiLib [("b", .str "1")] (Range "a" (.int 1) (.int 10)) =
      .err "Field with name a is not exist in the table" := by
  decide

/-- C13 (the code departs from the claim): the path `fullname.first` equals the
keys `FullName` and `First` of the nested record ignoring case, but evaluating
`Eq("fullname.first", "Bagus")` aborts: the loop finds the key `FullName`, then
descends with `data["fullname"]`, the segment as written in the filter, which
is not a key of the record. With the outer segment written as the key is, the
same filter evaluates to true. -/
theorem dotted_path_outer_case_panics :
    Json.isIncluded asciiLib [("FullName", .map [("First", .str "Bagus")])]
        (Eq "fullname.first" (.str "Bagus")) =
      .panic "interface conversion: interface {} is not map[string]interface {}" ∧
    Json.isIncluded asciiLib [("FullName", .map [("First", .str "Bagus")])]
        (Eq "FullName.first" (.str "Bagus")) = .ok true := by
  decide

/-- The `And` loop passes over leading children that evaluate to true. -/
theorem andLoop_skip_true (lib : GoLib) (data : Record) (pre rest : List Filter)
    (h : ∀ x ∈ pre, Json.isIncluded lib data x = .ok true) :
    Json.andLoop lib data (pre ++ rest) = Json.andLoop lib data rest := by
  induction pre with
  | nil => rfl
  | cons x xs ih =>
    rw [List.cons_append, Json.andLoop, h x (by simp)]
    exact ih (fun y hy => h y (by simp [hy]))

/-- The `Or` loop passes over leading children that evaluate to false. -/
theorem orLoop_skip_false (lib : GoLib) (data : Record) (pre rest : List Filter)
    (h : ∀ x ∈ pre, Json.isIncluded lib data x = .ok false) :
    Json.orLoop lib data (pre ++ rest) = Json.orLoop lib data rest := by
  induction pre with
  | nil => rfl
  | cons x xs ih =>
    rw [List.cons_append, Json.orLoop, h x (by simp)]
    exact ih (fun y hy => h y (by simp [hy]))

/-- C14: `And` over a list of children evaluates them left to right. It returns
false without error at the first child that evaluates to false, whatever the
children after it are; it returns the error of the first child that errors when
every earlier child is true; it returns true when every child is true, the
empty list included. `Or` is the dual: true at the first true child, the error
of the first child that errors when every earlier child is false, false when
every child is false, the empty list included. -/
theorem and_or_short_circuit (lib : GoLib) (data : Record) :
    (∀ (pre post : List Filter) (c : Filter),
      (∀ x ∈ pre, Json.isIncluded lib data x = .ok true) →
      Json.isIncluded lib data c = .ok false →
      Json.isIncluded lib data (And (pre ++ c :: post)) = .ok false) ∧
    (∀ (pre post : List Filter) (c : Filter) (e : String),
      (∀ x ∈ pre, Json.isIncluded lib data x = .ok true) →
      Json.isIncluded lib data c = .err e →
      Json.isIncluded lib data (And (pre ++ c :: post)) = .err e) ∧
    (∀ items : List Filter, (∀ x ∈ items, Json.isIncluded lib data x = .ok true) →
      Json.isIncluded lib data (And items) = .ok true) ∧
    (∀ (pre post : List Filter) (c : Filter),
      (∀ x ∈ pre, Json.isIncluded lib data x = .ok false) →
      Json.isIncluded lib data c = .ok true →
      Json.isIncluded lib data (Or (pre ++ c :: post)) = .ok true) ∧
    (∀ (pre post : List Filter) (c : Filter) (e : String),
      (∀ x ∈ pre, Json.isIncluded lib data x = .ok false) →
      Json.isIncluded lib data c = .err e →
      Json.isIncluded lib data (Or (pre ++ c :: post)) = .err e) ∧
    (∀ items : List Filter, (∀ x ∈ items, Json.isIncluded lib data x = .ok false) →
      Json.isIncluded lib data (Or items) = .ok false) := by
  refine ⟨?_, ?_, ?_, ?_, ?_, ?_⟩
  · intro pre post c hpre hc
    rw [isIncluded_and, andLoop_skip_true lib data pre _ hpre, Json.andLoop, hc]
  · intro pre post c e hpre hc
    rw [isIncluded_and, andLoop_skip_true lib data pre _ hpre, Json.andLoop, hc]
  · intro items h
    have := andLoop_skip_true lib data items [] h
    rw [List.append_nil] at this
    rw [isIncluded_and, this]
    rfl
  · intro pre post c hpre hc
    rw [isIncluded_or, orLoop_skip_false lib data pre _ hpre, Json.orLoop, hc]
  · intro pre post c e hpre hc
    rw [isIncluded_or, orLoop_skip_false lib data pre _ hpre, Json.orLoop, hc]
  · intro items h
    have := orLoop_skip_false lib data items [] h
    rw [List.append_nil] at this
    rw [isIncluded_or, this]
    rfl

/-- Witness of C14: on the record with `a = 1`, an `And` whose second child is
false returns false although its third child names a missing field, and an
`Or` whose second child is true returns true likewise. -/
theorem and_or_short_circuit_witness :
    Json.isIncluded asciiLib [("a", .str "1")]
        (And ([Eq "a" (.str "1")] ++ Eq "a" (.str "2") :: [Eq "zz" (.str "1")])) = .ok false ∧
    Json.isIncluded asciiLib [("a", .str "1")]
        (Or ([Eq "a" (.str "2")] ++ Eq "a" (.str "1") :: [Eq "zz" (.str "1")])) = .ok true ∧
    Json.isIncluded asciiLib [("a", .str "1")]
        (And ([Eq "a" (.str "1")] ++ Eq "zz" (.str "1") :: [Eq "a" (.str "2")]))
      = .err (fieldNotExist "zz") :=
  ⟨(and_or_short_circuit asciiLib [("a", .str "1")]).1 [Eq "a" (.str "1")]
      [Eq "zz" (.str "1")] (Eq "a" (.str "2"))
      (by intro x hx; simp only [List.mem_singleton] at hx; subst hx; decide) (by decide),
   (and_or_short_circuit asciiLib [("a", .str "1")]).2.2.2.1 [Eq "a" (.str "2")]
      [Eq "zz" (.str "1")] (Eq "a" (.str "1"))
      (by intro x hx; simp only [List.mem_singleton] at hx; subst hx; decide) (by decide),
   (and_or_short_circuit asciiLib [("a", .str "1")]).2.1 [Eq "a" (.str "1")]
      [Eq "a" (.str "2")] (Eq "zz" (.str "1")) _
      (by intro x hx; simp only [List.mem_singleton] at hx; subst hx; decide) (by decide)⟩

/-! ## JSON cursor: the window of the scan loop -/

/-- Once the count has passed `shouldFetched`, the scan loop appends every
included record. -/
theorem scanLoop_unbounded (lib : GoLib) (F : Option Filter) (T : Table)
    (hF : ∀ r ∈ T, ∃ b, Json.isIncludedOpt lib r F = .ok b) (t read : Int)
    (hr : 0 ≤ read) (ht : t ≤ read) (ivs : List Record) :
    Json.scanLoop lib F t T read ivs =
      .ok (ivs ++ (T.filter (Json.includes lib F)).map Json.mapToObject) := by
  induction T generalizing read ivs with
  | nil => simp [Json.scanLoop]
  | cons r rest ih =>
    obtain ⟨b, hb⟩ := hF r (by simp)
    have ih1 := ih (fun x hx => hF x (by simp [hx]))
    rw [Json.scanLoop, hb]
    cases b
    · simp [ih1 read hr ht ivs, List.filter_cons, includes_of_ok lib F r false hb]
    · have h1 : read + 1 ≠ t := by omega
      have h2 : read + 1 > 0 := by omega
      simp [h1, h2, ih1 (read + 1) (by omega) (by omega), List.filter_cons,
        includes_of_ok lib F r true hb]

/-- From a count that is not negative and below `shouldFetched`, the scan loop
appends included records until the count reaches `shouldFetched`. -/
theorem scanLoop_take (lib : GoLib) (F : Option Filter) (T : Table)
    (hF : ∀ r ∈ T, ∃ b, Json.isIncludedOpt lib r F = .ok b) (t read : Int)
    (hr : 0 ≤ read) (ht : read < t) (ivs : List Record) :
    Json.scanLoop lib F t T read ivs =
      .ok (ivs ++ ((T.filter (Json.includes lib F)).take (t - read).toNat).map
        Json.mapToObject) := by
  induction T generalizing read ivs with
  | nil => simp [Json.scanLoop]
  | cons r rest ih =>
    obtain ⟨b, hb⟩ := hF r (by simp)
    have ih1 := ih (fun x hx => hF x (by simp [hx]))
    rw [Json.scanLoop, hb]
    cases b
    · simp [ih1 read hr ht ivs, List.filter_cons, includes_of_ok lib F r false hb]
    · have h2 : read + 1 > 0 := by omega
      simp only [h2, if_true, List.filter_cons, includes_of_ok lib F r true hb]
      by_cases h1 : read + 1 = t
      · have h3 : (t - read).toNat = 1 := by omega
        simp [h1, h3]
      · have h3 : (t - read).toNat = (t - (read + 1)).toNat + 1 := by omega
        simp only [h1, if_false, ih1 (read + 1) (by omega) (by omega), h3, List.take_succ_cons]
        simp

/-- While the count is not positive, the scan loop passes over included
records without appending them; with `shouldFetched >= 1` it then appends up
to `shouldFetched` of the following ones. -/
theorem scanLoop_skip_take (lib : GoLib) (F : Option Filter) (T : Table)
    (hF : ∀ r ∈ T, ∃ b, Json.isIncludedOpt lib r F = .ok b) (t read : Int)
    (hr : read ≤ 0) (ht : 1 ≤ t) (ivs : List Record) :
    Json.scanLoop lib F t T read ivs =
      .ok (ivs ++ (((T.filter (Json.includes lib F)).drop (-read).toNat).take t.toNat).map
        Json.mapToObject) := by
  induction T generalizing read ivs with
  | nil => simp [Json.scanLoop]
  | cons r rest ih =>
    obtain ⟨b, hb⟩ := hF r (by simp)
    have hrest : ∀ x ∈ rest, ∃ b, Json.isIncludedOpt lib x F = .ok b :=
      fun x hx => hF x (by simp [hx])
    have ih1 := ih hrest
    rw [Json.scanLoop, hb]
    cases b
    · simp [ih1 read hr ivs, List.filter_cons, includes_of_ok lib F r false hb]
    · simp only [List.filter_cons, includes_of_ok lib F r true hb, if_true]
      by_cases h0 : read = 0
      · subst h0
        have h3 : t.toNat = (t - 1).toNat + 1 := by omega
        by_cases h1 : (0 : Int) + 1 = t
        · have h4 : t.toNat = 1 := by omega
          have h5 : (0 : Int) < t := by omega
          simp [h1, h4, h5]
        · have := scanLoop_take lib F rest hrest t (0 + 1) (by omega) (by omega)
            (ivs ++ [Json.mapToObject r])
          simp only [h1, if_false]
          rw [if_pos (by omega), this, h3]
          simp
      · have h1 : read + 1 ≠ t := by omega
        have h2 : ¬ (read + 1 > 0) := by omega
        have h3 : (-read).toNat = (-(read + 1)).toNat + 1 := by omega
        simp only [h1, h2, if_false, ih1 (read + 1) (by omega) ivs, h3, List.drop_succ_cons]

/-- With `shouldFetched = 0` and a negative count, the scan loop returns the
buffer as it was: the count reaches zero, which equals `shouldFetched`, before
any record is appended. -/
theorem scanLoop_skip_zero (lib : GoLib) (F : Option Filter) (T : Table)
    (hF : ∀ r ∈ T, ∃ b, Json.isIncludedOpt lib r F = .ok b) (read : Int)
    (hr : read < 0) (ivs : List Record) :
    Json.scanLoop lib F 0 T read ivs = .ok ivs := by
  induction T generalizing read ivs with
  | nil => simp [Json.scanLoop]
  | cons r rest ih =>
    obtain ⟨b, hb⟩ := hF r (by simp)
    have ih1 := ih (fun x hx => hF x (by simp [hx]))
    rw [Json.scanLoop, hb]
    cases b
    · simp [ih1 read hr ivs]
    · have h2 : ¬ (read + 1 > 0) := by omega
      by_cases h1 : read + 1 = 0
      · simp [h1]
      · simp only [h1, h2, if_false]
        exact ih1 (read + 1) (by omega) ivs

/-- The result of the fast path of the JSON cursor when the filter evaluates
without error: for `take >= 1` the included records at match positions
`skip <= i < skip + take`; for `skip = take = 0` every included record; for
`take = 0` and `skip >= 1` no record. -/
theorem fetchs_plain_window (lib : GoLib) (F : Option Filter) (T : Table)
    (hF : ∀ r ∈ T, ∃ b, Json.isIncludedOpt lib r F = .ok b) (skip take : Nat) :
    (1 ≤ take → Json.FetchsPlain lib F skip take T =
      .ok ((((T.filter (Json.includes lib F)).drop skip).take take).map Json.mapToObject)) ∧
    (skip = 0 → take = 0 → Json.FetchsPlain lib F skip take T =
      .ok ((T.filter (Json.includes lib F)).map Json.mapToObject)) ∧
    (1 ≤ skip → take = 0 → Json.FetchsPlain lib F skip take T = .ok []) := by
  unfold Json.FetchsPlain
  refine ⟨?_, ?_, ?_⟩
  · intro ht
    have := scanLoop_skip_take lib F T hF take (-(skip : Int)) (by omega) (by omega) []
    simpa using this
  · intro hs ht
    subst hs ht
    have := scanLoop_unbounded lib F T hF 0 0 (le_refl 0) (le_refl 0) []
    simpa using this
  · intro hs ht
    subst ht
    exact scanLoop_skip_zero lib F T hF (-(skip : Int)) (by omega) []

/-- C15 (the code departs from the claim): three records, no filter, `skip = 1`
and `take = 0`. The matching records from position 1 onward are the second and
the third record, but `Fetchs` returns none: the count starts at `-1`, reaches
`0` on the first record, and `0` equals `shouldFetched`, so the loop stops
before anything is appended. With `skip = 1` and `take = 2` the same two
records are returned. -/
theorem fetch_skip_without_take_is_empty :
    Json.FetchsPlain asciiLib none 1 0
        [[("a", .int 0)], [("a", .int 1)], [("a", .int 2)]] = .ok [] ∧
    Json.FetchsPlain asciiLib none 1 2
        [[("a", .int 0)], [("a", .int 1)], [("a", .int 2)]] =
      .ok [[("a", .int 1)], [("a", .int 2)]] :=
  ⟨rfl, rfl⟩

/-- C16 (the code departs from the claim): a text table with the header `a` and
the rows `1`, `2`, `3`, no filter, `skip = 1` and `take = 1`. The claim gives
the single row `2`; `Fetchs` returns the rows `1` and `2`. The count starts at
`-1 - skip`, the header line raises it to `-skip`, and a row is appended as
soon as the count is `>= 0` (the JSON cursor appends when it is `> 0`), so
only `skip - 1` rows are passed over and `take + 1` rows are returned. -/
theorem text_fetch_skips_one_row_less :
    Text.FetchsPlain asciiLib { Delimeter := ',' } none
        (fun txt _ => Outcome.ok txt) 1 1 ["a", "1", "2", "3"] = .ok ["1", "2"] :=
  rfl

/-! ## Pagination after materialization -/

/-- The final slicing, when `skip` is within the set: for `take >= 1` the
elements at positions `skip <= i < skip + take` that exist, for `take = 0` no
element. -/
theorem sliceStep_window {α : Type} (rv : List α) (skip take : Nat) (hs : skip ≤ rv.length) :
    sliceStep (skip : Int) (take : Int) rv = .ok ((rv.drop skip).take take) := by
  unfold sliceStep
  by_cases h : (take : Int) + skip > rv.length
  · have h1 : ¬ ((skip : Int) < 0 ∨ (rv.length : Int) < skip) := by omega
    simp only [h, if_true, h1, if_false, Int.toNat_ofNat]
    rw [List.take_length, List.take_of_length_le (by simp; omega)]
  · have h1 : ¬ ((skip : Int) < 0 ∨ (take : Int) + skip < skip) := by omega
    have h2 : ((take : Int) + skip).toNat = take + skip := by omega
    simp only [h, if_false, h1, h2, Int.toNat_ofNat]
    rw [List.drop_take]
    simp

/-- When `skip` does not exceed the number of included records, the fast path
of `Fetchs` (no sort, aggregate or group item) and its slow path without
aggregation and sort (a group item alone) leave the same buffer. -/
theorem fast_eq_slice_of_skip_le (lib : GoLib) (F : Option Filter) (T : Table)
    (hF : ∀ r ∈ T, ∃ b, Json.isIncludedOpt lib r F = .ok b) (skip take : Nat)
    (hs : skip ≤ (T.filter (Json.includes lib F)).length) (result : List Record) (n : Int) :
    ∃ out,
      Json.Cursor.Fetchs lib (Json.Cursor.paged F false skip take) T result n =
        .returned (Json.Cursor.paged F false skip take, out) ∧
      Json.Cursor.Fetchs lib (Json.Cursor.paged F true skip take) T result n =
        .returned (Json.Cursor.paged F true skip take, out) := by
  have hall := scanLoop_unbounded lib F T hF 0 0 (le_refl 0) (le_refl 0) []
  rw [List.nil_append] at hall
  have hwin := fetchs_plain_window lib F T hF skip take
  unfold Json.FetchsPlain at hwin
  rw [List.map_take, List.map_drop] at hwin
  have hslice := sliceStep_window ((T.filter (Json.includes lib F)).map Json.mapToObject)
    skip take (by rw [List.length_map]; exact hs)
  rcases Nat.eq_zero_or_pos take with ht | ht
  · rcases Nat.eq_zero_or_pos skip with hk | hk
    · subst ht hk
      refine ⟨(T.filter (Json.includes lib F)).map Json.mapToObject, ?_, ?_⟩
      · have := hwin.2.1 rfl rfl
        simp only [Nat.cast_zero, neg_zero] at this
        simp [Json.Cursor.Fetchs, Json.Cursor.scan, Json.Cursor.paged, runStage, this]
      · simp [Json.Cursor.Fetchs, Json.Cursor.scan, Json.Cursor.paged, runStage, hall]
    · subst ht
      refine ⟨[], ?_, ?_⟩
      · have := hwin.2.2 hk rfl
        simp only [Nat.cast_zero] at this
        simp [Json.Cursor.Fetchs, Json.Cursor.scan, Json.Cursor.paged, runStage, this]
      · have hk2 : (skip : Int) ≠ 0 := by omega
        simp only [Nat.cast_zero, List.take_zero] at hslice
        simp [Json.Cursor.Fetchs, Json.Cursor.scan, Json.Cursor.paged, runStage, hall, hk2, hslice]
  · refine ⟨(((T.filter (Json.includes lib F)).map Json.mapToObject).drop skip).take take,
      ?_, ?_⟩
    · have := hwin.1 ht
      simp [Json.Cursor.Fetchs, Json.Cursor.scan, Json.Cursor.paged, runStage, this]
    · have ht2 : (take : Int) ≠ 0 := by omega
      simp [Json.Cursor.Fetchs, Json.Cursor.scan, Json.Cursor.paged, runStage, hall, ht2, hslice]

/-- C17 (the code departs from the claim): one stored record, no filter,
`skip = 2` and `take = 1`. The early-exit path returns the empty buffer.
Collecting the matching records and applying the slice of the cursor (the slow
path, here requested by a group item alone) aborts: `end` is clamped to the
length 1, `start` stays 2, and `rv.Slice(2, 1)` panics. -/
theorem fast_path_differs_from_slice_beyond_length :
    Json.Cursor.Fetchs asciiLib (Json.Cursor.paged none false 2 1) [[("a", .int 0)]] [] 0 =
      .returned (Json.Cursor.paged none false 2 1, []) ∧
    Json.Cursor.Fetchs asciiLib (Json.Cursor.paged none true 2 1) [[("a", .int 0)]] [] 0 =
      .panicked "reflect.Value.Slice: slice index out of bounds" :=
  ⟨rfl, rfl⟩

/-- C18 (the code departs from the claim): on a final set of two records the
slicing step with `skip = 3` and `take = 1` does not yield the empty result but
aborts, since only `end` is clamped and `rv.Slice(3, 2)` is out of bounds; and
on a set of three records the step with `skip = 1` and `take = 0` yields no
record instead of the records from position 1 onward, since `end` is `skip`. -/
theorem slice_step_panics_beyond_length :
    sliceStep 3 1 [[("a", Value.int 0)], [("a", .int 1)]] =
      .panic "reflect.Value.Slice: slice index out of bounds" ∧
    sliceStep 1 0 [[("a", Value.int 0)], [("a", .int 1)], [("a", .int 2)]] = .ok [] :=
  ⟨rfl, rfl⟩

/-! ## Text cursor: `Count` -/

/-- From a count that is not negative, the count loop adds the number of rows
on which the filter evaluates to true, when no evaluation panics. -/
theorem countLoop_rows (lib : GoLib) (cfg : Text.Config) (F : Option Filter)
    (header rows : List String)
    (hnp : ∀ row ∈ rows, ∀ m,
      Text.isIncludedOpt lib (splitOn cfg.Delimeter row.data) header F ≠ .panic m)
    (read : Int) (hr : 0 ≤ read) :
    Text.countLoop lib cfg F rows header read =
      .returned (read + (rows.filter (fun row =>
        decide (Text.isIncludedOpt lib (splitOn cfg.Delimeter row.data) header F
          = .ok true))).length) := by
  induction rows generalizing read with
  | nil => simp [Text.countLoop]
  | cons row rest ih =>
    have ih1 := ih (fun x hx => hnp x (by simp [hx]))
    have hrow := hnp row (by simp)
    have hneg : ¬ read < 0 := by omega
    rw [Text.countLoop]
    simp only [hneg, if_false, List.filter_cons]
    cases hi : Text.isIncludedOpt lib (splitOn cfg.Delimeter row.data) header F with
    | panic m => exact absurd hi (hrow m)
    | err m =>
      simp only [ih1 read hr]
      simp
    | ok b =>
      cases b
      · simp only [ih1 read hr]
        simp
      · simp only [ih1 (read + 1) (by omega)]
        simp
        omega

/-- On a file with a header line, `Count` returns the number of data rows on
which the filter evaluates to true against the header names without their
double quotes, when no evaluation panics. -/
theorem text_count_with_header (lib : GoLib) (cfg : Text.Config) (F : Option Filter)
    (headerLine : String) (rows : List String)
    (hnp : ∀ row ∈ rows, ∀ m,
      Text.isIncludedOpt lib (splitOn cfg.Delimeter row.data)
        ((splitOn cfg.Delimeter headerLine.data).map Text.trimQuotes) F ≠ .panic m) :
    Text.Count lib cfg F (headerLine :: rows) =
      .returned ((rows.filter (fun row =>
        decide (Text.isIncludedOpt lib (splitOn cfg.Delimeter row.data)
          ((splitOn cfg.Delimeter headerLine.data).map Text.trimQuotes) F
          = .ok true))).length : Int) := by
  unfold Text.Count
  rw [Text.countLoop]
  simp only [show ((-1 : Int) < 0) from by decide, if_true, List.nil_append]
  have := countLoop_rows lib cfg F _ rows hnp 0 (le_refl 0)
  simpa using this

/-- C19 (the code departs from the claim): on a table file with no line, as a
Delete without filter leaves it, `Count` returns `-1`, not the number 0 of its
data rows: the count starts at `-1` to make up for the header line, and no
header line is read. On a file with a header line the count is the number of
rows the filter includes. -/
theorem text_count_of_empty_file_is_negative :
    Text.Count asciiLib { Delimeter := ',' } none [] = .returned (-1) ∧
    (Text.runCommand asciiLib { Delimeter := ',' } true .QueryDelete none none
        ["a", "1", "2"]).2 = [] ∧
    Text.Count asciiLib { Delimeter := ',' } none ["a", "1", "2"] = .returned 2 :=
  ⟨rfl, rfl, rfl⟩

/-! ## JSON cursor: errors -/

/-- An error of the scan loop is the error of the filter evaluation on one of
the records. -/
theorem scanLoop_err_mem (lib : GoLib) (F : Option Filter) (t : Int) (T : Table)
    (read : Int) (ivs : List Record) (e : String)
    (h : Json.scanLoop lib F t T read ivs = .err e) :
    ∃ r ∈ T, Json.isIncludedOpt lib r F = .err e := by
  induction T generalizing read ivs with
  | nil => simp [Json.scanLoop] at h
  | cons r rest ih =>
    rw [Json.scanLoop] at h
    cases hi : Json.isIncludedOpt lib r F with
    | panic m => simp [hi] at h
    | err m =>
      simp only [hi] at h
      cases h
      exact ⟨r, by simp, hi⟩
    | ok b =>
      simp only [hi] at h
      cases b
      · obtain ⟨x, hx, hxe⟩ := ih read ivs h
        exact ⟨x, by simp [hx], hxe⟩
      · simp only at h
        split at h
        · cases h
        · obtain ⟨x, hx, hxe⟩ := ih _ _ h
          exact ⟨x, by simp [hx], hxe⟩

/-- The scan loop returns the error of the filter evaluation on the first
record on which it fails, when the filter evaluates without error on the
records before it and the count does not reach `shouldFetched` on them. -/
theorem scanLoop_err_at (lib : GoLib) (F : Option Filter) (t : Int) (pre : Table)
    (r : Record) (post : Table) (e : String)
    (hpre : ∀ x ∈ pre, ∃ b, Json.isIncludedOpt lib x F = .ok b)
    (hr : Json.isIncludedOpt lib r F = .err e) (read : Int)
    (hreach : t - read ≤ 0 ∨ ((pre.filter (Json.includes lib F)).length : Int) < t - read)
    (ivs : List Record) :
    Json.scanLoop lib F t (pre ++ r :: post) read ivs = .err e := by
  induction pre generalizing read ivs with
  | nil =>
    rw [List.nil_append, Json.scanLoop, hr]
  | cons x rest ih =>
    obtain ⟨b, hb⟩ := hpre x (by simp)
    have ih1 := ih (fun y hy => hpre y (by simp [hy]))
    rw [List.cons_append, Json.scanLoop, hb]
    cases b
    · simp only
      apply ih1
      simpa [List.filter_cons, includes_of_ok lib F x false hb] using hreach
    · simp only [List.filter_cons, includes_of_ok lib F x true hb, if_true,
        List.length_cons] at hreach
      have h1 : read + 1 ≠ t := by
        rcases hreach with h | h
        · omega
        · push_cast at h
          omega
      simp only [h1, if_false]
      apply ih1
      rcases hreach with h | h
      · left
        omega
      · right
        push_cast at h
        omega

/-- C20: cursor errors are sticky and a failed fetch returns no partial result.
Let the filter evaluation return the error `e` on a stored record `r` that the
scan of `Fetchs` reaches: the filter evaluates without error on the records
`pre` before it, and the scan has not ended on them (the query has a sort,
aggregate or group item, or `take + skip` is not positive, or fewer than
`take + skip` records of `pre` are included). Then `Fetchs` returns with `e`
recorded on the cursor and the result buffer of the caller as it was; every
later `Fetchs` call on that cursor, on whatever file content, buffer and `n`,
returns with the same error on the cursor and the buffer it was given, without
scanning. -/
theorem fetch_error_is_sticky (lib : GoLib) (c : Json.Cursor) (pre : Table) (r : Record)
    (post : Table) (result : List Record) (n : Int) (e : String)
    (hc : c.error = none)
    (hpre : ∀ x ∈ pre, ∃ b, Json.isIncludedOpt lib x c.filter = .ok b)
    (hreach : (c.extra.order.isSome || c.extra.aggr.isSome || c.extra.group) = true ∨
      c.extra.take.getD n + c.extra.skip.getD 0 ≤ 0 ∨
      ((pre.filter (Json.includes lib c.filter)).length : Int) <
        c.extra.take.getD n + c.extra.skip.getD 0)
    (hr : Json.isIncludedOpt lib r c.filter = .err e) :
    Json.Cursor.Fetchs lib c (pre ++ r :: post) result n =
      .returned ({ c with error := some e }, result) ∧
    ∀ (file2 : Table) (result2 : List Record) (n2 : Int),
      Json.Cursor.Fetchs lib { c with error := some e } file2 result2 n2 =
        .returned ({ c with error := some e }, result2) := by
  have hscan : c.scan lib (pre ++ r :: post) n = .err e := by
    unfold Json.Cursor.scan
    apply scanLoop_err_at lib c.filter _ pre r post e hpre hr
    rcases hreach with h | h | h
    · left
      simp [h]
    · by_cases hs : (c.extra.order.isSome || c.extra.aggr.isSome || c.extra.group) = true
      · left
        simp [hs]
      · left
        simp only [hs, Bool.false_eq_true, if_false]
        omega
    · by_cases hs : (c.extra.order.isSome || c.extra.aggr.isSome || c.extra.group) = true
      · left
        simp [hs]
      · right
        simp only [hs, Bool.false_eq_true, if_false]
        omega
  refine ⟨?_, ?_⟩
  · unfold Json.Cursor.Fetchs
    simp only [hc, hscan]
  · intro file2 result2 n2
    rfl

/-- Witness of C20: a fetch by `_id = x` on a table whose second record has no
`_id` field, into a buffer that holds one earlier record; the first record is
included and does not end the scan, the second gives the field-not-found
error. -/
theorem fetch_error_is_sticky_witness :
    Json.Cursor.Fetchs asciiLib
        { filter := some (Eq "_id" (.str "x")), extra := Extra.plain, error := none }
        ([[("_id", .str "x")]] ++ [("name", .str "a")] :: [[("_id", .str "x")]])
        [[("old", .int 1)]] 0 =
      .returned ({ filter := some (Eq "_id" (.str "x")), extra := Extra.plain,
                   error := some (fieldNotExist "_id") }, [[("old", .int 1)]]) :=
  (fetch_error_is_sticky asciiLib
    { filter := some (Eq "_id" (.str "x")), extra := Extra.plain, error := none }
    [[("_id", .str "x")]] [("name", .str "a")] [[("_id", .str "x")]] [[("old", .int 1)]] 0
    (fieldNotExist "_id") rfl
    (by
      intro x hx
      simp only [List.mem_singleton] at hx
      subst hx
      exact ⟨true, by decide⟩)
    (Or.inr (Or.inl (by decide))) (by decide)).1

/-! ## Claims on `Cursor.Fetch` -/

/-- C21 (the code departs from the claim): a table whose only record matches
(no filter) and a receiver `out` holding an older record. The JSON `Fetch`
returns without error and with `out` as it was: the first matching record is
not stored. On an empty table it returns without setting `dbflex.EOF`. The
text `Fetch`, which tests `c.Fetchs(buffer, 1).Error()`, stores the first row
and sets `dbflex.EOF` on a table without rows. -/
theorem json_fetch_never_stores :
    Json.Cursor.Fetch asciiLib { filter := none, extra := Extra.plain, error := none }
        [[("_id", .str "x")]] [("_id", .str "old")] =
      .returned ({ filter := none, extra := Extra.plain, error := none },
        [("_id", .str "old")]) ∧
    Json.Cursor.Fetch asciiLib { filter := none, extra := Extra.plain, error := none }
        [] [("_id", .str "old")] =
      .returned ({ filter := none, extra := Extra.plain, error := none },
        [("_id", .str "old")]) ∧
    Text.Fetch asciiLib { Delimeter := ',' } none (fun txt _ => Outcome.ok txt)
        ["_id", "x"] "old" = .returned (none, "x") ∧
    Text.Fetch asciiLib { Delimeter := ',' } none (fun txt _ => Outcome.ok txt)
        ["_id"] "old" = .returned (some EOF, "old") :=
  ⟨rfl, rfl, rfl, rfl⟩

/-! ## Claims on the connection pool -/

/-- The slice rebuilt by the auto-close watcher is not longer than the slice it
replaces. -/
theorem rebuildItems_length (p : DbPooling) : p.rebuildItems.length ≤ p.items.length := by
  unfold DbPooling.rebuildItems
  rw [List.length_take]
  exact le_trans (Nat.min_le_left _ _) (List.length_filter_le _ _)

/-- Every step of the pool keeps the size and keeps the slice of the pool
within the size. -/
theorem step_keeps_capacity (p : DbPooling) (st : PoolStep) (h0 : 0 ≤ p.size)
    (h : (p.items.length : Int) ≤ p.size) :
    (p.step st).size = p.size ∧ ((p.step st).items.length : Int) ≤ p.size := by
  cases st with
  | takeFree =>
    simp only [DbPooling.step, DbPooling.takeFree]
    split <;> exact ⟨rfl, h⟩
  | poll =>
    simp only [DbPooling.step, DbPooling.poll]
    split <;> exact ⟨rfl, h⟩
  | release x => exact ⟨rfl, h⟩
  | close => exact ⟨rfl, by simpa [DbPooling.step, DbPooling.close] using h0⟩
  | autoRelease x =>
    simp only [DbPooling.step, DbPooling.autoRelease]
    split <;> exact ⟨rfl, h⟩
  | newPoolItem ok =>
    simp only [DbPooling.step, DbPooling.newPoolItem]
    split
    · rename_i hlt
      cases ok
      · exact ⟨rfl, h⟩
      · refine ⟨rfl, ?_⟩
        simp only [if_true, List.length_append, List.length_singleton]
        push_cast
        omega
    · exact ⟨rfl, h⟩
  | autoClose x =>
    simp only [DbPooling.step, DbPooling.autoClose]
    split
    · refine ⟨rfl, ?_⟩
      have := rebuildItems_length (p.setItem x (fun pi => { pi with closed := true }))
      have h2 : (p.setItem x (fun pi => { pi with closed := true })).items = p.items := rfl
      rw [h2] at this
      simp only
      have h3 : ((p.setItem x (fun pi => { pi with closed := true })).rebuildItems.length : Int)
          ≤ (p.items.length : Int) := by exact_mod_cast this
      exact le_trans h3 h
    · exact ⟨rfl, h⟩

/-- C28 (as amended): pool capacity. In every state reachable from
`NewDbPooling(size, factory)`, with a size that is not negative, by any
sequence of the steps of Get, of Release, of the pool Close and of the
auto-close and auto-release watchers, the item list of the pool holds at most
`size` entries. The number of handles the factory has been asked to create
over the life of the pool is not bounded by `size`. -/
theorem pool_items_within_size (size : Int) (steps : List PoolStep) (h0 : 0 ≤ size) :
    ((poolAfter size steps).items.length : Int) ≤ size := by
  have key : ∀ (p : DbPooling), p.size = size → (p.items.length : Int) ≤ size →
      ((steps.foldl DbPooling.step p).items.length : Int) ≤ size := by
    induction steps with
    | nil => intro p _ h; exact h
    | cons st rest ih =>
      intro p hs h
      rw [List.foldl_cons]
      have := step_keeps_capacity p st (by rw [hs]; exact h0) (by rw [hs]; exact h)
      exact ih (p.step st) (by rw [this.1, hs]) (by rw [← hs]; exact this.2)
  exact key (NewDbPooling size) rfl (by simpa [NewDbPooling] using h0)

/-- Witness of C28: a pool of size 2 after three Gets, a Release and the
auto-close of the released item. -/
theorem pool_items_within_size_witness :
    ((poolAfter 2 [.takeFree, .newPoolItem true, .takeFree, .newPoolItem true,
        .takeFree, .newPoolItem true, .release 0, .autoClose 0]).items.length : Int) ≤ 2 :=
  pool_items_within_size 2 _ (by decide)

/-- Counterexample to C28 as stated: a pool of size 1 after a Get, a pool Close
and a second Get has asked the factory for two handles. -/
theorem pool_creates_again_after_close :
    (poolAfter 1 [.takeFree, .newPoolItem true, .close, .takeFree, .newPoolItem true]).asked
      = 2 ∧ ((2 : Nat) : Int) > 1 := by
  decide

/-- C29 (the code departs from the claim): a pool of size 2 holds the two
handles 0 and 1; handle 0 is released and its auto-close watcher fires. The
item list should then hold handle 1 alone. It holds a single nil entry
instead: the watcher builds the new list with `make([]*PoolItem, len(items))`,
which already has `len(items)` nil entries, appends the open handles behind
them and keeps the first `unclosedCount` entries. -/
theorem auto_close_leaves_nil_entries :
    (poolAfter 2 [.takeFree, .newPoolItem true, .takeFree, .newPoolItem true]).items
      = [some 0, some 1] ∧
    (poolAfter 2 [.takeFree, .newPoolItem true, .takeFree, .newPoolItem true,
        .release 0, .autoClose 0]).items = [none] := by
  decide

/-! ## Aggregation -/

/-- Claim C22. A single aggregate item over struct records whose field has a
sized integer type (such as `int64`) makes `aggregate` panic on the first
record, whatever the operation, the value and the other records: the integer
branch is entered for every integer kind but asserts the Go type `int`. With
a field of type `int` the fixture gives, for group A, sum 15, average 5 (next
to the count 3 left under `Salary_count`), count 3, maximum 9 and minimum 1,
and one record without group list. The same records as maps take the float
branch, whose assertion of `float64` panics on the integers. -/
theorem aggregate_sized_int_panics :
    (∀ (lib : GoLib) (op : AggrOp) (i : Int) (rest : List Record),
      aggregate lib .struct ([("Salary", .int64 i)] :: rest) [{ Field := "Salary", Op := op }] []
        = .panic "interface conversion: interface {} is not int") ∧
    aggregate asciiLib .struct salaries [Sum "salary"] ["grade"]
      = .ok [[("Grade", .str "A"), ("Salary", .int 15)],
             [("Grade", .str "B"), ("Salary", .int 10)]] ∧
    aggregate asciiLib .struct salaries [Avg "salary"] ["grade"]
      = .ok [[("Grade", .str "A"), ("Salary", .int 5), ("Salary_count", .int 3)],
             [("Grade", .str "B"), ("Salary", .int 5), ("Salary_count", .int 2)]] ∧
    aggregate asciiLib .struct salaries [Count "salary"] ["grade"]
      = .ok [[("Grade", .str "A"), ("Salary", .int 3)],
             [("Grade", .str "B"), ("Salary", .int 2)]] ∧
    aggregate asciiLib .struct salaries [Max "salary"] ["grade"]
      = .ok [[("Grade", .str "A"), ("Salary", .int 9)],
             [("Grade", .str "B"), ("Salary", .int 6)]] ∧
    aggregate asciiLib .struct salaries [Min "salary"] ["grade"]
      = .ok [[("Grade", .str "A"), ("Salary", .int 1)],
             [("Grade", .str "B"), ("Salary", .int 4)]] ∧
    aggregate asciiLib .struct salaries [Sum "salary"] []
      = .ok [[("Salary", .int 25)]] ∧
    aggregate asciiLib .map salaries [Sum "salary"] ["grade"]
      = .panic "interface conversion: interface {} is not float64" := by
  refine ⟨?_, rfl, rfl, rfl, rfl, rfl, rfl, rfl⟩
  intro lib op i rest
  simp [aggregate, itemLoop, aggregateItem, aggregatedFieldNames, groupedFieldNames,
    aggregatedName, kindOf, lookup, recordLoop, intRecord, keyIDOf, getValueOf, asInt]

/-- Claim C23. With two items the group records are shared between the items
and seeded only by the first: `Sum(a)` with `Max(b)` panics on the first record
(the group record holds no `b` when the second item asserts its type), for
struct records of `int` fields as for decoded maps of floats, and `Sum(a)` with
`Count(a)` over the values 5 and 7 leaves 14 under `a`, the count added onto
the sum, instead of the sum 12 and the count 2. -/
theorem aggregate_items_share_group_records :
    aggregate asciiLib .struct [[("a", .int 1), ("b", .int 2)]] [Sum "a", Max "b"] []
      = .panic "interface conversion: interface {} is not int" ∧
    aggregate asciiLib .map [[("a", .float 1), ("b", .float 2)]] [Sum "a", Max "b"] []
      = .panic "interface conversion: interface {} is not float64" ∧
    aggregate asciiLib .struct [[("a", .int 5)], [("a", .int 7)]] [Sum "a", Count "a"] []
      = .ok [[("a", .int 14)]] ∧
    aggregate asciiLib .struct [[("a", .int 5)], [("a", .int 7)]] [Sum "a"] []
      = .ok [[("a", .int 12)]] ∧
    aggregate asciiLib .struct [[("a", .int 5)], [("a", .int 7)]] [Count "a"] []
      = .ok [[("a", .int 2)]] :=
  ⟨rfl, rfl, rfl, rfl, rfl⟩

/-! ## Sorting -/

/-- The inner loop of the insertion sort leaves the element and the elements
before it, in some order. -/
theorem sinkLeft_perm {α : Type} (less : α → α → Bool) (x : α) (l : List α) :
    (sinkLeft less x l).Perm (x :: l) := by
  induction l with
  | nil => exact List.Perm.refl _
  | cons y ys ih =>
    unfold sinkLeft
    by_cases h : less x y = true
    · rw [if_pos h]
      exact (List.Perm.cons y ih).trans (List.Perm.swap x y ys)
    · rw [if_neg h]

/-- The visited part of the insertion sort holds the elements visited. -/
theorem visited_perm {α : Type} (less : α → α → Bool) (l acc : List α) :
    (l.foldl (fun visited x => sinkLeft less x visited) acc).Perm (l ++ acc) := by
  induction l generalizing acc with
  | nil => exact List.Perm.refl _
  | cons x xs ih =>
    simp only [List.foldl_cons, List.cons_append]
    refine (ih _).trans ?_
    refine (List.Perm.append_left xs (sinkLeft_perm less x acc)).trans ?_
    exact List.perm_middle

/-- The insertion sort permutes the slice. -/
theorem insertionSort_perm {α : Type} (less : α → α → Bool) (l : List α) :
    (insertionSort less l).Perm l := by
  unfold insertionSort
  refine (List.reverse_perm _).trans ?_
  simpa using visited_perm less l []

/-- The inner loop of the insertion sort keeps a part ordered by
non-increasing keys ordered. -/
theorem sinkLeft_sorted {α : Type} (key : α → Int) (x : α) (l : List α)
    (h : l.Pairwise (fun a b => key b ≤ key a)) :
    (sinkLeft (fun a b => decide (key a < key b)) x l).Pairwise (fun a b => key b ≤ key a) := by
  induction l with
  | nil => simp [sinkLeft]
  | cons y ys ih =>
    unfold sinkLeft
    rw [List.pairwise_cons] at h
    by_cases hxy : key x < key y
    · simp only [hxy, decide_True, if_true]
      rw [List.pairwise_cons]
      refine ⟨?_, ih h.2⟩
      intro b hb
      have hb1 := (sinkLeft_perm (fun a b => decide (key a < key b)) x ys).subset hb
      rcases List.mem_cons.mp hb1 with e | e
      · rw [e]; omega
      · exact h.1 b e
    · simp only [hxy, decide_False, Bool.false_eq_true, if_false]
      rw [List.pairwise_cons]
      refine ⟨?_, List.pairwise_cons.mpr h⟩
      intro b hb
      rcases List.mem_cons.mp hb with e | e
      · rw [e]; omega
      · have := h.1 b e
        omega

/-- The visited part of the insertion sort stays ordered by non-increasing
keys. -/
theorem visited_sorted {α : Type} (key : α → Int) (l acc : List α)
    (h : acc.Pairwise (fun a b => key b ≤ key a)) :
    (l.foldl (fun visited x => sinkLeft (fun a b => decide (key a < key b)) x visited) acc).Pairwise
      (fun a b => key b ≤ key a) := by
  induction l generalizing acc with
  | nil => exact h
  | cons x xs ih =>
    simp only [List.foldl_cons]
    exact ih _ (sinkLeft_sorted key x acc h)

/-- The insertion sort orders the slice by non-decreasing keys. -/
theorem insertionSort_sorted {α : Type} (key : α → Int) (l : List α) :
    (insertionSort (fun a b => decide (key a < key b)) l).Pairwise
      (fun a b => key a ≤ key b) := by
  unfold insertionSort
  rw [List.pairwise_reverse]
  exact visited_sorted key l [] List.Pairwise.nil

/-- A slice is its element at an index followed by the other elements. -/
theorem perm_cons_eraseIdx {α : Type} (l : List α) (i : Nat) (x : α) (h : l.get? i = some x) :
    l.Perm (x :: l.eraseIdx i) := by
  induction l generalizing i with
  | nil => simp at h
  | cons a l ih =>
    cases i with
    | zero =>
      simp at h
      subst h
      exact List.Perm.refl _
    | succ i =>
      simp only [List.get?_cons_succ] at h
      simp only [List.eraseIdx_cons_succ]
      exact (List.Perm.cons a (ih i h)).trans (List.Perm.swap x a _)

/-- A slice with one element replaced is the new element followed by the
other elements. -/
theorem set_perm_cons_eraseIdx {α : Type} (l : List α) (i : Nat) (x y : α)
    (h : l.get? i = some x) : (l.set i y).Perm (y :: l.eraseIdx i) := by
  induction l generalizing i with
  | nil => simp at h
  | cons a l ih =>
    cases i with
    | zero => exact List.Perm.refl _
    | succ i =>
      simp only [List.get?_cons_succ] at h
      simp only [List.set_cons_succ, List.eraseIdx_cons_succ]
      exact (List.Perm.cons a (ih i h)).trans (List.Perm.swap y a _)

/-- The element read at an index after that or another index was set to the
element the slice held there. -/
theorem get_set_same {α : Type} (l : List α) (i j : Nat) (x y : α)
    (hi : l.get? i = some x) (hj : l.get? j = some y) : (l.set i y).get? j = some y := by
  by_cases e : i = j
  · subst e
    have hlt : i < l.length := by
      rcases Nat.lt_or_ge i l.length with h | h
      · exact h
      · rw [List.get?_eq_none.mpr h] at hi
        cases hi
    simp [List.getElem?_set_self, hlt]
  · simp [List.getElem?_set_ne e]
    simpa using hj

/-- The exchange of two elements permutes the slice. -/
theorem swapAt_perm {α : Type} (l : List α) (i j : Nat) : (swapAt l i j).Perm l := by
  unfold swapAt
  cases hi : l.get? i with
  | none => exact List.Perm.refl _
  | some x =>
    cases hj : l.get? j with
    | none => exact List.Perm.refl _
    | some y =>
      simp only
      have h1 := perm_cons_eraseIdx l i x hi
      have h2 := set_perm_cons_eraseIdx l i x y hi
      have h3 := get_set_same l i j x y hi hj
      have h4 := perm_cons_eraseIdx (l.set i y) j y h3
      have h5 := set_perm_cons_eraseIdx (l.set i y) j y x h3
      have h6 : ((l.set i y).eraseIdx j).Perm (l.eraseIdx i) :=
        List.Perm.cons_inv (h4.symm.trans h2)
      exact h5.trans ((List.Perm.cons x h6).trans h1.symm)

/-- The pass with gap 6 permutes the slice. -/
theorem shellPass_perm {α : Type} (less : α → α → Bool) (i count : Nat) (l : List α) :
    (shellPass less i count l).Perm l := by
  induction count generalizing i l with
  | zero => exact List.Perm.refl _
  | succ n ih =>
    unfold shellPass
    cases l.get? i with
    | none => exact ih _ _
    | some x =>
      cases l.get? (i - 6) with
      | none => exact ih _ _
      | some y =>
        simp only
        refine (ih _ _).trans ?_
        by_cases h : less x y = true
        · rw [if_pos h]
          exact swapAt_perm l i (i - 6)
        · rw [if_neg h]

/-- The small-slice algorithm of Go 1.6 to 1.18 meets the contract of
`sort.Sort`. -/
theorem sortGo118_sorts : sortGo118.Sorts := by
  intro α key l
  exact ⟨(insertionSort_perm _ _).trans (shellPass_perm _ _ _ _), insertionSort_sorted key _⟩

/-- The small-slice algorithm of Go 1.19 meets the contract of `sort.Sort`. -/
theorem sortGo119_sorts : sortGo119.Sorts := by
  intro α key l
  exact ⟨insertionSort_perm _ _, insertionSort_sorted key _⟩

/-- The integer keys of records that all hold an integer under the name. -/
theorem makeKeys_int (name : String) (data : List Record)
    (h : data.all (holdsInt name) = true) :
    makeKeys (intKey name) data = .ok (data.map (intField name)) := by
  induction data with
  | nil => rfl
  | cons r rest ih =>
    simp only [List.all_cons, Bool.and_eq_true] at h
    have hr := h.1
    unfold makeKeys
    rw [ih h.2]
    unfold holdsInt at hr
    unfold intKey
    simp only [List.map_cons, intField]
    split at hr <;> simp_all

/-- The name `byField` finds in the first element is a key of that element,
and the value found is the one stored under it. -/
theorem lookup_of_findField (lib : GoLib) (fieldName name : String) (x : Value) (v1 : Record)
    (h : findField lib fieldName v1 = some (name, x)) : lookup name v1 = some x := by
  unfold findField at h
  have hname : lib.toLower name = fieldName := by
    simpa using List.find?_some h
  induction v1 with
  | nil => simp at h
  | cons e rest ih =>
    obtain ⟨k1, w⟩ := e
    by_cases hm : lib.toLower k1 = fieldName
    · simp only [List.find?, hm, decide_True] at h
      simp only [Option.some.injEq, Prod.mk.injEq] at h
      simp [lookup, h.1, h.2]
    · simp only [List.find?, hm, decide_False] at h
      have hne : k1 ≠ name := by
        intro e
        rw [e] at hm
        exact hm hname
      simp only [lookup, hne, if_false]
      exact ih h

/-- A pair of the zipped keys and records holds the key of its record. -/
theorem mem_zip_keys {κ : Type} (f : Record → κ) (data : List Record) (p : κ × Record)
    (h : p ∈ (data.map f).zip data) : p.1 = f p.2 := by
  induction data with
  | nil => simp at h
  | cons r rest ih =>
    simp only [List.map_cons, List.zip_cons_cons, List.mem_cons] at h
    rcases h with e | e
    · rw [e]
    · exact ih e

/-- The records of the zipped keys and records are the records. -/
theorem zip_keys_records {κ : Type} (f : Record → κ) (data : List Record) :
    ((data.map f).zip data).map Prod.snd = data := by
  induction data with
  | nil => rfl
  | cons r rest ih => simp only [List.map_cons, List.zip_cons_cons, ih]

/-- Under the contract of `sort.Sort`, the integer helper leaves a permutation
of the records with non-decreasing keys. -/
theorem sortWithKeys_ascending (S : GoSort) (hS : S.Sorts) (f : Record → Int)
    (data : List Record) :
    (sortWithKeys S false (fun a b => decide (a < b)) (data.map f) data).Perm data ∧
    (sortWithKeys S false (fun a b => decide (a < b)) (data.map f) data).Pairwise
      (fun a b => f a ≤ f b) := by
  obtain ⟨hp, hs⟩ := hS (Int × Record) Prod.fst ((data.map f).zip data)
  simp only [sortWithKeys, Bool.false_eq_true, if_false]
  refine ⟨?_, ?_⟩
  · have := List.Perm.map Prod.snd hp
    rwa [zip_keys_records] at this
  · rw [List.pairwise_map]
    refine List.Pairwise.imp_of_mem ?_ hs
    intro a b ha hb hab
    rw [← mem_zip_keys f data a (hp.subset ha), ← mem_zip_keys f data b (hp.subset hb)]
    exact hab

/-- Under the contract of `sort.Sort`, the reversed integer helper leaves a
permutation of the records with non-increasing keys. -/
theorem sortWithKeys_descending (S : GoSort) (hS : S.Sorts) (f : Record → Int)
    (data : List Record) :
    (sortWithKeys S true (fun a b => decide (a < b)) (data.map f) data).Perm data ∧
    (sortWithKeys S true (fun a b => decide (a < b)) (data.map f) data).Pairwise
      (fun a b => f b ≤ f a) := by
  obtain ⟨hp, hs⟩ := hS (Int × Record) (fun p => -p.1) ((data.map f).zip data)
  have e : (fun a b : Int × Record => decide (-a.1 < -b.1)) =
      (fun a b : Int × Record => decide (b.1 < a.1)) := by
    funext a b
    simp
  rw [e] at hp hs
  simp only [sortWithKeys, if_true]
  refine ⟨?_, ?_⟩
  · have := List.Perm.map Prod.snd hp
    rwa [zip_keys_records] at this
  · rw [List.pairwise_map]
    refine List.Pairwise.imp_of_mem ?_ hs
    intro a b ha hb hab
    rw [← mem_zip_keys f data a (hp.subset ha), ← mem_zip_keys f data b (hp.subset hb)]
    omega

/-- The call of `byField` on records that all hold an integer under the name
found in the first element: no error, and the slice the helper leaves. -/
theorem byField_int (lib : GoLib) (S : GoSort) (v1 : Record) (rest : List Record)
    (field name : String) (x : Value)
    (hfirst : findField lib (trimLeadingDash (lib.toLower field)) v1 = some (name, x))
    (hall : (v1 :: rest).all (holdsInt name) = true) :
    byField lib S (v1 :: rest) field =
      (.ok (), sortWithKeys S (strStartsWith field "-") (fun a b => decide (a < b))
        ((v1 :: rest).map (intField name)) (v1 :: rest)) := by
  have hx := lookup_of_findField lib _ name x v1 hfirst
  have hv1 : holdsInt name v1 = true := by
    simp only [List.all_cons, Bool.and_eq_true] at hall
    exact hall.1
  have hk := makeKeys_int name (v1 :: rest) hall
  unfold holdsInt at hv1
  rw [hx] at hv1
  unfold byField
  simp only [hfirst]
  cases x <;> simp_all

/-- Trimming the dash leaves a name that does not start with one as it is. -/
theorem trimLeadingDash_of_no_dash (s : String) (h : strStartsWith s "-" = false) :
    trimLeadingDash s = s := by
  unfold trimLeadingDash
  unfold strStartsWith at h
  split
  · rename_i rest e
    rw [e] at h
    simp [List.isPrefixOf] at h
  · rfl

/-- Trimming the dash in front of a name gives the name. -/
theorem trimLeadingDash_dash (s : String) : trimLeadingDash ("-" ++ s) = s := by
  unfold trimLeadingDash
  have e : ("-" ++ s).data = '-' :: s.data := by
    rw [String.data_append]
    rfl
  rw [e]
  rfl

/-- A name written behind a dash starts with the dash. -/
theorem strStartsWith_dash (s : String) : strStartsWith ("-" ++ s) "-" = true := by
  unfold strStartsWith
  have e : ("-" ++ s).data = '-' :: s.data := by
    rw [String.data_append]
    rfl
  rw [e]
  simp [List.isPrefixOf]

/-- Claim C24 (as amended): single-key sort. Let `sort.Sort` meet its contract
and let lowering keep a leading dash apart (the lowered key starts with no
dash, and lowering `-k` gives the dash and the lowered `k`). For a non-empty
slice, a key `k` that starts with no dash and equals, ignoring case, a name of
the first record, when every record holds an integer under that very name (the
first such name of the first record), `byField(data, k)` returns no error and
leaves a permutation of the slice in which that field never decreases from a
record to a later one; with the key written `-k` it never increases. -/
theorem byField_sorts_by_int_field (lib : GoLib) (S : GoSort) (hS : S.Sorts)
    (v1 : Record) (rest : List Record) (k name : String) (x : Value)
    (hk : strStartsWith k "-" = false)
    (hlow : strStartsWith (lib.toLower k) "-" = false)
    (hdash : lib.toLower ("-" ++ k) = "-" ++ lib.toLower k)
    (hfirst : findField lib (lib.toLower k) v1 = some (name, x))
    (hall : (v1 :: rest).all (holdsInt name) = true) :
    (byField lib S (v1 :: rest) k).1 = .ok () ∧
    (byField lib S (v1 :: rest) k).2.Perm (v1 :: rest) ∧
    (byField lib S (v1 :: rest) k).2.Pairwise
      (fun a b => intField name a ≤ intField name b) ∧
    (byField lib S (v1 :: rest) ("-" ++ k)).1 = .ok () ∧
    (byField lib S (v1 :: rest) ("-" ++ k)).2.Perm (v1 :: rest) ∧
    (byField lib S (v1 :: rest) ("-" ++ k)).2.Pairwise
      (fun a b => intField name b ≤ intField name a) := by
  have hup : findField lib (trimLeadingDash (lib.toLower k)) v1 = some (name, x) := by
    rw [trimLeadingDash_of_no_dash _ hlow]
    exact hfirst
  have hdown : findField lib (trimLeadingDash (lib.toLower ("-" ++ k))) v1 = some (name, x) := by
    rw [hdash, trimLeadingDash_dash]
    exact hfirst
  rw [byField_int lib S v1 rest k name x hup hall,
    byField_int lib S v1 rest ("-" ++ k) name x hdown hall, hk, strStartsWith_dash]
  have h1 := sortWithKeys_ascending S hS (intField name) (v1 :: rest)
  have h2 := sortWithKeys_descending S hS (intField name) (v1 :: rest)
  exact ⟨rfl, h1.1, h1.2, rfl, h2.1, h2.2⟩

/-- Witness of C24: three map records with the field `Grade`, sorted by the
key `grade` with the small-slice algorithm of Go 1.6 to 1.18. -/
theorem byField_sorts_by_int_field_witness :
    (byField asciiLib sortGo118
      [[("Grade", .int 2)], [("Grade", .int 1)], [("Grade", .int 3)]] "grade").1 = .ok () ∧
    (byField asciiLib sortGo118
      [[("Grade", .int 2)], [("Grade", .int 1)], [("Grade", .int 3)]] "grade").2.Perm
      [[("Grade", .int 2)], [("Grade", .int 1)], [("Grade", .int 3)]] ∧
    (byField asciiLib sortGo118
      [[("Grade", .int 2)], [("Grade", .int 1)], [("Grade", .int 3)]] "grade").2.Pairwise
      (fun a b => intField "Grade" a ≤ intField "Grade" b) ∧
    (byField asciiLib sortGo118
      [[("Grade", .int 2)], [("Grade", .int 1)], [("Grade", .int 3)]] ("-" ++ "grade")).1
      = .ok () ∧
    (byField asciiLib sortGo118
      [[("Grade", .int 2)], [("Grade", .int 1)], [("Grade", .int 3)]] ("-" ++ "grade")).2.Perm
      [[("Grade", .int 2)], [("Grade", .int 1)], [("Grade", .int 3)]] ∧
    (byField asciiLib sortGo118
      [[("Grade", .int 2)], [("Grade", .int 1)], [("Grade", .int 3)]] ("-" ++ "grade")).2.Pairwise
      (fun a b => intField "Grade" b ≤ intField "Grade" a) :=
  byField_sorts_by_int_field asciiLib sortGo118 sortGo118_sorts
    [("Grade", .int 2)] [[("Grade", .int 1)], [("Grade", .int 3)]] "grade" "Grade" (.int 2)
    rfl rfl rfl rfl rfl

/-- Counterexample to C24 as stated: two map records that both hold an integer
under a name equal to `grade` ignoring case, `Grade` in the first and `grade`
in the second. The name is taken from the first record and read from every
record as it is written there: `byField` panics in `makeIntKeys`, whatever the
sort algorithm is, and what the slice holds where it stops is the two records
in their first order. -/
theorem byField_reads_first_records_name :
    (findField asciiLib "grade" [("Grade", .int 2)]).map Prod.fst = some "Grade" ∧
    (findField asciiLib "grade" [("grade", .int 1)]).map Prod.fst = some "grade" ∧
    ∀ S : GoSort,
      byField asciiLib S [[("Grade", .int 2)], [("grade", .int 1)]] "grade" =
        (.panic "reflect: call of reflect.Value.Interface on zero Value",
          [[("Grade", .int 2)], [("grade", .int 1)]]) :=
  ⟨rfl, rfl, fun _ => rfl⟩

/-- Claim C25. The sort is not stable: `byField` calls `sort.Sort`, whose
contract (a sorted permutation) the small-slice algorithm of Go 1.6 to 1.18
meets. With it, seven records with the keys 2, 1, 1, 1, 1, 2, 1 labelled a to
g come out as g, b, c, d, e, f, a: g has passed the records b to e of the same
key, and f stands before a although both have the key 2 and a came first. The
insertion sort that Go 1.19 runs on so short a slice keeps the ties in order. -/
theorem byField_is_not_stable :
    sortGo118.Sorts ∧
    byField asciiLib sortGo118
      [keyed 2 "a", keyed 1 "b", keyed 1 "c", keyed 1 "d", keyed 1 "e", keyed 2 "f",
        keyed 1 "g"] "k" =
      (.ok (), [keyed 1 "g", keyed 1 "b", keyed 1 "c", keyed 1 "d", keyed 1 "e", keyed 2 "f",
        keyed 2 "a"]) ∧
    byField asciiLib sortGo119
      [keyed 2 "a", keyed 1 "b", keyed 1 "c", keyed 1 "d", keyed 1 "e", keyed 2 "f",
        keyed 1 "g"] "k" =
      (.ok (), [keyed 1 "b", keyed 1 "c", keyed 1 "d", keyed 1 "e", keyed 1 "g", keyed 2 "a",
        keyed 2 "f"]) :=
  ⟨sortGo118_sorts, rfl, rfl⟩

/-- Claim C26. The sort stage of the cursor with the sort fields `k1`, `k2`
(it runs `byField` for `k2`, then for `k1`) on seven records that are in the
order of `k2`, under the small-slice algorithm of Go 1.6 to 1.18: the result is
ordered by `k1`, but the records equal on `k1` are not ordered by `k2` (6
stands before 1, and 5 before 0), so the result is not in the lexicographic
order of `(k1, k2)`. -/
theorem sort_stage_is_not_lexicographic :
    sortStage asciiLib sortGo118 ["k1", "k2"]
      [keyed2 2 0 0, keyed2 1 1 1, keyed2 1 2 2, keyed2 1 3 3, keyed2 1 4 4, keyed2 2 5 5,
        keyed2 1 6 6] =
      (.ok (), [keyed2 1 6 6, keyed2 1 1 1, keyed2 1 2 2, keyed2 1 3 3, keyed2 1 4 4,
        keyed2 2 5 5, keyed2 2 0 0]) :=
  rfl

/-- Claim C27. Sorting is not idempotent: under the small-slice algorithm of
Go 1.6 to 1.18 the sort stage with the sort fields `k1`, `k2` turns the seven
records numbered 0 to 6 into the order 0, 5, 1, 2, 3, 6, 4, and the same stage
on that output gives the order 5, 1, 2, 0, 6, 3, 4. -/
theorem sort_stage_is_not_idempotent :
    sortStage asciiLib sortGo118 ["k1", "k2"]
      [keyed2 0 2 0, keyed2 0 1 1, keyed2 0 1 2, keyed2 1 1 3, keyed2 2 1 4, keyed2 0 0 5,
        keyed2 1 0 6] =
      (.ok (), [keyed2 0 2 0, keyed2 0 0 5, keyed2 0 1 1, keyed2 0 1 2, keyed2 1 1 3,
        keyed2 1 0 6, keyed2 2 1 4]) ∧
    sortStage asciiLib sortGo118 ["k1", "k2"]
      [keyed2 0 2 0, keyed2 0 0 5, keyed2 0 1 1, keyed2 0 1 2, keyed2 1 1 3, keyed2 1 0 6,
        keyed2 2 1 4] =
      (.ok (), [keyed2 0 0 5, keyed2 0 1 1, keyed2 0 1 2, keyed2 0 2 0, keyed2 1 0 6,
        keyed2 1 1 3, keyed2 2 1 4]) :=
  ⟨rfl, rfl⟩

/-! ## The text codec -/

/-- One turn of the tokenizer on a character outside quotes that is neither a
delimiter nor opens a sign: the character joins the buffer. -/
theorem tokenLoop_plain_char (cfg : Text.Config) (headers : List String) (fuel : Nat)
    (c : Char) (rest : List Char) (st : Text.Scan) (hs : cfg.UseSign = true)
    (hq : st.inQuote = false) (hc : c ≠ cfg.Delimeter)
    (ho : Text.openSign cfg.Signs c = none) :
    Text.tokenLoop cfg headers (fuel + 1) (c :: rest) st =
      Text.tokenLoop cfg headers fuel rest
        { st with processBufferToObj := false, txtBuff := st.txtBuff ++ [c] } := by
  simp [Text.tokenLoop, Text.Scan.read, Text.Scan.quote, Text.Scan.closeMissing,
    Text.Scan.process, hs, hq, hc, ho]

/-- One turn of the tokenizer on a double quote read outside quotes, when the
sign it opens closes with a double quote. -/
theorem tokenLoop_open_quote (cfg : Text.Config) (headers : List String) (fuel : Nat)
    (rest : List Char) (st : Text.Scan) (hs : cfg.UseSign = true)
    (hq : st.inQuote = false) (ho : Text.openSign cfg.Signs '"' = some '"') :
    Text.tokenLoop cfg headers (fuel + 1) ('"' :: rest) st =
      Text.tokenLoop cfg headers fuel rest
        { st with inQuote := true, closeQuote := '"', afterQuote := rest,
                  quoteBuff := st.txtBuff, processBufferToObj := false } := by
  simp [Text.tokenLoop, Text.Scan.read, Text.Scan.quote, Text.Scan.closeMissing,
    Text.Scan.process, hs, hq, ho]

/-- One turn of the tokenizer inside double quotes on a character that is not
the double quote and not the last of the line. -/
theorem tokenLoop_quoted_char (cfg : Text.Config) (headers : List String) (fuel : Nat)
    (c : Char) (rest : List Char) (st : Text.Scan) (hs : cfg.UseSign = true)
    (hq : st.inQuote = true) (hcl : st.closeQuote = '"') (hc : c ≠ '"') (hr : rest ≠ []) :
    Text.tokenLoop cfg headers (fuel + 1) (c :: rest) st =
      Text.tokenLoop cfg headers fuel rest
        { st with processBufferToObj := false, txtBuff := st.txtBuff ++ [c] } := by
  simp [Text.tokenLoop, Text.Scan.read, Text.Scan.quote, Text.Scan.closeMissing,
    Text.Scan.process, hs, hq, hcl, hc, hr]

/-- One turn of the tokenizer on the closing double quote, when the delimiter
is another character. -/
theorem tokenLoop_close_quote (cfg : Text.Config) (headers : List String) (fuel : Nat)
    (rest : List Char) (st : Text.Scan) (hs : cfg.UseSign = true)
    (hq : st.inQuote = true) (hcl : st.closeQuote = '"') (hd : cfg.Delimeter ≠ '"') :
    Text.tokenLoop cfg headers (fuel + 1) ('"' :: rest) st =
      Text.tokenLoop cfg headers fuel rest
        { st with inQuote := false, processBufferToObj := false } := by
  have hd1 : ¬ ('"' = cfg.Delimeter) := fun e => hd e.symm
  simp [Text.tokenLoop, Text.Scan.read, Text.Scan.quote, Text.Scan.closeMissing,
    Text.Scan.process, hs, hq, hcl, hd1]

/-- One turn of the tokenizer on a delimiter outside quotes that opens no
sign: the buffer is handed over under the name of the column. -/
theorem tokenLoop_delimiter (cfg : Text.Config) (headers : List String) (fuel : Nat)
    (rest : List Char) (st : Text.Scan) (hs : cfg.UseSign = true)
    (hq : st.inQuote = false) (ho : Text.openSign cfg.Signs cfg.Delimeter = none) :
    Text.tokenLoop cfg headers (fuel + 1) (cfg.Delimeter :: rest) st =
      Text.tokenLoop cfg headers fuel rest
        { st with processBufferToObj := true,
                  handed := st.handed ++
                    [(Text.fieldNameAt headers st.idx, String.mk st.txtBuff)],
                  txtBuff := [], idx := st.idx + 1 } := by
  simp [Text.tokenLoop, Text.Scan.read, Text.Scan.quote, Text.Scan.closeMissing,
    Text.Scan.process, hs, hq, ho]

/-- The tokenizer over a run of plain characters outside quotes: they join the
buffer. -/
theorem tokenLoop_plain (cfg : Text.Config) (headers : List String) (hs : cfg.UseSign = true)
    (r : List Char)
    (hr : ∀ c ∈ r, c ≠ cfg.Delimeter ∧ Text.openSign cfg.Signs c = none)
    (fuel : Nat) (tl : List Char) (st : Text.Scan) (hq : st.inQuote = false) :
    ∃ st1, Text.tokenLoop cfg headers (fuel + r.length) (r ++ tl) st =
        Text.tokenLoop cfg headers fuel tl st1 ∧
      st1.inQuote = false ∧ st1.txtBuff = st.txtBuff ++ r ∧ st1.idx = st.idx ∧
      st1.handed = st.handed ∧
      st1.processBufferToObj = (if r = [] then st.processBufferToObj else false) := by
  induction r generalizing st with
  | nil => exact ⟨st, rfl, hq, by simp, rfl, rfl, by simp⟩
  | cons c r ih =>
    have hc := hr c (List.mem_cons_self c r)
    obtain ⟨st1, h1, h2, h3, h4, h5, _⟩ :=
      ih (fun x hx => hr x (List.mem_cons_of_mem c hx))
        { st with processBufferToObj := false, txtBuff := st.txtBuff ++ [c] } hq
    refine ⟨st1, ?_, h2, ?_, h4, h5, ?_⟩
    · rw [List.length_cons, ← Nat.add_assoc, List.cons_append,
        tokenLoop_plain_char cfg headers _ c _ st hs hq hc.1 hc.2]
      exact h1
    · rw [h3]
      simp
    · rename_i h6
      rw [h6]
      by_cases e : r = [] <;> simp [e]

/-- The tokenizer over the inside of a double-quoted column and its closing
quote: the characters join the buffer and the quote is left. -/
theorem tokenLoop_quoted (cfg : Text.Config) (headers : List String) (hs : cfg.UseSign = true)
    (hd : cfg.Delimeter ≠ '"') (s : List Char) (hsq : ∀ c ∈ s, c ≠ '"')
    (fuel : Nat) (tl : List Char) (st : Text.Scan) (hq : st.inQuote = true)
    (hcl : st.closeQuote = '"') :
    ∃ st1, Text.tokenLoop cfg headers (fuel + (s.length + 1)) (s ++ '"' :: tl) st =
        Text.tokenLoop cfg headers fuel tl st1 ∧
      st1.inQuote = false ∧ st1.txtBuff = st.txtBuff ++ s ∧ st1.idx = st.idx ∧
      st1.handed = st.handed ∧ st1.processBufferToObj = false := by
  induction s generalizing st with
  | nil =>
    refine ⟨{ st with inQuote := false, processBufferToObj := false }, ?_, rfl, by simp, rfl,
      rfl, rfl⟩
    exact tokenLoop_close_quote cfg headers fuel tl st hs hq hcl hd
  | cons c s ih =>
    obtain ⟨st1, h1, h2, h3, h4, h5, h6⟩ :=
      ih (fun x hx => hsq x (List.mem_cons_of_mem c hx))
        { st with processBufferToObj := false, txtBuff := st.txtBuff ++ [c] } hq hcl
    refine ⟨st1, ?_, h2, ?_, h4, h5, h6⟩
    · rw [List.length_cons, ← Nat.add_assoc, List.cons_append,
        tokenLoop_quoted_char cfg headers _ c _ st hs hq hcl
          (hsq c (List.mem_cons_self c s)) (by simp)]
      exact h1
    · rw [h3]
      simp

/-- The tokenizer over one column as `objToText` writes it: the buffer grows
by the text of the column as it was before it was written. -/
theorem tokenLoop_column (cfg : Text.Config) (headers : List String) (hs : cfg.UseSign = true)
    (ho : Text.openSign cfg.Signs '"' = some '"')
    (hd : Text.openSign cfg.Signs cfg.Delimeter = none)
    (written read : List Char) (hc : Text.ColumnOk cfg written read)
    (fuel : Nat) (tl : List Char) (st : Text.Scan) (hq : st.inQuote = false) :
    ∃ st1, Text.tokenLoop cfg headers (fuel + written.length) (written ++ tl) st =
        Text.tokenLoop cfg headers fuel tl st1 ∧
      st1.inQuote = false ∧ st1.txtBuff = st.txtBuff ++ read ∧ st1.idx = st.idx ∧
      st1.handed = st.handed ∧
      st1.processBufferToObj = (if written = [] then st.processBufferToObj else false) := by
  have hdq : cfg.Delimeter ≠ '"' := by
    intro e
    rw [e, ho] at hd
    cases hd
  rcases hc with ⟨hw, hr⟩ | ⟨hw, hr⟩
  · obtain ⟨st1, h1, h2, h3, h4, h5, h6⟩ :=
      tokenLoop_quoted cfg headers hs hdq read hr fuel tl
        { st with inQuote := true, closeQuote := '"', afterQuote := read ++ '"' :: tl,
                  quoteBuff := st.txtBuff, processBufferToObj := false } rfl rfl
    refine ⟨st1, ?_, h2, h3, h4, h5, ?_⟩
    · have e1 : written ++ tl = '"' :: (read ++ '"' :: tl) := by
        rw [hw]
        simp
      have e2 : fuel + written.length = (fuel + (read.length + 1)) + 1 := by
        rw [hw]
        simp
        omega
      rw [e1, e2, tokenLoop_open_quote cfg headers _ _ st hs hq ho]
      exact h1
    · rw [h6, hw]
      simp
  · subst hw
    exact tokenLoop_plain cfg headers hs written hr fuel tl st hq

/-- The tokenizer over a row of columns as `objToText` writes them, the last
of which is not empty: the field converter is called once for every column, in
order, with the text of the column as it was before it was written. -/
theorem tokenLoop_row (cfg : Text.Config) (headers : List String) (hs : cfg.UseSign = true)
    (ho : Text.openSign cfg.Signs '"' = some '"')
    (hd : Text.openSign cfg.Signs cfg.Delimeter = none)
    (cols : List (List Char × List Char))
    (hcols : ∀ c ∈ cols, Text.ColumnOk cfg c.1 c.2) (hne : cols ≠ [])
    (hlast : ∀ c, cols.getLast? = some c → c.1 ≠ [])
    (fuel : Nat) (st : Text.Scan) (hq : st.inQuote = false) (hb : st.txtBuff = []) :
    ∃ st1, Text.tokenLoop cfg headers
        (fuel + (Text.rowChars cfg.Delimeter (cols.map Prod.fst)).length)
        (Text.rowChars cfg.Delimeter (cols.map Prod.fst)) st = some st1 ∧
      Text.Scan.finish headers st1 = st.handed ++ Text.expected headers st.idx cols := by
  induction cols generalizing st fuel with
  | nil => exact absurd rfl hne
  | cons c rest ih =>
    cases rest with
    | nil =>
      obtain ⟨st1, h1, _, h3, h4, h5, h6⟩ :=
        tokenLoop_column cfg headers hs ho hd c.1 c.2 (hcols c (List.mem_singleton.mpr rfl))
          fuel [] st hq
      have hc1 : c.1 ≠ [] := hlast c rfl
      refine ⟨st1, ?_, ?_⟩
      · simp only [List.map_cons, List.map_nil, Text.rowChars]
        rw [List.append_nil] at h1
        rw [h1]
        cases fuel <;> rfl
      · rw [if_neg hc1] at h6
        simp [Text.Scan.finish, h6, h5, h4, h3, hb, Text.expected]
    | cons c2 rest2 =>
      have hL : Text.rowChars cfg.Delimeter ((c :: c2 :: rest2).map Prod.fst) =
          c.1 ++ cfg.Delimeter :: Text.rowChars cfg.Delimeter ((c2 :: rest2).map Prod.fst) := by
        simp [Text.rowChars]
      obtain ⟨st1, h1, h2, h3, h4, h5, _⟩ :=
        tokenLoop_column cfg headers hs ho hd c.1 c.2 (hcols c (List.mem_cons_self c _))
          (fuel + (Text.rowChars cfg.Delimeter ((c2 :: rest2).map Prod.fst)).length + 1)
          (cfg.Delimeter :: Text.rowChars cfg.Delimeter ((c2 :: rest2).map Prod.fst)) st hq
      obtain ⟨st2, k1, k2⟩ :=
        ih (fun x hx => hcols x (List.mem_cons_of_mem c hx)) (by simp)
          (fun x hx => hlast x (by simpa [List.getLast?_cons_cons] using hx))
          fuel
          { st1 with processBufferToObj := true,
                     handed := st1.handed ++
                       [(Text.fieldNameAt headers st1.idx, String.mk st1.txtBuff)],
                     txtBuff := [], idx := st1.idx + 1 } h2 rfl
      refine ⟨st2, ?_, ?_⟩
      · rw [hL]
        have e : fuel + (c.1 ++ cfg.Delimeter ::
              Text.rowChars cfg.Delimeter ((c2 :: rest2).map Prod.fst)).length =
            (fuel + (Text.rowChars cfg.Delimeter ((c2 :: rest2).map Prod.fst)).length + 1) +
              c.1.length := by
          simp
          omega
        rw [e, h1, tokenLoop_delimiter cfg headers _ _ st1 hs h2 hd]
        exact k1
      · rw [k2]
        simp [Text.expected, h5, h4, h3, hb]

/-- The characters of the joined texts are the joined characters. -/
theorem joinWith_data (d : Char) (l : List String) :
    (joinWith d l).data = Text.rowChars d (l.map String.data) := by
  induction l with
  | nil => rfl
  | cons a rest ih =>
    cases rest with
    | nil => rfl
    | cons b rest2 =>
      simp only [joinWith, List.map_cons, Text.rowChars, String.data_append]
      rw [← List.map_cons, ← ih]
      simp [joinWith]

/-- The names the tokenizer gives to the columns of a header are the names of
the header. -/
theorem expected_header (pre names : List String) (g : String → List Char × List Char) :
    Text.expected (pre ++ names) pre.length (names.map g) =
      names.map (fun n => (n, String.mk (g n).2)) := by
  induction names generalizing pre with
  | nil => rfl
  | cons n rest ih =>
    simp only [List.map_cons, Text.expected]
    have e : Text.fieldNameAt (pre ++ n :: rest) pre.length = n := by
      unfold Text.fieldNameAt
      have e1 : (pre ++ n :: rest).get? pre.length = some n := by
        rw [List.get?_eq_getElem?, List.getElem?_append_right (Nat.le_refl _)]
        simp
      rw [e1]
    rw [e]
    have := ih (pre ++ [n])
    simp only [List.append_assoc, List.singleton_append, List.length_append,
      List.length_singleton] at this
    rw [this]

/-- The texts `objToText` collects when no header field makes it fail. -/
theorem textLoop_columns (lib : GoLib) (cfg : Text.Config) (m : Record) (header txts : List String)
    (h : header.all (Text.columnClean lib cfg m) = true) :
    Text.textLoop lib cfg m header txts = .ok (txts ++ header.map (Text.columnOf lib m)) := by
  induction header generalizing txts with
  | nil => simp [Text.textLoop]
  | cons name rest ih =>
    simp only [List.all_cons, Bool.and_eq_true] at h
    have h1 := h.1
    unfold Text.textLoop
    unfold Text.columnClean at h1
    cases hl : lookup name m with
    | none =>
      rw [hl] at h1
      have hm : cfg.WriteMode = .ModeLoose := by simpa using h1
      simp [hm, ih _ h.2, Text.columnOf, hl]
    | some v =>
      simp [ih _ h.2, Text.columnOf, hl]

/-- A clean column is written in a form the tokenizer reads back. -/
theorem columnOk_of_clean (lib : GoLib) (cfg : Text.Config) (m : Record) (name : String)
    (h : Text.columnClean lib cfg m name = true) :
    Text.ColumnOk cfg (Text.columnOf lib m name).data (Text.handedText lib m name).data := by
  unfold Text.columnClean at h
  unfold Text.columnOf Text.handedText
  cases hl : lookup name m with
  | none =>
    right
    simp
  | some v =>
    rw [hl] at h
    cases v with
    | str s =>
      left
      refine ⟨?_, ?_⟩
      · simp [Text.columnText, Text.interfaceToText, String.data_append]
      · intro c hc
        have := List.all_eq_true.mp h c hc
        simpa using this
    | _ =>
      right
      refine ⟨rfl, ?_⟩
      intro c hc
      have := List.all_eq_true.mp h c hc
      simpa using this

/-- Claim C30 (as amended): quoted fields round-trip through the text codec.
Let the configuration have signs in use, the double quote open a sign that
closes with the double quote, and the delimiter open no sign. Let every header
column be clean for the flat map `m` of the data (a string holds no double
quote, it may hold the delimiter and single quotes; the text of another value
holds neither the delimiter nor a character that opens a sign; a field is
missing in loose mode only) and the last column be written as a text that is
not empty. Then `objToText` returns the columns joined by the delimiter, and
`textToObj` with the same configuration on that row calls the field converter
once per header column, in header order and under the name of the column, with
exactly the string `s` for a column that holds the string `s`. -/
theorem quoted_columns_round_trip (lib : GoLib) (cfg : Text.Config) (data : Payload)
    (m : Record) (header : List String)
    (hm : objToM data = .ok m) (hs : cfg.UseSign = true)
    (ho : Text.openSign cfg.Signs '"' = some '"')
    (hd : Text.openSign cfg.Signs cfg.Delimeter = none)
    (hclean : header.all (Text.columnClean lib cfg m) = true)
    (hlast : Text.lastColumnWritten lib m header = true) :
    Text.objToText lib cfg data header =
      .ok (joinWith cfg.Delimeter (header.map (Text.columnOf lib m))) ∧
    Text.textToObj cfg (joinWith cfg.Delimeter (header.map (Text.columnOf lib m))) header =
      some (header.map (fun name => (name, Text.handedText lib m name))) := by
  refine ⟨?_, ?_⟩
  · unfold Text.objToText
    rw [hm]
    simp only [textLoop_columns lib cfg m header [] hclean, List.nil_append]
  · obtain ⟨lastName, hl1, hl2⟩ :
        ∃ name, header.getLast? = some name ∧ Text.columnOf lib m name ≠ "" := by
      unfold Text.lastColumnWritten at hlast
      cases hg : header.getLast? with
      | none => rw [hg] at hlast; cases hlast
      | some name =>
        rw [hg] at hlast
        exact ⟨name, rfl, by simpa using hlast⟩
    have hne : header ≠ [] := by
      intro e
      rw [e] at hl1
      cases hl1
    let g : String → List Char × List Char :=
      fun name => ((Text.columnOf lib m name).data, (Text.handedText lib m name).data)
    have hrow : (joinWith cfg.Delimeter (header.map (Text.columnOf lib m))).data =
        Text.rowChars cfg.Delimeter ((header.map g).map Prod.fst) := by
      rw [joinWith_data]
      simp [g, List.map_map, Function.comp_def]
    have hcols : ∀ c ∈ header.map g, Text.ColumnOk cfg c.1 c.2 := by
      intro c hc
      obtain ⟨name, hn, rfl⟩ := List.mem_map.mp hc
      exact columnOk_of_clean lib cfg m name (List.all_eq_true.mp hclean name hn)
    have hlastc : ∀ c, (header.map g).getLast? = some c → c.1 ≠ [] := by
      intro c hc
      rw [List.getLast?_map, hl1] at hc
      simp only [Option.map_some', Option.some.injEq] at hc
      rw [← hc]
      intro e
      apply hl2
      show Text.columnOf lib m lastName = ""
      have e1 : (Text.columnOf lib m lastName).data = [] := e
      exact String.ext e1
    unfold Text.textToObj
    rw [hrow]
    generalize hn : (Text.rowChars cfg.Delimeter ((header.map g).map Prod.fst)).length = n
    have hfuel : (n + 1) * (n + 1) = (n * n + n + 1) + n := by ring
    obtain ⟨st1, h1, h2⟩ :=
      tokenLoop_row cfg header hs ho hd (header.map g) hcols (by simpa using hne) hlastc
        (n * n + n + 1) Text.Scan.start rfl rfl
    rw [hn] at h1
    rw [hfuel, h1]
    simp only [Option.map_some', h2, Text.Scan.start, List.nil_append]
    have := expected_header [] header g
    simp only [List.nil_append, List.length_nil] at this
    rw [this]

/-- Witness of C30: a name that holds the delimiter and a single quote, next
to a number, under the configuration of `NewConfig`. -/
theorem quoted_columns_round_trip_witness :
    Text.objToText asciiLib (Text.NewConfig ',')
        (.single [("name", .str "Doe, John's"), ("age", .int 30)]) ["name", "age"] =
      .ok (joinWith (Text.NewConfig ',').Delimeter (["name", "age"].map
        (Text.columnOf asciiLib [("name", .str "Doe, John's"), ("age", .int 30)]))) ∧
    Text.textToObj (Text.NewConfig ',')
        (joinWith (Text.NewConfig ',').Delimeter (["name", "age"].map
          (Text.columnOf asciiLib [("name", .str "Doe, John's"), ("age", .int 30)])))
        ["name", "age"] =
      some (["name", "age"].map (fun name =>
        (name, Text.handedText asciiLib [("name", .str "Doe, John's"), ("age", .int 30)] name))) :=
  quoted_columns_round_trip asciiLib (Text.NewConfig ',')
    (.single [("name", .str "Doe, John's"), ("age", .int 30)])
    [("name", .str "Doe, John's"), ("age", .int 30)] ["name", "age"] rfl rfl rfl rfl rfl rfl

/-- Counterexample to C30 as stated: with signs not in use (`SetUseSign(false)`)
`objToText` still writes the string `a,b` between double quotes, and `textToObj`
with the same configuration hands the field converter the texts `"a` and `b"`
for two columns instead of `a,b` for one. With the configuration of
`NewConfig`, a first column holding a double quote and a comma moves the comma
into the text of the second: the string `b` comes back as `,b`. -/
theorem round_trip_fails_without_signs :
    Text.objToText asciiLib { Delimeter := ',', UseSign := false }
        (.single [("name", .str "a,b")]) ["name"] = .ok "\"a,b\"" ∧
    Text.textToObj { Delimeter := ',', UseSign := false } "\"a,b\"" ["name"] =
      some [("name", "\"a"), ("1", "b\"")] ∧
    Text.objToText asciiLib (Text.NewConfig ',')
        (.single [("x", .str "\","), ("y", .str "b")]) ["x", "y"] = .ok "\"\",\",\"b\"" ∧
    Text.textToObj (Text.NewConfig ',') "\"\",\",\"b\"" ["x", "y"] =
      some [("x", ""), ("y", ",b")] := by
  refine ⟨by decide, by decide, by decide, by decide⟩

/-! ## Header reconciliation and write modes -/

/-- The second loop of `combineHeader` keeps the header it starts from as the
front of its result and leaves every name of the data header in it. -/
theorem appendMissing_spec (finalHeader dataHeader : List String) :
    (∃ tail, Text.appendMissing finalHeader dataHeader = finalHeader ++ tail) ∧
    ∀ dh ∈ dataHeader, dh ∈ Text.appendMissing finalHeader dataHeader := by
  induction dataHeader generalizing finalHeader with
  | nil => exact ⟨⟨[], by simp [Text.appendMissing]⟩, by simp⟩
  | cons dh rest ih =>
    unfold Text.appendMissing
    by_cases h : dh ∈ finalHeader
    · rw [if_pos h]
      obtain ⟨⟨tail, ht⟩, hall⟩ := ih finalHeader
      refine ⟨⟨tail, ht⟩, ?_⟩
      intro x hx
      rcases List.mem_cons.mp hx with e | e
      · rw [e, ht]
        exact List.mem_append_left _ h
      · exact hall x e
    · rw [if_neg h]
      obtain ⟨⟨tail, ht⟩, hall⟩ := ih (finalHeader ++ [dh])
      refine ⟨⟨dh :: tail, by rw [ht]; simp⟩, ?_⟩
      intro x hx
      rcases List.mem_cons.mp hx with e | e
      · rw [e, ht]
        simp
      · exact hall x e

/-- The first loop of `combineHeader` gives, position by position, a name equal
to the original one ignoring case. -/
theorem matchedHeader_spec (lib : GoLib) (originalHeader dataHeader : List String) :
    List.Forall₂ (fun x h => lib.toLower x = lib.toLower h)
      (Text.matchedHeader lib originalHeader dataHeader) originalHeader := by
  unfold Text.matchedHeader
  induction originalHeader with
  | nil => exact List.Forall₂.nil
  | cons h rest ih =>
    rw [List.map_cons]
    refine List.Forall₂.cons ?_ ih
    cases hf : dataHeader.find? (fun dh => lib.toLower h = lib.toLower dh) with
    | none => rfl
    | some dh =>
      have := List.find?_some hf
      simp only [decide_eq_true_eq] at this
      exact this.symm

/-- Claim C38. Header reconciliation never moves or drops an existing column:
for every original header `o` and data header `d`, `combineHeader(o, d)` is at
least as long as `o`, its first `len(o)` entries equal the entries of `o`
position by position ignoring case, every name of `d` occurs in it, and it is
`d` when `o` is empty. -/
theorem combineHeader_keeps_columns (lib : GoLib) (o d : List String) :
    o.length ≤ (Text.combineHeader lib o d).length ∧
    List.Forall₂ (fun x h => lib.toLower x = lib.toLower h)
      ((Text.combineHeader lib o d).take o.length) o ∧
    (∀ dh ∈ d, dh ∈ Text.combineHeader lib o d) ∧
    (o = [] → Text.combineHeader lib o d = d) := by
  unfold Text.combineHeader
  by_cases ho : o.length = 0
  · have e : o = [] := List.length_eq_zero.mp ho
    subst e
    simp
  · rw [if_neg ho]
    obtain ⟨⟨tail, ht⟩, hall⟩ := appendMissing_spec (Text.matchedHeader lib o d) d
    have hm := matchedHeader_spec lib o d
    have hlen : (Text.matchedHeader lib o d).length = o.length := hm.length_eq
    refine ⟨?_, ?_, hall, ?_⟩
    · rw [ht, List.length_append, hlen]
      exact Nat.le_add_right _ _
    · rw [ht, ← hlen, List.take_left']
      · exact hm
      · rfl
    · intro e
      rw [e] at ho
      exact absurd rfl ho

/-- The loop of `objToText` in either mode: in strict mode it stops with an
error at the first header field the data lacks; otherwise it collects one text
per header field, in header order. -/
theorem textLoop_modes (lib : GoLib) (cfg : Text.Config) (m : Record)
    (header txts : List String) :
    Text.textLoop lib cfg m header txts =
      match (if cfg.WriteMode = .ModeStrict then
          header.find? (fun name => (lookup name m).isNone) else none) with
      | some name => .err ("Field " ++ name ++ " is not included in data")
      | none => .ok (txts ++ header.map (Text.columnOf lib m)) := by
  induction header generalizing txts with
  | nil =>
    unfold Text.textLoop
    by_cases hs : cfg.WriteMode = .ModeStrict <;> simp [hs]
  | cons name rest ih =>
    unfold Text.textLoop
    cases hl : lookup name m with
    | none =>
      by_cases hs : cfg.WriteMode = .ModeStrict
      · simp [hs, hl, List.find?]
      · have := ih (txts ++ [""])
        simp only [hs, if_false] at this
        simp [hs, this, Text.columnOf, hl]
    | some v =>
      have := ih (txts ++ [Text.columnText lib v])
      by_cases hs : cfg.WriteMode = .ModeStrict
      · simp only [hs, if_true] at this
        simp only [hs, if_true, List.find?, hl, Option.isNone_some]
        rw [this]
        cases rest.find? (fun name => (lookup name m).isNone) <;>
          simp [Text.columnOf, hl]
      · simp only [hs, if_false] at this
        simp [hs, this, Text.columnOf, hl]

/-- Claim C32. Write modes of the text codec, for data whose flat map (the
fields of the record, as `objToM` returns them) is `m`. In strict mode
`objToText` returns the error of the first header field that is not a field of
`m`, so it returns an error if and only if there is such a field; in loose mode
it returns no error. A successful result is the join of exactly one text per
header field, in header order: the text of the field of that name, or the
empty text for a missing one; fields of `m` outside the header play no part. -/
theorem objToText_write_modes (lib : GoLib) (cfg : Text.Config) (data : Payload) (m : Record)
    (header : List String) (hm : objToM data = .ok m) :
    (Text.objToText lib cfg data header =
      match (if cfg.WriteMode = .ModeStrict then
          header.find? (fun name => (lookup name m).isNone) else none) with
      | some name => .err ("Field " ++ name ++ " is not included in data")
      | none => .ok (joinWith cfg.Delimeter (header.map (Text.columnOf lib m)))) ∧
    (cfg.WriteMode = .ModeStrict →
      ((∃ e, Text.objToText lib cfg data header = .err e) ↔
        ∃ name ∈ header, lookup name m = none)) ∧
    (cfg.WriteMode = .ModeLoose →
      Text.objToText lib cfg data header =
        .ok (joinWith cfg.Delimeter (header.map (Text.columnOf lib m)))) ∧
    (header.map (Text.columnOf lib m)).length = header.length := by
  have key : Text.objToText lib cfg data header =
      match (if cfg.WriteMode = .ModeStrict then
          header.find? (fun name => (lookup name m).isNone) else none) with
      | some name => .err ("Field " ++ name ++ " is not included in data")
      | none => .ok (joinWith cfg.Delimeter (header.map (Text.columnOf lib m))) := by
    unfold Text.objToText
    rw [hm]
    simp only [textLoop_modes lib cfg m header []]
    cases (if cfg.WriteMode = .ModeStrict then
        header.find? (fun name => (lookup name m).isNone) else none) <;> simp
  refine ⟨key, ?_, ?_, by simp⟩
  · intro hs
    rw [key]
    simp only [hs, if_true]
    constructor
    · rintro ⟨e, he⟩
      cases hf : header.find? (fun name => (lookup name m).isNone) with
      | none => rw [hf] at he; cases he
      | some name =>
        refine ⟨name, List.mem_of_find?_eq_some hf, ?_⟩
        have := List.find?_some hf
        simpa using this
    · rintro ⟨name, hn, hl⟩
      cases hf : header.find? (fun name => (lookup name m).isNone) with
      | none =>
        have := List.find?_eq_none.mp hf name hn
        simp [hl] at this
      | some name1 => exact ⟨_, rfl⟩
  · intro hl
    rw [key]
    simp [hl]

/-- Witness of C32: a record with the fields `name` and `extra` under the
header `name`, `age`, in strict and in loose mode. -/
theorem objToText_write_modes_witness :
    Text.objToText asciiLib { Delimeter := ',' }
        (.single [("name", .str "a"), ("extra", .int 1)]) ["name", "age"] =
      .err "Field age is not included in data" ∧
    Text.objToText asciiLib { Delimeter := ',', WriteMode := .ModeLoose }
        (.single [("name", .str "a"), ("extra", .int 1)]) ["name", "age"] =
      .ok "\"a\"," ∧
    Text.objToText asciiLib { Delimeter := ',' }
        (.single [("name", .str "a"), ("extra", .int 1)]) ["name"] = .ok "\"a\"" :=
  ⟨(objToText_write_modes asciiLib { Delimeter := ',' }
      (.single [("name", .str "a"), ("extra", .int 1)])
      [("name", .str "a"), ("extra", .int 1)] ["name", "age"] rfl).1,
   (objToText_write_modes asciiLib { Delimeter := ',', WriteMode := .ModeLoose }
      (.single [("name", .str "a"), ("extra", .int 1)])
      [("name", .str "a"), ("extra", .int 1)] ["name", "age"] rfl).2.2.1 rfl,
   (objToText_write_modes asciiLib { Delimeter := ',' }
      (.single [("name", .str "a"), ("extra", .int 1)])
      [("name", .str "a"), ("extra", .int 1)] ["name"] rfl).1⟩

/-! ## Termination of the tokenizer -/

/-- The triangular numbers do not decrease. -/
theorem triangle_mono {a b : Nat} (h : a ≤ b) : triangle a ≤ triangle b := by
  induction h with
  | refl => exact Nat.le_refl _
  | @step m _ ih =>
    have e : triangle (m + 1) = triangle m + m + 1 := rfl
    rw [e]
    omega

/-- A triangular number is below the square of its successor. -/
theorem triangle_le_square (n : Nat) : triangle n ≤ (n + 1) * (n + 1) := by
  induction n with
  | zero => simp [triangle]
  | succ n ih =>
    have e : triangle (n + 1) = triangle n + n + 1 := rfl
    rw [e]
    nlinarith

/-- What one turn of the tokenizer does to the quote state: it leaves the
quotes, or opens a quote in front of the characters still to read, or stays in
the quote it was in. -/
theorem read_quote_state (cfg : Text.Config) (c : Char) (rest : List Char) (st : Text.Scan) :
    (st.read cfg c rest).inQuote = false ∨
    ((st.read cfg c rest).inQuote = true ∧ st.inQuote = false ∧
      (st.read cfg c rest).afterQuote = rest) ∨
    ((st.read cfg c rest).inQuote = true ∧ st.inQuote = true ∧
      (st.read cfg c rest).afterQuote = st.afterQuote) := by
  unfold Text.Scan.read Text.Scan.quote
  by_cases hs : cfg.UseSign = true
  · by_cases hq : st.inQuote = true
    · by_cases hc : c = st.closeQuote
      · left
        simp [hs, hq, hc]
      · right; right
        simp [hs, hq, hc]
    · have hq1 : st.inQuote = false := by simpa using hq
      cases ho : Text.openSign cfg.Signs c with
      | none =>
        left
        simp [hs, hq1, ho]
      | some cl =>
        right; left
        simp [hs, hq1, ho]
  · by_cases hq : st.inQuote = true
    · right; right
      simp [hs, hq]
    · have hq1 : st.inQuote = false := by simpa using hq
      left
      simp [hs, hq1]

/-- The block that hands the buffer over leaves the quote state alone. -/
theorem process_quote_state (headers : List String) (st : Text.Scan) :
    (st.process headers).inQuote = st.inQuote ∧
    (st.process headers).afterQuote = st.afterQuote := by
  unfold Text.Scan.process
  by_cases h : st.processBufferToObj = true <;> simp [h]

/-- The loop of the tokenizer returns when it is given the turns the bound
counts: inside a quote the characters still to read lie behind the opening
quote, so every rewind starts further right than the one before. -/
theorem tokenLoop_returns (cfg : Text.Config) (headers : List String) (fuel : Nat)
    (rest : List Char) (st : Text.Scan)
    (hinv : st.inQuote = true → rest.length ≤ st.afterQuote.length)
    (hfuel : Text.turnsLeft rest st ≤ fuel) :
    ∃ st1, Text.tokenLoop cfg headers fuel rest st = some st1 := by
  induction fuel generalizing rest st with
  | zero =>
    cases rest with
    | nil => exact ⟨st, rfl⟩
    | cons c rest =>
      exfalso
      unfold Text.turnsLeft at hfuel
      by_cases hq : st.inQuote = true
      · simp [hq] at hfuel
      · simp [hq, triangle] at hfuel
  | succ fuel ih =>
    cases rest with
    | nil => exact ⟨st, rfl⟩
    | cons c rest =>
      unfold Text.tokenLoop
      have hsum := read_quote_state cfg c rest st
      have hold : (st.inQuote = true ∧ rest.length + 1 + triangle st.afterQuote.length ≤ fuel + 1
            ∧ rest.length + 1 ≤ st.afterQuote.length) ∨
          (st.inQuote = false ∧ triangle rest.length + rest.length + 1 ≤ fuel + 1) := by
        unfold Text.turnsLeft at hfuel
        by_cases hq : st.inQuote = true
        · left
          have := hinv hq
          simp only [hq, if_true, List.length_cons] at hfuel this
          exact ⟨hq, hfuel, this⟩
        · right
          simp only [hq, if_false, List.length_cons, triangle] at hfuel
          exact ⟨by simpa using hq, hfuel⟩
      by_cases hm : (st.read cfg c rest).closeMissing c rest = true
      · rw [if_pos hm]
        have hm1 : rest = [] ∧ (st.read cfg c rest).inQuote = true := by
          unfold Text.Scan.closeMissing at hm
          simp only [Bool.and_eq_true, List.isEmpty_iff] at hm
          exact ⟨hm.1.1, hm.1.2⟩
        obtain ⟨hp1, hp2⟩ := process_quote_state headers (st.read cfg c rest).rewind
        apply ih
        · intro h
          rw [hp1] at h
          simp [Text.Scan.rewind] at h
        · unfold Text.turnsLeft
          rw [hp1]
          simp only [Text.Scan.rewind, Bool.false_eq_true, if_false]
          rcases hsum with h | ⟨_, _, h3⟩ | ⟨_, h2, h3⟩
          · rw [hm1.2] at h
            cases h
          · rw [h3, hm1.1]
            simp [triangle]
          · rw [h3]
            rcases hold with ⟨_, hb, _⟩ | ⟨hq, _⟩
            · omega
            · rw [hq] at h2
              cases h2
      · rw [if_neg hm]
        obtain ⟨hp1, hp2⟩ := process_quote_state headers (st.read cfg c rest)
        apply ih
        · intro h
          rw [hp1] at h
          rw [hp2]
          rcases hsum with h1 | ⟨_, _, h3⟩ | ⟨_, h2, h3⟩
          · rw [h] at h1
            cases h1
          · rw [h3]
          · rw [h3]
            rcases hold with ⟨_, _, hc⟩ | ⟨hq, _⟩
            · omega
            · rw [hq] at h2
              cases h2
        · unfold Text.turnsLeft
          rw [hp1, hp2]
          rcases hsum with h1 | ⟨h1, h2, h3⟩ | ⟨h1, h2, h3⟩
          · simp only [h1, Bool.false_eq_true, if_false]
            rcases hold with ⟨_, hb, hc⟩ | ⟨_, hb⟩
            · have := triangle_mono (Nat.le_of_succ_le hc)
              omega
            · omega
          · simp only [h1, if_true, h3]
            rcases hold with ⟨hq, _, _⟩ | ⟨_, hb⟩
            · rw [hq] at h2
              cases h2
            · omega
          · simp only [h1, if_true, h3]
            rcases hold with ⟨_, hb, _⟩ | ⟨hq, _⟩
            · omega
            · rw [hq] at h2
              cases h2

/-- Claim C39. The tokenizer terminates on every input: for every line, every
configuration of quote signs and delimiter and every header list, the loop of
`textToObj`, rewinds included, ends within `(n + 1) * (n + 1)` turns for a
line of `n` characters, and `textToObj` returns the fields it has handed
over. -/
theorem textToObj_terminates (cfg : Text.Config) (txt : String) (headers : List String) :
    ∃ fields, Text.textToObj cfg txt headers = some fields := by
  unfold Text.textToObj
  obtain ⟨st1, h⟩ := tokenLoop_returns cfg headers
    ((txt.data.length + 1) * (txt.data.length + 1)) txt.data Text.Scan.start
    (by intro h; cases h)
    (by
      unfold Text.turnsLeft
      simp only [Text.Scan.start, Bool.false_eq_true, if_false]
      exact triangle_le_square _)
  exact ⟨Text.Scan.finish headers st1, by rw [h]; rfl⟩

/-! ## Group keys and the shape of the aggregation output -/

/-- Claim C36. Group keys are not injective. In the integer branch the key
joins the printed group values with a dash in front of each: the records with
the groups (`a-b`, `c`) and (`a`, `b-c`) both get the key `-a-b-c` and are
folded into one output record, which keeps the group values of the first and
sums both. In the float branch (every slice of maps) the key has no separator
at all: the groups (`ab`, `c`) and (`a`, `bc`) both get the key `abc`. -/
theorem group_keys_collide :
    aggregate asciiLib .struct
        [[("g1", .str "a-b"), ("g2", .str "c"), ("n", .int 1)],
         [("g1", .str "a"), ("g2", .str "b-c"), ("n", .int 2)]] [Sum "n"] ["g1", "g2"] =
      .ok [[("g1", .str "a-b"), ("g2", .str "c"), ("n", .int 3)]] ∧
    keyIDOf asciiLib "-" [("g1", .str "a-b"), ("g2", .str "c"), ("n", .int 1)] ["g1", "g2"] ""
      = .ok "-a-b-c" ∧
    keyIDOf asciiLib "-" [("g1", .str "a"), ("g2", .str "b-c"), ("n", .int 2)] ["g1", "g2"] ""
      = .ok "-a-b-c" ∧
    aggregate asciiLib .map
        [[("g1", .str "ab"), ("g2", .str "c"), ("n", .float 1)],
         [("g1", .str "a"), ("g2", .str "bc"), ("n", .float 2)]] [Sum "n"] ["g1", "g2"] =
      .ok [[("g1", .str "ab"), ("g2", .str "c"),
            ("n", .float (asciiLib.fadd (asciiLib.fadd 0 1) 2))]] ∧
    keyIDOf asciiLib "" [("g1", .str "ab"), ("g2", .str "c"), ("n", .float 1)] ["g1", "g2"] ""
      = .ok "abc" ∧
    keyIDOf asciiLib "" [("g1", .str "a"), ("g2", .str "bc"), ("n", .float 2)] ["g1", "g2"] ""
      = .ok "abc" :=
  ⟨rfl, rfl, rfl, rfl, rfl, rfl⟩

/-- Claim C40. The output of an Avg item holds a field more than the claim
allows: for every library and every struct record with the integer `i` under
`Salary`, `aggregate` with the item Avg of `Salary` returns a record that
holds, next to `Salary`, the count under `Salary_count`. The cursor copies
every key of the first result into a new buffer element; for a struct buffer
the key `Salary_count` names no field and the copy panics, whereas the result
of a Sum item (the group field and the aggregated field only) is copied. -/
theorem avg_output_keeps_count :
    (∀ (lib : GoLib) (i : Int),
      aggregate lib .struct [[("Salary", .int i)]] [Avg "Salary"] [] =
        .ok [[("Salary", .int (wrapInt (wrapInt i))), ("Salary_count", .int 1)]]) ∧
    aggregate asciiLib .struct salaries [Avg "salary"] ["grade"] =
      .ok [[("Grade", .str "A"), ("Salary", .int 5), ("Salary_count", .int 3)],
           [("Grade", .str "B"), ("Salary", .int 5), ("Salary_count", .int 2)]] ∧
    aggregateStage asciiLib .struct [("Grade", .str ""), ("Salary", .int 0)]
        [Avg "salary"] ["grade"] salaries =
      (.panic "reflect: call of reflect.Value.Set on zero Value", salaries) ∧
    aggregateStage asciiLib .struct [("Grade", .str ""), ("Salary", .int 0)]
        [Sum "salary"] ["grade"] salaries =
      (.ok (), [[("Grade", .str "A"), ("Salary", .int 15)],
                [("Grade", .str "B"), ("Salary", .int 10)]]) := by
  refine ⟨?_, rfl, rfl, rfl⟩
  intro lib i
  have h1 : wrapInt 1 = 1 := by decide
  simp [aggregate, itemLoop, aggregateItem, aggregatedFieldNames, groupedFieldNames,
    aggregatedName, kindOf, lookup, recordLoop, intRecord, keyIDOf, getValueOf, asInt,
    findResult, groupValues, seedInt, foldInt, assign, setResult, divideInt, Avg, h1]

/-! ## The tokenizer against the filter, and unterminated quotes -/

/-- Claim C37. The filter and the decoder of the text store do not see the
same columns. The record with `x` = `a,b` and `y` = 1 is written as the row
`"a,b",1`. The decoder hands over `a,b` for `x` and `1` for `y`. The filter
gets the row split at every delimiter, `"a`, `b"` and `1`, so it compares `b`
for the column `y` and `a` for `x`: the filter `y = 1` rejects the row, the
filter `y = b` accepts it, and the filter `x = a,b` rejects it. -/
theorem filter_splits_inside_quotes :
    Text.objToText asciiLib (Text.NewConfig ',')
        (.single [("x", .str "a,b"), ("y", .int 1)]) ["x", "y"] = .ok "\"a,b\",1" ∧
    Text.textToObj (Text.NewConfig ',') "\"a,b\",1" ["x", "y"] =
      some [("x", "a,b"), ("y", "1")] ∧
    splitOn ',' "\"a,b\",1".data = ["\"a", "b\"", "1"] ∧
    Text.isIncluded asciiLib (splitOn ',' "\"a,b\",1".data) ["x", "y"] (Eq "y" (.int 1))
      = .ok false ∧
    Text.isIncluded asciiLib (splitOn ',' "\"a,b\",1".data) ["x", "y"] (Eq "y" (.str "b"))
      = .ok true ∧
    Text.isIncluded asciiLib (splitOn ',' "\"a,b\",1".data) ["x", "y"] (Eq "x" (.str "a,b"))
      = .ok false := by
  refine ⟨by decide, by decide, by decide, by decide, by decide, by decide⟩

/-- Claim C31. An unterminated quote is not always literal text. With the
configuration of `NewConfig` the line `abc'` is decoded as the field `abc`:
the quote that opens on the last character is dropped, because the test for a
missing closing quote asks that the last character differ from the closing
quote, which for a sign of one character is the opening quote itself. With a
sign that opens with `<` and closes with `>`, the line `a<b,c` is decoded as
`a>b` and `c`: the rewind puts the closing character in the place of the
opening one. With the signs off both lines are decoded as they are written. A
quote of one character that opens before the last character is decoded as
literal text, as in the line `makan'ikan,asin,sekali`. -/
theorem unterminated_quote_is_not_literal :
    Text.textToObj (Text.NewConfig ',') "abc'" ["A"] = some [("A", "abc")] ∧
    Text.textToObj { Delimeter := ',', UseSign := false } "abc'" ["A"] =
      some [("A", "abc'")] ∧
    Text.textToObj { Delimeter := ',', Signs := [['<', '>']] } "a<b,c" ["A", "B"] =
      some [("A", "a>b"), ("B", "c")] ∧
    Text.textToObj { Delimeter := ',', UseSign := false } "a<b,c" ["A", "B"] =
      some [("A", "a<b"), ("B", "c")] ∧
    Text.textToObj (Text.NewConfig ',') "makan'ikan,asin,sekali" ["A", "B", "C"] =
      some [("A", "makan'ikan"), ("B", "asin"), ("C", "sekali")] := by
  refine ⟨by decide, by decide, by decide, by decide, by decide⟩

/-! ## Table files and filter copies -/

/-- The length of a joined path, for a name that is not empty. -/
theorem joinPath_length (dir name : String) (h : name ≠ "") :
    (joinPath dir name).length = if dir = "" then name.length else dir.length + 1 + name.length := by
  unfold joinPath
  by_cases hd : dir = ""
  · simp [hd]
  · simp only [hd, h, if_false, String.length_append]
    rfl

/-- Claim C34. The path `DropTable(t)` removes is not the path the queries
and commands on table `t` resolve: `DropTable` joins the directory with the
name alone, `Query.filePath` with the name, a dot and the extension, and the
two names differ for every table and extension. With the join of clean path
elements the two paths differ for every connection and table. For the
directory `/data`, the extension `csv` and the table `employees` they are
`/data/employees` and `/data/employees.csv`. -/
theorem drop_table_misses_extension :
    (∀ (conn : Connection) (t : String), t ++ "." ++ conn.extension ≠ t) ∧
    (∀ (conn : Connection) (t : String), filePath conn t ≠ .ok (dropTablePath conn t)) ∧
    filePath { dirPath := "/data", extension := "csv" } "employees" =
      .ok "/data/employees.csv" ∧
    dropTablePath { dirPath := "/data", extension := "csv" } "employees" = "/data/employees" := by
  refine ⟨?_, ?_, by decide, by decide⟩
  · intro conn t e
    have := congrArg String.length e
    simp only [String.length_append] at this
    have h2 : ".".length = 1 := rfl
    omega
  intro conn t h
  unfold filePath at h
  by_cases ht : t = ""
  · rw [if_pos ht] at h
    cases h
  · rw [if_neg ht] at h
    have h1 : joinPath conn.dirPath (t ++ "." ++ conn.extension) = dropTablePath conn t := by
      injection h
    have hne : t ++ "." ++ conn.extension ≠ "" := by
      intro e
      have := congrArg String.length e
      simp only [String.length_append] at this
      have h2 : ".".length = 1 := rfl
      have h3 : "".length = 0 := rfl
      omega
    have h4 := congrArg String.length h1
    unfold dropTablePath at h4
    rw [joinPath_length _ _ hne, joinPath_length _ _ ht] at h4
    simp only [String.length_append] at h4
    have h2 : ".".length = 1 := rfl
    by_cases hd : conn.dirPath = ""
    · simp only [hd, if_true] at h4
      omega
    · simp only [hd, if_false] at h4
      omega

/-- Claim C33. `CopyFilter` is a shallow copy. The filter `And(name = %n)` is
the node at address 0 with its item at address 1. `CopyFilter` allocates the
node at address 2 and copies the fields of node 0 into it, the pointer to the
item included. `PushVarToFilter` on the copy with the variable `n` = `x` then
writes `x` into the node at address 1, the item of the original filter. A copy
of a filter without items leaves the original as it is. -/
theorem copy_filter_shares_items :
    CopyFilter 1
        [{ Field := "", Op := .OpAnd, Value := .nil, Items := [1] },
         { Field := "name", Op := .OpEq, Value := .str "%n", Items := [] }] 0 =
      some ([{ Field := "", Op := .OpAnd, Value := .nil, Items := [1] },
             { Field := "name", Op := .OpEq, Value := .str "%n", Items := [] },
             { Field := "", Op := .OpAnd, Value := .nil, Items := [1] }], 2) ∧
    PushVarToFilter 2
        [{ Field := "", Op := .OpAnd, Value := .nil, Items := [1] },
         { Field := "name", Op := .OpEq, Value := .str "%n", Items := [] },
         { Field := "", Op := .OpAnd, Value := .nil, Items := [1] }] 2 [("n", .str "x")] =
      some [{ Field := "", Op := .OpAnd, Value := .nil, Items := [1] },
            { Field := "name", Op := .OpEq, Value := .str "x", Items := [] },
            { Field := "", Op := .OpAnd, Value := .nil, Items := [1] }] ∧
    CopyFilter 1 [{ Field := "name", Op := .OpEq, Value := .str "%n", Items := [] }] 0 =
      some ([{ Field := "name", Op := .OpEq, Value := .str "%n", Items := [] },
             { Field := "name", Op := .OpEq, Value := .str "%n", Items := [] }], 1) ∧
    PushVarToFilter 1
        [{ Field := "name", Op := .OpEq, Value := .str "%n", Items := [] },
         { Field := "name", Op := .OpEq, Value := .str "%n", Items := [] }] 1
        [("n", .str "x")] =
      some [{ Field := "name", Op := .OpEq, Value := .str "%n", Items := [] },
            { Field := "name", Op := .OpEq, Value := .str "x", Items := [] }] :=
  ⟨rfl, rfl, rfl, rfl⟩

/-- For every filter in memory `CopyFilter` allocates one node and copies the
fields of the filter into it, the pointers to its items included. -/
theorem copyFilter_shallow (depth : Nat) (heap : FilterHeap) (f : Nat) (node : FilterNode)
    (h : heap.get? f = some node) :
    CopyFilter (depth + 1) heap f = some (heap ++ [node], heap.length) := by
  have hf : f < heap.length := by
    rcases Nat.lt_or_ge f heap.length with h1 | h1
    · exact h1
    · rw [List.get?_eq_none.mpr h1] at h
      cases h
  have h1 : (heap ++ [FilterNode.zero]).get? heap.length = some FilterNode.zero := by
    simp [List.getElem?_append_right]
  have h2 : (heap ++ [FilterNode.zero]).get? f = some node := by
    rw [List.get?_eq_getElem?, List.getElem?_append_left hf, ← List.get?_eq_getElem?]
    exact h
  have h3 : ¬ (FilterNode.zero.Op = .OpAnd ∨ FilterNode.zero.Op = .OpOr) := by decide
  unfold CopyFilter
  simp only [h1, h2, if_neg h3]
  congr 2
  simp

/-! ## Concurrent inserts -/

/-- A step that does not make a goroutine return leaves the rows of the
returned goroutines as they are. -/
theorem doneRows_set_other (rows : List String) (pcs : List InsertPc) (g : Nat)
    (pc x : InsertPc) (h : pcs.get? g = some pc) (h1 : pc ≠ .done) (h2 : x ≠ .done) :
    doneRows rows (pcs.set g x) = doneRows rows pcs := by
  induction rows generalizing pcs g with
  | nil => simp [doneRows]
  | cons row rows ih =>
    cases pcs with
    | nil => simp at h
    | cons p ps =>
      cases g with
      | zero =>
        simp only [List.get?_cons_zero, Option.some.injEq] at h
        subst h
        simp [doneRows, h1, h2]
      | succ g =>
        simp only [List.get?_cons_succ] at h
        simp only [List.set_cons_succ, doneRows]
        rw [ih ps g h]

/-- The step that makes a goroutine return adds its row to the rows of the
returned goroutines. -/
theorem doneRows_set_done (rows : List String) (pcs : List InsertPc) (g : Nat)
    (pc : InsertPc) (row : String) (h : pcs.get? g = some pc) (h1 : pc ≠ .done)
    (hr : rows.get? g = some row) :
    (doneRows rows (pcs.set g .done)).Perm (row :: doneRows rows pcs) := by
  induction rows generalizing pcs g with
  | nil => simp at hr
  | cons r rows ih =>
    cases pcs with
    | nil => simp at h
    | cons p ps =>
      cases g with
      | zero =>
        simp only [List.get?_cons_zero, Option.some.injEq] at h hr
        subst h
        subst hr
        simp [doneRows, h1]
      | succ g =>
        simp only [List.get?_cons_succ] at h hr
        simp only [List.set_cons_succ, doneRows]
        by_cases hp : p = .done
        · simp only [hp, if_true]
          exact (List.Perm.cons r (ih ps g h hr)).trans (List.Perm.swap row r _)
        · simp only [hp, if_false]
          exact ih ps g h hr

/-- When every goroutine has returned, the rows of the returned goroutines are
all the rows. -/
theorem doneRows_all (rows : List String) (pcs : List InsertPc)
    (hl : pcs.length = rows.length) (hall : ∀ pc ∈ pcs, pc = .done) :
    doneRows rows pcs = rows := by
  induction rows generalizing pcs with
  | nil => simp [doneRows]
  | cons r rows ih =>
    cases pcs with
    | nil => simp at hl
    | cons p ps =>
      have hp : p = .done := hall p (List.mem_cons_self p ps)
      simp only [doneRows, hp, if_true]
      rw [ih ps (by simpa using hl) (fun x hx => hall x (List.mem_cons_of_mem p hx))]

/-- The insert block adds the row behind the lines that follow the first. -/
theorem insertRow_drop (header row : String) (lines : List String) :
    (insertRow header row lines).drop 1 = lines.drop 1 ++ [row] := by
  unfold insertRow
  cases lines with
  | nil => rfl
  | cons a rest => simp

/-- Every step of a goroutine keeps the state of a run into a table file that
was there from the start. -/
theorem step_good (header : String) (init rows : List String) (s : Store) (g : Nat)
    (h : s.Good init rows) : (s.step header rows g).Good init rows := by
  obtain ⟨⟨lines, hfile, hperm⟩, hpcs, hlen⟩ := h
  have hset : ∀ x : InsertPc, x ≠ .statted false → x ≠ .created →
      ∀ pc ∈ s.pcs.set g x, pc ≠ .statted false ∧ pc ≠ .created := by
    intro x hx1 hx2 pc hpc
    rcases List.mem_or_eq_of_mem_set hpc with e | e
    · exact hpcs pc e
    · rw [e]
      exact ⟨hx1, hx2⟩
  unfold Store.step
  cases hg : s.pcs.get? g with
  | none => exact ⟨⟨lines, hfile, hperm⟩, hpcs, hlen⟩
  | some pc =>
    cases hr : rows.get? g with
    | none =>
      cases pc with
      | statted fileExist => cases fileExist <;> exact ⟨⟨lines, hfile, hperm⟩, hpcs, hlen⟩
      | start => exact ⟨⟨lines, hfile, hperm⟩, hpcs, hlen⟩
      | created => exact ⟨⟨lines, hfile, hperm⟩, hpcs, hlen⟩
      | locked => exact ⟨⟨lines, hfile, hperm⟩, hpcs, hlen⟩
      | done => exact ⟨⟨lines, hfile, hperm⟩, hpcs, hlen⟩
    | some row =>
      have hmem : pc ∈ s.pcs := List.get?_mem hg
      cases pc with
      | start =>
        refine ⟨⟨lines, hfile, ?_⟩, ?_, by simpa using hlen⟩
        · simp only
          rw [doneRows_set_other rows s.pcs g .start _ hg (by decide) (by simp)]
          exact hperm
        · simp only [hfile, Option.isSome_some]
          exact hset _ (by decide) (by decide)
      | statted fileExist =>
        cases fileExist with
        | false => exact absurd rfl (hpcs _ hmem).1
        | true =>
          simp only
          by_cases hm : s.mutex = true
          · rw [if_pos hm]
            exact ⟨⟨lines, hfile, hperm⟩, hpcs, hlen⟩
          · rw [if_neg hm]
            refine ⟨⟨lines, hfile, ?_⟩, hset _ (by decide) (by decide), by simpa using hlen⟩
            simp only
            rw [doneRows_set_other rows s.pcs g _ _ hg (by decide) (by decide)]
            exact hperm
      | created => exact absurd rfl (hpcs _ hmem).2
      | locked =>
        refine ⟨⟨insertRow header row lines, by simp [hfile], ?_⟩,
          hset _ (by decide) (by decide), by simpa using hlen⟩
        simp only
        rw [insertRow_drop]
        have h1 := doneRows_set_done rows s.pcs g .locked row hg (by decide) hr
        refine (List.Perm.append_right [row] hperm).trans ?_
        rw [List.append_assoc]
        refine List.Perm.append_left _ ?_
        exact (List.perm_append_comm.trans h1.symm)
      | done => exact ⟨⟨lines, hfile, hperm⟩, hpcs, hlen⟩

/-- No goroutine has returned before the first step. -/
theorem doneRows_start (rows : List String) :
    doneRows rows (rows.map (fun _ => InsertPc.start)) = [] := by
  induction rows with
  | nil => rfl
  | cons r rows ih =>
    rw [List.map_cons]
    unfold doneRows
    rw [if_neg (by decide)]
    exact ih

/-- The steps of a schedule keep the state of a run into a table file that was
there from the start. -/
theorem run_good (header : String) (init rows : List String) (schedule : List Nat)
    (s0 : Store) (h0 : s0.Good init rows) :
    (schedule.foldl (Store.step header rows) s0).Good init rows := by
  induction schedule generalizing s0 with
  | nil => exact h0
  | cons g rest ih =>
    rw [List.foldl_cons]
    exact ih _ (step_good header init rows s0 g h0)

/-- Inserts into a table file that is there when the goroutines start are not
lost: whatever the order of their steps, once every goroutine has returned the
lines behind the header are the lines the file had and the rows of all the
goroutines, each as often as it was inserted. -/
theorem inserts_into_existing_file (header : String) (init rows : List String)
    (schedule : List Nat)
    (hdone : ∀ pc ∈ (insertRun header (some init) rows schedule).pcs, pc = .done) :
    ∃ lines, (insertRun header (some init) rows schedule).file = some lines ∧
      (lines.drop 1).Perm (init.drop 1 ++ rows) := by
  have h0 : (Store.initial (some init) rows).Good init rows := by
    refine ⟨⟨init, rfl, ?_⟩, ?_, ?_⟩
    · show (init.drop 1).Perm (init.drop 1 ++ doneRows rows (rows.map (fun _ => InsertPc.start)))
      rw [doneRows_start, List.append_nil]
    · intro pc hpc
      obtain ⟨_, _, e⟩ := List.mem_map.mp hpc
      rw [← e]
      exact ⟨by decide, by decide⟩
    · show (rows.map (fun _ => InsertPc.start)).length = rows.length
      rw [List.length_map]
  obtain ⟨⟨lines, hfile, hperm⟩, _, hlen⟩ := run_good header init rows schedule _ h0
  refine ⟨lines, hfile, ?_⟩
  have hdone1 : ∀ pc ∈ (schedule.foldl (Store.step header rows)
      (Store.initial (some init) rows)).pcs, pc = .done := hdone
  rw [doneRows_all rows _ hlen hdone1] at hperm
  exact hperm

/-- Claim C35. Concurrent inserts can be lost. Two goroutines insert the rows
`rowA` and `rowB` through one connection into a table whose file does not
exist yet. Both run `os.Stat` and find no file. The first creates the file,
takes the mutex, writes the header and `rowA`, and returns. The second then
runs its `os.Create`, which stands before the `Lock()` and empties the file,
takes the mutex and writes the header and `rowB`. Both have returned and the
file holds `rowB` alone. When the file is there before the goroutines start
(here as an empty file), both rows are in it. -/
theorem concurrent_insert_is_lost :
    insertRun "h" none ["rowA", "rowB"] [0, 1, 0, 0, 0, 1, 1, 1] =
      { file := some ["h", "rowB"], mutex := false, pcs := [.done, .done] } ∧
    insertRun "h" (some []) ["rowA", "rowB"] [0, 1, 0, 0, 1, 1] =
      { file := some ["h", "rowA", "rowB"], mutex := false, pcs := [.done, .done] } := by
  refine ⟨by decide, by decide⟩

/-! ## Unterminated quotes: when they are literal text -/

/-- One turn of the tokenizer with the signs off. -/
theorem tokenLoop_signs_off (cfg : Text.Config) (headers : List String) (fuel : Nat)
    (c : Char) (rest : List Char) (st : Text.Scan) (hs : cfg.UseSign = false)
    (hq : st.inQuote = false) :
    ∃ st1, Text.tokenLoop cfg headers (fuel + 1) (c :: rest) st =
        Text.tokenLoop cfg headers fuel rest st1 ∧
      st1.inQuote = false ∧ st1.core = Text.literalStep cfg.Delimeter headers st.core c := by
  by_cases hc : c = cfg.Delimeter
  · refine ⟨{ st with processBufferToObj := true,
                      handed := st.handed ++
                        [(Text.fieldNameAt headers st.idx, String.mk st.txtBuff)],
                      txtBuff := [], idx := st.idx + 1 }, ?_, hq, ?_⟩
    · simp [Text.tokenLoop, Text.Scan.read, Text.Scan.quote, Text.Scan.closeMissing,
        Text.Scan.process, hs, hq, hc]
    · simp [Text.Scan.core, Text.literalStep, hc]
  · refine ⟨{ st with processBufferToObj := false, txtBuff := st.txtBuff ++ [c] }, ?_, hq, ?_⟩
    · simp [Text.tokenLoop, Text.Scan.read, Text.Scan.quote, Text.Scan.closeMissing,
        Text.Scan.process, hs, hq, hc]
    · simp [Text.Scan.core, Text.literalStep, hc]

/-- One turn of the tokenizer with the signs on, outside quotes, on a
character that opens no sign. -/
theorem tokenLoop_no_sign (cfg : Text.Config) (headers : List String) (fuel : Nat)
    (c : Char) (rest : List Char) (st : Text.Scan) (hs : cfg.UseSign = true)
    (hq : st.inQuote = false) (ho : Text.openSign cfg.Signs c = none) :
    ∃ st1, Text.tokenLoop cfg headers (fuel + 1) (c :: rest) st =
        Text.tokenLoop cfg headers fuel rest st1 ∧
      st1.inQuote = false ∧ st1.core = Text.literalStep cfg.Delimeter headers st.core c := by
  by_cases hc : c = cfg.Delimeter
  · subst hc
    exact ⟨_, tokenLoop_delimiter cfg headers fuel rest st hs hq ho, hq,
      by simp [Text.Scan.core, Text.literalStep]⟩
  · exact ⟨_, tokenLoop_plain_char cfg headers fuel c rest st hs hq hc ho, hq,
      by simp [Text.Scan.core, Text.literalStep, hc]⟩

/-- A run of turns each of which reads its character as literal text reads the
run as literal text. -/
theorem tokenLoop_literal_run (cfg : Text.Config) (headers : List String)
    (P : Char → Prop)
    (hstep : ∀ (fuel : Nat) (c : Char) (rest : List Char) (st : Text.Scan), P c →
      st.inQuote = false →
      ∃ st1, Text.tokenLoop cfg headers (fuel + 1) (c :: rest) st =
          Text.tokenLoop cfg headers fuel rest st1 ∧
        st1.inQuote = false ∧ st1.core = Text.literalStep cfg.Delimeter headers st.core c)
    (l : List Char) (hl : ∀ c ∈ l, P c) (fuel : Nat) (tl : List Char) (st : Text.Scan)
    (hq : st.inQuote = false) :
    ∃ st1, Text.tokenLoop cfg headers (fuel + l.length) (l ++ tl) st =
        Text.tokenLoop cfg headers fuel tl st1 ∧
      st1.inQuote = false ∧ st1.core = Text.literalScan cfg.Delimeter headers l st.core := by
  induction l generalizing st with
  | nil => exact ⟨st, rfl, hq, rfl⟩
  | cons c l ih =>
    obtain ⟨st1, h1, h2, h3⟩ :=
      hstep (fuel + l.length) c (l ++ tl) st (hl c (List.mem_cons_self c l)) hq
    obtain ⟨st2, k1, k2, k3⟩ := ih (fun x hx => hl x (List.mem_cons_of_mem c hx)) st1 h2
    refine ⟨st2, ?_, k2, ?_⟩
    · rw [List.length_cons, ← Nat.add_assoc, List.cons_append, h1]
      exact k1
    · rw [k3, h3]
      rfl

/-- One turn of the tokenizer on a character that opens a sign closing with
the same character. -/
theorem tokenLoop_open_sign (cfg : Text.Config) (headers : List String) (fuel : Nat)
    (q : Char) (rest : List Char) (st : Text.Scan) (hs : cfg.UseSign = true)
    (hq : st.inQuote = false) (ho : Text.openSign cfg.Signs q = some q) :
    Text.tokenLoop cfg headers (fuel + 1) (q :: rest) st =
      Text.tokenLoop cfg headers fuel rest
        { st with inQuote := true, closeQuote := q, afterQuote := rest,
                  quoteBuff := st.txtBuff, processBufferToObj := false } := by
  simp [Text.tokenLoop, Text.Scan.read, Text.Scan.quote, Text.Scan.closeMissing,
    Text.Scan.process, hs, hq, ho]

/-- One turn of the tokenizer inside a quote on a character that does not
close it and is not the last of the line. -/
theorem tokenLoop_inside (cfg : Text.Config) (headers : List String) (fuel : Nat)
    (c : Char) (rest : List Char) (st : Text.Scan) (hs : cfg.UseSign = true)
    (hq : st.inQuote = true) (hc : c ≠ st.closeQuote) (hr : rest ≠ []) :
    Text.tokenLoop cfg headers (fuel + 1) (c :: rest) st =
      Text.tokenLoop cfg headers fuel rest
        { st with processBufferToObj := false, txtBuff := st.txtBuff ++ [c] } := by
  simp [Text.tokenLoop, Text.Scan.read, Text.Scan.quote, Text.Scan.closeMissing,
    Text.Scan.process, hs, hq, hc, hr]

/-- The turn of the tokenizer on the last character of the line inside a quote
that it does not close: the rewind. The loop goes on behind the opening quote,
outside quotes, with the buffer as it was there and the closing character. -/
theorem tokenLoop_rewind (cfg : Text.Config) (headers : List String) (fuel : Nat)
    (c : Char) (st : Text.Scan) (hs : cfg.UseSign = true)
    (hq : st.inQuote = true) (hc : c ≠ st.closeQuote) :
    Text.tokenLoop cfg headers (fuel + 1) [c] st =
      Text.tokenLoop cfg headers fuel st.afterQuote
        { st with inQuote := false, processBufferToObj := false,
                  txtBuff := st.quoteBuff ++ [st.closeQuote] } := by
  simp [Text.tokenLoop, Text.Scan.read, Text.Scan.quote, Text.Scan.closeMissing,
    Text.Scan.process, Text.Scan.rewind, hs, hq, hc]

/-- The tokenizer inside a quote that is not closed before the end of the
line: it reads to the end and rewinds. -/
theorem tokenLoop_unclosed (cfg : Text.Config) (headers : List String)
    (hs : cfg.UseSign = true) (rem : List Char) (hne : rem ≠ []) (fuel : Nat)
    (st : Text.Scan) (hq : st.inQuote = true) (hrem : ∀ c ∈ rem, c ≠ st.closeQuote) :
    ∃ st1, Text.tokenLoop cfg headers (fuel + rem.length) rem st =
        Text.tokenLoop cfg headers fuel st.afterQuote st1 ∧
      st1.inQuote = false ∧ st1.txtBuff = st.quoteBuff ++ [st.closeQuote] ∧
      st1.idx = st.idx ∧ st1.processBufferToObj = false ∧ st1.handed = st.handed := by
  induction rem generalizing st with
  | nil => exact absurd rfl hne
  | cons c rest ih =>
    have hc := hrem c (List.mem_cons_self c rest)
    cases rest with
    | nil =>
      exact ⟨_, tokenLoop_rewind cfg headers fuel c st hs hq hc, rfl, rfl, rfl, rfl, rfl⟩
    | cons c2 rest2 =>
      obtain ⟨st1, h1, h2, h3, h4, h5, h6⟩ :=
        ih (by simp) { st with processBufferToObj := false, txtBuff := st.txtBuff ++ [c] } hq
          (fun x hx => hrem x (List.mem_cons_of_mem c hx))
      refine ⟨st1, ?_, h2, h3, h4, h5, h6⟩
      rw [List.length_cons, ← Nat.add_assoc,
        tokenLoop_inside cfg headers _ c _ st hs hq hc (by simp)]
      exact h1

/-- What `textToObj` returns depends on the deciding variables only. -/
theorem finish_congr (headers : List String) (st st1 : Text.Scan) (h : st.core = st1.core) :
    Text.Scan.finish headers st = Text.Scan.finish headers st1 := by
  unfold Text.Scan.core at h
  simp only [Prod.mk.injEq] at h
  obtain ⟨h1, h2, h3, h4⟩ := h
  unfold Text.Scan.finish
  rw [h1, h2, h3, h4]

/-- The loop on no characters returns the state it is in. -/
theorem tokenLoop_nil (cfg : Text.Config) (headers : List String) (fuel : Nat)
    (st : Text.Scan) : Text.tokenLoop cfg headers fuel [] st = some st := by
  cases fuel <;> rfl

/-- An unterminated quote is literal text when it is the only sign of the line
and not its last character: let the character `q` open a sign that closes with
`q` itself, let it not be the delimiter, and let no other character of the line
open a sign. If at least one character follows `q`, `textToObj` decodes the
line as it does with the signs off, that is, into the segments between the
delimiters with `q` kept in place. -/
theorem unterminated_quote_read_as_literal (cfg : Text.Config) (headers : List String)
    (pre post : List Char) (q : Char) (hs : cfg.UseSign = true)
    (hq : Text.openSign cfg.Signs q = some q) (hqd : q ≠ cfg.Delimeter)
    (hpre : ∀ c ∈ pre, Text.openSign cfg.Signs c = none)
    (hpost : ∀ c ∈ post, Text.openSign cfg.Signs c = none) (hne : post ≠ []) :
    Text.textToObj cfg (String.mk (pre ++ q :: post)) headers =
      Text.textToObj { cfg with UseSign := false } (String.mk (pre ++ q :: post)) headers := by
  have hlen : (pre ++ q :: post).length = pre.length + post.length + 1 := by
    simp
    omega
  unfold Text.textToObj
  simp only [hlen]
  generalize hn : pre.length + post.length + 1 = n
  -- the run with the signs on
  obtain ⟨F, hF⟩ : ∃ F, (n + 1) * (n + 1) =
      (((F + post.length) + post.length) + 1) + pre.length :=
    ⟨(n + 1) * (n + 1) - (post.length + post.length + 1 + pre.length), by
      have : post.length + post.length + 1 + pre.length ≤ (n + 1) * (n + 1) := by nlinarith
      omega⟩
  obtain ⟨st1, a1, a2, a3⟩ :=
    tokenLoop_literal_run cfg headers (fun c => Text.openSign cfg.Signs c = none)
      (fun fuel c rest st hc hst => tokenLoop_no_sign cfg headers fuel c rest st hs hst hc)
      pre hpre (((F + post.length) + post.length) + 1) (q :: post) Text.Scan.start rfl
  have hq1 : ∀ c ∈ post, c ≠ q := by
    intro c hc e
    have := hpost c hc
    rw [e, hq] at this
    cases this
  obtain ⟨st3, b1, b2, b3, b4, b5, b6⟩ :=
    tokenLoop_unclosed cfg headers hs post hne (F + post.length)
      { st1 with inQuote := true, closeQuote := q, afterQuote := post,
                 quoteBuff := st1.txtBuff, processBufferToObj := false } rfl hq1
  obtain ⟨st4, c1, _, c3⟩ :=
    tokenLoop_literal_run cfg headers (fun c => Text.openSign cfg.Signs c = none)
      (fun fuel c rest st hc hst => tokenLoop_no_sign cfg headers fuel c rest st hs hst hc)
      post hpost F [] st3 b2
  rw [List.append_nil] at c1
  have hon : Text.tokenLoop cfg headers ((n + 1) * (n + 1)) (pre ++ q :: post)
      Text.Scan.start = some st4 := by
    rw [hF, a1, tokenLoop_open_sign cfg headers _ q post st1 hs a2 hq, b1]
    simp only
    rw [c1, tokenLoop_nil]
  -- the run with the signs off
  obtain ⟨G, hG⟩ : ∃ G, (n + 1) * (n + 1) = G + (pre ++ q :: post).length :=
    ⟨(n + 1) * (n + 1) - (pre ++ q :: post).length, by
      have : (pre ++ q :: post).length ≤ (n + 1) * (n + 1) := by
        rw [hlen, hn]
        nlinarith
      omega⟩
  obtain ⟨st5, d1, _, d3⟩ :=
    tokenLoop_literal_run { cfg with UseSign := false } headers (fun _ => True)
      (fun fuel c rest st _ hst =>
        tokenLoop_signs_off { cfg with UseSign := false } headers fuel c rest st rfl hst)
      (pre ++ q :: post) (fun _ _ => trivial) G [] Text.Scan.start rfl
  rw [List.append_nil] at d1
  have hoff : Text.tokenLoop { cfg with UseSign := false } headers ((n + 1) * (n + 1))
      (pre ++ q :: post) Text.Scan.start = some st5 := by
    rw [hG, d1, tokenLoop_nil]
  rw [hon, hoff]
  simp only [Option.map_some', Option.some.injEq]
  apply finish_congr
  rw [c3, d3]
  have e3 : st3.core = Text.literalStep cfg.Delimeter headers st1.core q := by
    simp [Text.Scan.core, Text.literalStep, hqd, b3, b4, b5, b6]
  rw [e3, a3]
  simp [Text.literalScan, List.foldl_append]

end Dbflex
